import Mathlib

set_option linter.unnecessarySeqFocus false

/-!
# ProfitPilot: the data pipeline of `script.js`

A shallow embedding of `processBusinessData`, `extractMonth`, `calculateAverageGrowth`,
`predictRevenue` and `performAIAnalysis` with the local insight generators (and of the
host functions they call: `parseFloat`, `String.prototype.split`, property lookup on
object literals, `try`/`catch`, `sort`), and the properties of the specification that
concern them.

Modelling conventions.

* A finite JavaScript number is a rational (`JSNum.fin`), with the three IEEE special
  values `Infinity`, `-Infinity` and `NaN` kept apart, since `parseFloat` can produce
  them from text.  The first definitions compute in exact arithmetic.  The rounding of
  the host is a `Rounding`: `Rounded.processBusinessData` is the same function with the
  rounding applied after every operation and every `parseFloat`, `Rounding.binary64` is
  the rounding of IEEE 754 doubles and `Rounding.exact` gives the exact function back.
  The sign of zero is not modelled.
* A CSV cell is a `Value`: a string, a finite number (dynamic typing of the CSV
  reader) or absent.  Strings are sequences of Unicode scalar values; `length` and
  string comparison count UTF-16 code units.
* A thrown exception is the `error` alternative of `Except JSError`.  The function
  `processBusinessData` mutates a global and returns nothing: its model returns the
  value of the global `processedData` on normal completion.
* `new Date(text)` is engine defined outside the ISO format, and
  `Array.prototype.sort` with a comparator that can answer `NaN` leaves the order
  to the engine: both are parameters (`DateParser`, `Sorter`), and every theorem
  holds for all of them.  So is the number formatting of the host (`toFixed`,
  `Intl.NumberFormat`: `HostFormat`).
-/

namespace ProfitPilot

/-! ## Numbers -/

/-- A JavaScript number in exact arithmetic. -/
inductive JSNum where
  | fin (q : ℚ)
  | pinf
  | ninf
  | nan
  deriving DecidableEq

namespace JSNum

instance : Inhabited JSNum := ⟨fin 0⟩

/-- The JavaScript `+` on numbers. -/
def add : JSNum → JSNum → JSNum
  | fin a, fin b => fin (a + b)
  | fin _, pinf => pinf
  | fin _, ninf => ninf
  | pinf, fin _ => pinf
  | pinf, pinf => pinf
  | ninf, fin _ => ninf
  | ninf, ninf => ninf
  | pinf, ninf => nan
  | ninf, pinf => nan
  | nan, _ => nan
  | _, nan => nan

/-- Unary minus. -/
def neg : JSNum → JSNum
  | fin a => fin (-a)
  | pinf => ninf
  | ninf => pinf
  | nan => nan

/-- The JavaScript binary `-`. -/
def sub (a b : JSNum) : JSNum := add a (neg b)

/-- Sign of a number as seen by multiplication and division: `none` for `NaN`. -/
def sign : JSNum → Option Int
  | fin a => some (if a < 0 then -1 else if a = 0 then 0 else 1)
  | pinf => some 1
  | ninf => some (-1)
  | nan => none

/-- An infinity of the given sign, `NaN` for sign zero. -/
def infOfSign (s : Int) : JSNum :=
  if 0 < s then pinf else if s < 0 then ninf else nan

/-- The JavaScript `*`. -/
def mul : JSNum → JSNum → JSNum
  | fin a, fin b => fin (a * b)
  | nan, _ => nan
  | _, nan => nan
  | a, b =>
    match sign a, sign b with
    | some s, some t => infOfSign (s * t)
    | _, _ => nan

/-- The JavaScript `/` (a zero divisor is taken as `+0`). -/
def div : JSNum → JSNum → JSNum
  | fin a, fin b =>
    if b = 0 then (if a = 0 then nan else if 0 < a then pinf else ninf) else fin (a / b)
  | fin _, pinf => fin 0
  | fin _, ninf => fin 0
  | pinf, fin b => if 0 ≤ b then pinf else ninf
  | ninf, fin b => if 0 ≤ b then ninf else pinf
  | _, _ => nan

/-- The JavaScript `a > b`: false as soon as one side is `NaN`. -/
def gt : JSNum → JSNum → Bool
  | fin a, fin b => decide (b < a)
  | pinf, fin _ => true
  | pinf, ninf => true
  | fin _, ninf => true
  | _, _ => false

/-- The JavaScript `a <= b`. -/
def le : JSNum → JSNum → Bool
  | fin a, fin b => decide (a ≤ b)
  | fin _, pinf => true
  | ninf, fin _ => true
  | ninf, pinf => true
  | pinf, pinf => true
  | ninf, ninf => true
  | _, _ => false

/-- The global `isNaN` on a number. -/
def isNaN : JSNum → Bool
  | nan => true
  | _ => false

/-- Truthiness of a number: everything but `0` and `NaN`. -/
def truthy : JSNum → Bool
  | fin a => decide (a ≠ 0)
  | nan => false
  | _ => true

/-- The expression `x || 0` on a number. -/
def orZero (x : JSNum) : JSNum := if truthy x then x else fin 0

instance : Zero JSNum := ⟨fin 0⟩
instance : Add JSNum := ⟨add⟩

/-- Addition of JavaScript numbers is a commutative monoid once rounding is left out. -/
instance : AddCommMonoid JSNum where
  nsmul := nsmulRec
  add_assoc a b c := by
    change add (add a b) c = add a (add b c)
    cases a <;> cases b <;> cases c <;> simp only [add] <;>
      exact congrArg fin (add_assoc _ _ _)
  zero_add a := by
    change add (fin 0) a = a
    cases a <;> simp only [add] <;> exact congrArg fin (zero_add _)
  add_zero a := by
    change add a (fin 0) = a
    cases a <;> simp only [add] <;> exact congrArg fin (add_zero _)
  add_comm a b := by
    change add a b = add b a
    cases a <;> cases b <;> simp only [add] <;> exact congrArg fin (add_comm _ _)

/-- Strictly positive: a positive rational or `Infinity`. -/
def Pos (x : JSNum) : Prop := x.gt (fin 0) = true

/-- Not negative and not `NaN`. -/
def NonNeg (x : JSNum) : Prop := (fin 0).le x = true

end JSNum

/-! ## Cells, rows and errors -/

/-- A cell of a parsed CSV row. -/
inductive Value where
  | str (s : String)
  | num (n : ℚ)
  | absent
  deriving DecidableEq

/-- A row: column names with their cells, in insertion order. -/
abbrev Record := List (String × Value)

/-- The property read `row[key]`; a missing column reads as `undefined`. -/
def Record.get (r : Record) (key : String) : Value :=
  match r.lookup key with
  | some v => v
  | none => Value.absent

/-- Truthiness of a cell. -/
def Value.truthy : Value → Bool
  | .str s => decide (s ≠ "")
  | .num n => decide (n ≠ 0)
  | .absent => false

/-- Exceptions a step of the pipeline can raise. -/
inductive JSError where
  | typeError
  deriving DecidableEq

instance instDecidableEqExcept {ε α : Type} [DecidableEq ε] [DecidableEq α] :
    DecidableEq (Except ε α)
  | .ok a, .ok b =>
    if h : a = b then isTrue (congrArg Except.ok h)
    else isFalse (fun h2 => h (Except.ok.inj h2))
  | .error a, .error b =>
    if h : a = b then isTrue (congrArg Except.error h)
    else isFalse (fun h2 => h (Except.error.inj h2))
  | .ok _, .error _ => isFalse (fun h => Except.noConfusion h)
  | .error _, .ok _ => isFalse (fun h => Except.noConfusion h)

/-- The statement `try { body } catch (error) { handler }`. -/
def tryCatch {α : Type} (body : Except JSError α) (handler : JSError → Except JSError α) :
    Except JSError α :=
  match body with
  | .ok a => .ok a
  | .error e => handler e

/-! ## Strings -/

/-- The `length` of a string: UTF-16 code units. -/
def jsLength (s : List Char) : Nat :=
  (s.map fun c => if c.val < 0x10000 then 1 else 2).sum

/-- The call `s.split('-')`. -/
def splitDash : List Char → List (List Char)
  | [] => [[]]
  | c :: cs =>
    if c = '-' then [] :: splitDash cs
    else
      match splitDash cs with
      | [] => [[c]]
      | p :: ps => (c :: p) :: ps

/-- The call `s.replace(/[$,]/g, '')`. -/
def stripCurrency (s : List Char) : List Char :=
  s.filter fun c => !(c == '$' || c == ',')

/-- The call `s.toLowerCase()`, on the ASCII letters.  (The full Unicode mapping sends no
other character to a letter of `completed`, so the comparison with that word is the same.) -/
def toLowerCase (s : String) : String :=
  String.mk (s.toList.map Char.toLower)

/-- White space and line terminators skipped by `parseFloat` at the start of its input. -/
def isStrWhiteSpaceChar (c : Char) : Bool :=
  let n := c.toNat
  n == 0x09 || n == 0x0A || n == 0x0B || n == 0x0C || n == 0x0D || n == 0x20 || n == 0xA0 ||
  n == 0x1680 || (0x2000 ≤ n && n ≤ 0x200A) || n == 0x2028 || n == 0x2029 || n == 0x202F ||
  n == 0x205F || n == 0x3000 || n == 0xFEFF

/-- Value of a run of decimal digits. -/
def digitsValue (ds : List Char) : Nat :=
  ds.foldl (fun acc c => 10 * acc + (c.toNat - 48)) 0

/-- The `ExponentPart` at the head of the text, `0` when there is none. -/
def parseExponent : List Char → Int
  | [] => 0
  | e :: rest =>
    if e = 'e' ∨ e = 'E' then
      match rest with
      | '+' :: ds =>
        if (ds.takeWhile Char.isDigit).isEmpty then 0
        else (digitsValue (ds.takeWhile Char.isDigit) : Int)
      | '-' :: ds =>
        if (ds.takeWhile Char.isDigit).isEmpty then 0
        else -(digitsValue (ds.takeWhile Char.isDigit) : Int)
      | ds =>
        if (ds.takeWhile Char.isDigit).isEmpty then 0
        else (digitsValue (ds.takeWhile Char.isDigit) : Int)
    else 0

/-- The global `parseFloat`: the longest prefix of the trimmed text that is a
`StrDecimalLiteral`, `NaN` when there is none. -/
def parseFloat (input : List Char) : JSNum :=
  let trimmed := input.dropWhile isStrWhiteSpaceChar
  let signed : Bool × List Char :=
    match trimmed with
    | '+' :: r => (false, r)
    | '-' :: r => (true, r)
    | r => (false, r)
  let body := signed.2
  if "Infinity".toList.isPrefixOf body then
    (if signed.1 then JSNum.ninf else JSNum.pinf)
  else
    let intPart := body.takeWhile Char.isDigit
    let afterInt := body.dropWhile Char.isDigit
    let frac : List Char × List Char :=
      match afterInt with
      | '.' :: r => (r.takeWhile Char.isDigit, r.dropWhile Char.isDigit)
      | r => ([], r)
    if intPart.isEmpty && frac.1.isEmpty then JSNum.nan
    else
      let mantissa : ℚ := (digitsValue (intPart ++ frac.1) : ℚ) / (10 : ℚ) ^ frac.1.length
      let magnitude : ℚ := mantissa * (10 : ℚ) ^ parseExponent frac.2
      JSNum.fin (if signed.1 then -magnitude else magnitude)

/-- Decimal digit as a character. -/
def digitChar (d : Nat) : Char := Char.ofNat (48 + d)

/-- Decimal digits of a natural number, most significant first. -/
def natDigits : Nat → Nat → List Char
  | 0, _ => []
  | fuel + 1, n =>
    if n < 10 then [digitChar n] else natDigits fuel (n / 10) ++ [digitChar (n % 10)]

/-- The conversion `String(n)` of a non-negative integer. -/
def renderNat (n : Nat) : List Char := natDigits (n + 1) n

/-- The conversion `String(n)` of an integer. -/
def renderInt : Int → List Char
  | Int.ofNat n => renderNat n
  | Int.negSucc n => '-' :: renderNat (n + 1)

/-- The call `s.padStart(2, '0')`. -/
def padStart2 (s : List Char) : List Char :=
  List.replicate (2 - jsLength s) '0' ++ s

/-! ## `extractMonth` -/

/-- What `getFullYear()` and `getMonth()` read from a valid `Date`. -/
structure ParsedDate where
  year : Int
  month : Fin 12
  deriving DecidableEq

/-- The constructor `new Date(text)` followed by the validity test on `getTime()`:
`none` is an invalid date. -/
abbrev DateParser := String → Option ParsedDate

/-- The own properties of the object literal `monthNames`. -/
def monthTable : List (String × String) :=
  [("Jan", "01"), ("Feb", "02"), ("Mar", "03"), ("Apr", "04"),
   ("May", "05"), ("Jun", "06"), ("Jul", "07"), ("Aug", "08"),
   ("Sep", "09"), ("Oct", "10"), ("Nov", "11"), ("Dec", "12")]

/-- The members every object literal inherits from `Object.prototype`, as a template
literal renders them. -/
def objectPrototypeMember (key : String) : Option String :=
  if key = "constructor" then some "function Object() \x7b [native code] \x7d"
  else if key = "__proto__" then some "[object Object]"
  else if key ∈ ["hasOwnProperty", "isPrototypeOf", "propertyIsEnumerable", "toLocaleString",
      "toString", "valueOf", "__defineGetter__", "__defineSetter__", "__lookupGetter__",
      "__lookupSetter__"] then
    some ("function " ++ key ++ "() \x7b [native code] \x7d")
  else none

/-- The read `monthNames[key]`, rendered; `none` is `undefined`.  Every value found is
truthy. -/
def monthNames (key : String) : Option String :=
  match monthTable.lookup key with
  | some mm => some mm
  | none => objectPrototypeMember key

/-- The body of the `try` block of `extractMonth`, followed by the final `return null`. -/
def extractMonthBody (parseDate : DateParser) : Value → Except JSError (Option String)
  | .num _ => .error JSError.typeError
  | .absent => .error JSError.typeError
  | .str dateString =>
    if dateString.toList.contains '-' && decide (jsLength dateString.toList ≤ 10) then
      match splitDash dateString.toList with
      | [_, p1, p2] =>
        match monthNames (String.mk p1) with
        | some month => .ok (some ("20" ++ String.mk p2 ++ "-" ++ month))
        | none => .ok none
      | _ => .ok none
    else
      match parseDate dateString with
      | some date =>
        .ok (some (String.mk (renderInt date.year) ++ "-" ++
          String.mk (padStart2 (renderNat (date.month.val + 1)))))
      | none => .ok none

/-- The function `extractMonth`: the `catch` clause logs a warning and falls through to
`return null`. -/
def extractMonth (parseDate : DateParser) (dateString : Value) :
    Except JSError (Option String) :=
  tryCatch (extractMonthBody parseDate dateString) (fun _ => .ok none)

/-! ## The accumulator -/

/-- An object used as a map from property names to numbers, in insertion order.  The
pipeline reads and writes only keys returned by `extractMonth`, which contain a dash, and the
key `Materials`: none is a member of `Object.prototype`, so every read is of an own
property. -/
abbrev JSObj := List (String × JSNum)

/-- The read `obj[key]`; `none` is `undefined`. -/
def JSObj.get : JSObj → String → Option JSNum
  | [], _ => none
  | (k, v) :: rest, key => if k = key then some v else JSObj.get rest key

/-- The write `obj[key] = v`. -/
def JSObj.set : JSObj → String → JSNum → JSObj
  | [], key, v => [(key, v)]
  | (k, x) :: rest, key, v =>
    if k = key then (k, v) :: rest else (k, x) :: JSObj.set rest key v

/-- The expression `obj[key] || 0`. -/
def JSObj.getOrZero (o : JSObj) (key : String) : JSNum :=
  match o.get key with
  | some x => x.orZero
  | none => JSNum.fin 0

/-- The global `processedData`. -/
structure ProcessedData where
  totalRevenue : JSNum
  totalCosts : JSNum
  netProfit : JSNum
  profitMargin : JSNum
  revenueByMonth : JSObj
  costsByMonth : JSObj
  categorizedExpenses : JSObj
  deriving DecidableEq

/-- The value `processedData` is reset to at the start of `processBusinessData`. -/
def ProcessedData.initial : ProcessedData :=
  { totalRevenue := JSNum.fin 0, totalCosts := JSNum.fin 0, netProfit := JSNum.fin 0,
    profitMargin := JSNum.fin 0, revenueByMonth := [], costsByMonth := [],
    categorizedExpenses := [] }

/-- The loop `list.forEach(item => ...)` over a body that updates the accumulator and may
throw. -/
def forEachM {σ α : Type} (body : σ → α → Except JSError σ) : σ → List α → Except JSError σ
  | st, [] => .ok st
  | st, a :: rest =>
    match body st a with
    | .ok st2 => forEachM body st2 rest
    | .error e => .error e

/-! ## `processBusinessData` -/

/-- The expression `parseFloat(String(v).replace(/[$,]/g, ''))`.  For a number cell `String`
gives its shortest decimal form, which holds neither `$` nor `,` and which `parseFloat` reads
back as the same number; `String(undefined)` is not numeric. -/
def amountText : Value → JSNum
  | .str s => parseFloat (stripCurrency s.toList)
  | .num n => JSNum.fin n
  | .absent => JSNum.nan

/-- The test `order['Type'] === 'Sale' || order['Type'] === 'sale'`. -/
def isSaleType (v : Value) : Bool :=
  decide (v = Value.str "Sale") || decide (v = Value.str "sale")

/-- The local `orderValue` of a sale once the `Amount` and `Net` fields have been tried. -/
def orderValueOf (order : Record) : JSNum :=
  let amount := order.get "Amount"
  let fromAmount : JSNum :=
    if amount.truthy && decide (amount ≠ Value.str "--") && decide (amount ≠ Value.str "") then
      (if !(amountText amount).isNaN then amountText amount else JSNum.fin 0)
    else JSNum.fin 0
  let net := order.get "Net"
  if decide (fromAmount = JSNum.fin 0) && net.truthy then
    (if !(amountText net).isNaN then amountText net else fromAmount)
  else fromAmount

/-- The block `if (date) { const month = extractMonth(date); if (month) { byMonth[month] =
(byMonth[month] || 0) + amount; } }`. -/
def addToMonth (parseDate : DateParser) (byMonth : JSObj) (date : Value) (amount : JSNum) :
    Except JSError JSObj :=
  if date.truthy then
    match extractMonth parseDate date with
    | .ok (some month) =>
      if month ≠ "" then .ok (byMonth.set month ((byMonth.getOrZero month).add amount))
      else .ok byMonth
    | .ok none => .ok byMonth
    | .error e => .error e
  else .ok byMonth

/-- The body of `ordersData.forEach`. -/
def processOrder (parseDate : DateParser) (st : ProcessedData) (order : Record) :
    Except JSError ProcessedData :=
  if isSaleType (order.get "Type") then
    let orderValue := orderValueOf order
    if orderValue.gt (JSNum.fin 0) then
      match addToMonth parseDate st.revenueByMonth (order.get "Date") orderValue with
      | .ok byMonth =>
        .ok { st with totalRevenue := st.totalRevenue.add orderValue, revenueByMonth := byMonth }
      | .error e => .error e
    else .ok st
  else .ok st

/-- The predicate of `costsData.filter`: `(cost['Order Status'] || '').toLowerCase() ===
'completed'`.  A number has no `toLowerCase`, so the call throws a `TypeError`. -/
def isCompletedOrder (cost : Record) : Except JSError Bool :=
  let status := if (cost.get "Order Status").truthy then cost.get "Order Status" else Value.str ""
  match status with
  | .str s => .ok (decide (toLowerCase s = "completed"))
  | _ => .error JSError.typeError

/-- The call `costsData.filter(...)`. -/
def filterCompleted : List Record → Except JSError (List Record)
  | [] => .ok []
  | cost :: rest =>
    match isCompletedOrder cost with
    | .error e => .error e
    | .ok keep =>
      match filterCompleted rest with
      | .error e => .error e
      | .ok kept => .ok (if keep then cost :: kept else kept)

/-- The call `completedOrders.sort(...)` by order date: some rearrangement of the list (the
comparator answers `NaN` on a date the engine cannot read, which leaves the order to the
engine). -/
structure Sorter where
  sort : List Record → List Record
  perm : ∀ l, (sort l).Perm l

/-- The local `costAmount` of a completed cost row. -/
def costAmountOf (cost : Record) : JSNum :=
  let value := cost.get "Order Value"
  if value.truthy then
    (if !(amountText value).isNaN && (amountText value).gt (JSNum.fin 0) then amountText value
     else JSNum.fin 0)
  else JSNum.fin 0

/-- The statements `if (!cats['Materials']) { cats['Materials'] = 0; }
cats['Materials'] += amount;`. -/
def addToMaterials (cats : JSObj) (amount : JSNum) : JSObj :=
  let present : Bool :=
    match cats.get "Materials" with
    | some x => x.truthy
    | none => false
  let cats0 := if !present then cats.set "Materials" (JSNum.fin 0) else cats
  match cats0.get "Materials" with
  | some x => cats0.set "Materials" (x.add amount)
  | none => cats0.set "Materials" JSNum.nan

/-- The body of `completedOrders.forEach`. -/
def processCost (parseDate : DateParser) (st : ProcessedData) (cost : Record) :
    Except JSError ProcessedData :=
  let costAmount := costAmountOf cost
  if costAmount.gt (JSNum.fin 0) then
    match addToMonth parseDate st.costsByMonth (cost.get "Order Date") costAmount with
    | .ok byMonth =>
      .ok { st with
        totalCosts := st.totalCosts.add costAmount
        costsByMonth := byMonth
        categorizedExpenses := addToMaterials st.categorizedExpenses costAmount }
    | .error e => .error e
  else .ok st

/-- The last two statements of `processBusinessData`. -/
def deriveMetrics (st : ProcessedData) : ProcessedData :=
  let netProfit := st.totalRevenue.sub st.totalCosts
  { st with
    netProfit := netProfit
    profitMargin :=
      if st.totalRevenue.gt (JSNum.fin 0) then
        (netProfit.div st.totalRevenue).mul (JSNum.fin 100)
      else JSNum.fin 0 }

/-- The function `processBusinessData` on the globals `ordersData` and `costsData`; the
result is the global `processedData` when the function returns, an error when it throws. -/
def processBusinessData (parseDate : DateParser) (sorter : Sorter)
    (ordersData costsData : List Record) : Except JSError ProcessedData :=
  let afterOrders : Except JSError ProcessedData :=
    if ordersData.length > 0 then forEachM (processOrder parseDate) ProcessedData.initial ordersData
    else .ok ProcessedData.initial
  match afterOrders with
  | .error e => .error e
  | .ok st1 =>
    let afterCosts : Except JSError ProcessedData :=
      if costsData.length > 0 then
        match filterCompleted costsData with
        | .error e => .error e
        | .ok completedOrders => forEachM (processCost parseDate) st1 (sorter.sort completedOrders)
      else .ok st1
    match afterCosts with
    | .error e => .error e
    | .ok st2 => .ok (deriveMetrics st2)

/-! ## Vocabulary of the specification, read off the code -/

/-- The bucket the caller of `extractMonth` uses for a date cell: the cell is truthy, the
call returns, and what it returns is truthy. -/
def bucketOf (parseDate : DateParser) (date : Value) : Option String :=
  if date.truthy then
    match extractMonth parseDate date with
    | .ok (some month) => if month ≠ "" then some month else none
    | _ => none
  else none

/-- An order row that reaches `totalRevenue`. -/
def isCountedOrder (order : Record) : Bool :=
  isSaleType (order.get "Type") && (orderValueOf order).gt (JSNum.fin 0)

/-- A completed cost row that reaches `totalCosts`. -/
def isCountedCost (cost : Record) : Bool :=
  (costAmountOf cost).gt (JSNum.fin 0)

/-- A status cell that equals `completed` when letter case is ignored. -/
def statusIsCompleted : Value → Bool
  | .str s => decide (toLowerCase s = "completed")
  | _ => false

/-- A status cell on which `toLowerCase` can be called: text, or a falsy cell replaced
by the empty string. -/
def statusIsText (v : Value) : Bool :=
  match v with
  | .str _ => true
  | .num n => decide (n = 0)
  | .absent => true

/-- One step of a monthly series: `obj[key] = (obj[key] || 0) + amount`. -/
def addEntry (o : JSObj) (e : String × JSNum) : JSObj :=
  o.set e.1 ((o.getOrZero e.1).add e.2)

/-- Sum of the values of an object. -/
def sumValues (o : JSObj) : JSNum := (o.map Prod.snd).sum

/-- The call `Object.keys(obj)`. -/
def objectKeys (o : JSObj) : List String := o.map Prod.fst

/-- The monthly contribution of a row, when its date buckets. -/
def entryOf (parseDate : DateParser) (dateKey : String) (amount : Record → JSNum)
    (row : Record) : Option (String × JSNum) :=
  (bucketOf parseDate (row.get dateKey)).map fun month => (month, amount row)

/-- The rows of a list that bucket to a given period. -/
def rowsOfMonth (parseDate : DateParser) (dateKey : String) (month : String)
    (rows : List Record) : List Record :=
  rows.filter fun row => decide (bucketOf parseDate (row.get dateKey) = some month)

/-- Every value stored is strictly positive. -/
def AllPos (o : JSObj) : Prop := ∀ e ∈ o, JSNum.Pos e.2

/-- One iteration of the orders loop, as a function. -/
def orderStep (parseDate : DateParser) (st : ProcessedData) (order : Record) : ProcessedData :=
  if isCountedOrder order then
    { st with
      totalRevenue := st.totalRevenue + orderValueOf order
      revenueByMonth :=
        match entryOf parseDate "Date" orderValueOf order with
        | some e => addEntry st.revenueByMonth e
        | none => st.revenueByMonth }
  else st

/-- One iteration of the costs loop, as a function. -/
def costStep (parseDate : DateParser) (st : ProcessedData) (cost : Record) : ProcessedData :=
  if isCountedCost cost then
    { st with
      totalCosts := st.totalCosts + costAmountOf cost
      costsByMonth :=
        match entryOf parseDate "Order Date" costAmountOf cost with
        | some e => addEntry st.costsByMonth e
        | none => st.costsByMonth
      categorizedExpenses := addEntry st.categorizedExpenses ("Materials", costAmountOf cost) }
  else st

/-- The completed rows of the costs source. -/
def completedCosts (costs : List Record) : List Record :=
  costs.filter fun c => statusIsCompleted (c.get "Order Status")

/-- The accumulator before the derived metrics, in closed form. -/
def aggregateOf (parseDate : DateParser) (orders completed : List Record) : ProcessedData :=
  { totalRevenue := ((orders.filter isCountedOrder).map orderValueOf).sum
    totalCosts := ((completed.filter isCountedCost).map costAmountOf).sum
    netProfit := JSNum.fin 0
    profitMargin := JSNum.fin 0
    revenueByMonth :=
      ((orders.filter isCountedOrder).filterMap
        (entryOf parseDate "Date" orderValueOf)).foldl addEntry []
    costsByMonth :=
      ((completed.filter isCountedCost).filterMap
        (entryOf parseDate "Order Date" costAmountOf)).foldl addEntry []
    categorizedExpenses :=
      ((completed.filter isCountedCost).map fun c => ("Materials", costAmountOf c)).foldl
        addEntry [] }

/-- The `Amount` block of the orders loop as a function of the cell: the number the cell
normalizes to, `none` when the cell is falsy, the placeholder `--`, or not numeric. -/
def normalizeAmount (v : Value) : Option JSNum :=
  if v.truthy && decide (v ≠ Value.str "--") && decide (v ≠ Value.str "") then
    (if !(amountText v).isNaN then some (amountText v) else none)
  else none

/-- Two summaries with the same figures and the same three mappings. -/
def SameSummary (a b : ProcessedData) : Prop :=
  a.totalRevenue = b.totalRevenue ∧ a.totalCosts = b.totalCosts ∧
  a.netProfit = b.netProfit ∧ a.profitMargin = b.profitMargin ∧
  (∀ k, a.revenueByMonth.get k = b.revenueByMonth.get k) ∧
  (∀ k, a.costsByMonth.get k = b.costsByMonth.get k) ∧
  (∀ k, a.categorizedExpenses.get k = b.categorizedExpenses.get k)

/-- Two runs that end the same way: the same exception, or summaries that are the same. -/
def SameOutcome : Except JSError ProcessedData → Except JSError ProcessedData → Prop
  | .ok a, .ok b => SameSummary a b
  | .error e, .error f => e = f
  | _, _ => False

/-- The form `YYYY-MM`: four digits, a dash, and two digits that spell a month from 01 to 12. -/
def isYearMonth (s : String) : Bool :=
  match s.toList with
  | [y1, y2, y3, y4, dash, m1, m2] =>
    [y1, y2, y3, y4, m1, m2].all Char.isDigit && dash == '-' &&
      decide (1 ≤ digitsValue [m1, m2]) && decide (digitsValue [m1, m2] ≤ 12)
  | _ => false

/-- Months elapsed since the start of year 0 for a key of the form `YYYY-MM`: its place in
chronological order. -/
def periodIndex (s : String) : Nat :=
  match s.toList with
  | [y1, y2, y3, y4, _, m1, m2] => 12 * digitsValue [y1, y2, y3, y4] + (digitsValue [m1, m2] - 1)
  | _ => 0

/-- The year that `extractMonth` writes comes from a well-formed source: in the compact branch
the third part of the text is exactly two digits, in the other branch the year of the parsed
date has four digits. -/
def yearSourceWellFormed (parseDate : DateParser) (s : String) : Bool :=
  if s.toList.contains '-' && decide (jsLength s.toList ≤ 10) then
    match splitDash s.toList with
    | [_, _, p2] => p2.all Char.isDigit && decide (p2.length = 2)
    | _ => false
  else
    match parseDate s with
    | some date => decide (1000 ≤ date.year ∧ date.year ≤ 9999)
    | none => false

/-- A date cell that is not text, or text whose year source is well formed. -/
def dateCellWellFormed (parseDate : DateParser) : Value → Bool
  | .str t => yearSourceWellFormed parseDate t
  | _ => true

/-- The UTF-16 code units of a text, which is what JavaScript compares. -/
def utf16Units (s : List Char) : List Nat :=
  s.flatMap fun c =>
    if c.val < 0x10000 then [c.toNat]
    else [0xD800 + (c.toNat - 0x10000) / 0x400, 0xDC00 + (c.toNat - 0x10000) % 0x400]

/-- Lexicographic order on code units. -/
def unitsLt : List Nat → List Nat → Bool
  | [], [] => false
  | [], _ :: _ => true
  | _ :: _, [] => false
  | a :: l, b :: m => decide (a < b) || (decide (a = b) && unitsLt l m)

/-- The JavaScript `a < b` on strings, also the order of `Array.prototype.sort()` without a
comparator. -/
def jsStringLt (a b : String) : Bool :=
  unitsLt (utf16Units a.toList) (utf16Units b.toList)

/-! ## `calculateAverageGrowth` and `predictRevenue` -/

/-- The body of the loop of `calculateAverageGrowth` at index `i`, on the pair of locals
`(totalGrowth, growthCount)`. -/
def growthStep (values : List JSNum) (acc : JSNum × Nat) (i : Nat) : JSNum × Nat :=
  let previous := values.getD (i - 1) JSNum.nan
  let current := values.getD i JSNum.nan
  if previous.gt (JSNum.fin 0) then
    (acc.1.add ((current.sub previous).div previous), acc.2 + 1)
  else acc

/-- The function `calculateAverageGrowth`: the loop runs `i` from 1 to `values.length - 1`. -/
def calculateAverageGrowth (values : List JSNum) : JSNum :=
  if values.length < 2 then JSNum.fin 0
  else
    let acc := (List.range' 1 (values.length - 1)).foldl (growthStep values) (JSNum.fin 0, 0)
    if acc.2 > 0 then acc.1.div (JSNum.fin acc.2) else JSNum.fin 0

/-- The order `a <= b` of JavaScript strings. -/
def keyLe (a b : String) : Prop := jsStringLt b a = false

instance : DecidableRel keyLe := fun a b => inferInstanceAs (Decidable (jsStringLt b a = false))

/-- The call `keys.sort()` without a comparator: the keys of an object are distinct strings,
so the result is the one rearrangement that is ascending in code-unit order, whatever
algorithm the engine uses. -/
def jsSort (keys : List String) : List String :=
  keys.insertionSort keyLe

/-- The read `obj[key]` used as a number; a missing key reads as `undefined`, which is `NaN`
in arithmetic. -/
def readNumber (o : JSObj) (key : String) : JSNum :=
  match o.get key with
  | some v => v
  | none => JSNum.nan

/-- The function `predictRevenue` on the global `processedData`. -/
def predictRevenue (processedData : ProcessedData) : JSNum :=
  let months := jsSort (objectKeys processedData.revenueByMonth)
  if months.length < 2 then processedData.totalRevenue
  else
    let values := months.map fun month => readNumber processedData.revenueByMonth month
    let avgGrowth := calculateAverageGrowth values
    let lastMonthRevenue := values.getD (values.length - 1) JSNum.nan
    (lastMonthRevenue.mul ((JSNum.fin 1).add avgGrowth)).mul (JSNum.fin 3)

/-! ## Insights: `performAIAnalysis` and the local generators -/

/-- The JavaScript `a < b`. -/
def JSNum.lt (a b : JSNum) : Bool := b.gt a

/-- The function `Math.abs`. -/
def JSNum.abs : JSNum → JSNum
  | JSNum.fin a => JSNum.fin |a|
  | JSNum.pinf => JSNum.pinf
  | JSNum.ninf => JSNum.pinf
  | JSNum.nan => JSNum.nan

/-- The object `AI_CONFIG` of `config.js`, as far as the pipeline reads it. -/
structure AIConfig where
  HUGGINGFACE_API_KEY : String
  deriving DecidableEq

/-- The constant `AI_CONFIG` as it is shipped: the key is the placeholder. -/
def AI_CONFIG : AIConfig := ⟨"your_huggingface_api_key_here"⟩

/-- The function `validateAPIKey` of `config.js`, on the configuration it reads. -/
def validateAPIKey (config : AIConfig) : Bool :=
  if config.HUGGINGFACE_API_KEY = "your_huggingface_api_key_here" then false else true

/-- The object returned by `generateBusinessSummary`. -/
structure BusinessSummary where
  totalRevenue : JSNum
  totalCosts : JSNum
  netProfit : JSNum
  profitMargin : JSNum
  orderCount : Nat
  expenseCount : Nat
  revenueByMonth : JSObj
  expensesByCategory : JSObj

/-- The function `generateBusinessSummary` on the globals. -/
def generateBusinessSummary (processedData : ProcessedData) (ordersData costsData : List Record) :
    BusinessSummary :=
  { totalRevenue := processedData.totalRevenue
    totalCosts := processedData.totalCosts
    netProfit := processedData.netProfit
    profitMargin := processedData.profitMargin
    orderCount := ordersData.length
    expenseCount := costsData.length
    revenueByMonth := processedData.revenueByMonth
    expensesByCategory := processedData.categorizedExpenses }

/-- The number formatting of the host: `x.toFixed(1)` and the `Intl.NumberFormat` for US
dollars behind `formatCurrency`. -/
structure HostFormat where
  toFixed1 : JSNum → String
  formatCurrency : JSNum → String

/-- The four narrative fragments: the object built by `generateLocalInsights`, and also the
content (`innerHTML`) of the four panels `performanceInsights`, `optimizationTips`,
`expenseCategories` and `futureProjections` of the page. -/
structure Insights where
  performance : String
  optimization : String
  categories : String
  projections : String
  deriving DecidableEq

/-- The expression `summary.orderCount > 0 ? summary.totalRevenue / summary.orderCount : 0`. -/
def avgOrderValueOf (summary : BusinessSummary) : JSNum :=
  if summary.orderCount > 0 then summary.totalRevenue.div (JSNum.fin summary.orderCount)
  else JSNum.fin 0

/-- The function `generatePerformanceAnalysis`. -/
def generatePerformanceAnalysis (host : HostFormat) (summary : BusinessSummary) : String :=
  let analysis0 := "<ul>"
  let analysis1 :=
    if summary.profitMargin.gt (JSNum.fin 20) then
      analysis0 ++ ("<li>✅ <strong>Excellent profit margin</strong> of " ++
        host.toFixed1 summary.profitMargin ++ "% - well above industry average</li>")
    else if summary.profitMargin.gt (JSNum.fin 10) then
      analysis0 ++ ("<li>✅ <strong>Good profit margin</strong> of " ++
        host.toFixed1 summary.profitMargin ++ "% - room for improvement</li>")
    else if summary.profitMargin.gt (JSNum.fin 0) then
      analysis0 ++ ("<li>⚠️ <strong>Low profit margin</strong> of " ++
        host.toFixed1 summary.profitMargin ++ "% - needs attention</li>")
    else
      analysis0 ++ "<li>🚨 <strong>Negative profit margin</strong> - immediate action required</li>"
  let avgOrderValue := avgOrderValueOf summary
  let analysis2 := analysis1 ++ ("<li>💰 <strong>Average order value:</strong> " ++
    host.formatCurrency avgOrderValue ++ "</li>")
  let months := jsSort (objectKeys summary.revenueByMonth)
  let analysis3 :=
    if months.length ≥ 2 then
      let lastMonth := readNumber summary.revenueByMonth (months.getD (months.length - 1) "")
      let prevMonth := readNumber summary.revenueByMonth (months.getD (months.length - 2) "")
      let growth := ((lastMonth.sub prevMonth).div prevMonth).mul (JSNum.fin 100)
      if growth.gt (JSNum.fin 0) then
        analysis2 ++ ("<li>📈 <strong>Growing trend:</strong> " ++ host.toFixed1 growth ++
          "% increase from last month</li>")
      else
        analysis2 ++ ("<li>📉 <strong>Declining trend:</strong> " ++
          host.toFixed1 growth.abs ++ "% decrease from last month</li>")
    else analysis2
  analysis3 ++ "</ul>"

/-- The expression `Object.values(categories).reduce((a, b) => a + b, 0)`. -/
def sumOfValues (categories : JSObj) : JSNum :=
  (categories.map Prod.snd).foldl JSNum.add (JSNum.fin 0)

/-- The function `generateOptimizationTips`. -/
def generateOptimizationTips (host : HostFormat) (summary : BusinessSummary) : String :=
  let categories := summary.expensesByCategory
  let totalCosts := sumOfValues categories
  let tips1 := categories.foldl (fun tips entry =>
    let percentage := (entry.2.div totalCosts).mul (JSNum.fin 100)
    if percentage.gt (JSNum.fin 30) then
      tips ++ ("<li>🎯 <strong>" ++ entry.1 ++ " costs are high</strong> (" ++
        host.toFixed1 percentage ++ "% of total) - consider negotiating better rates</li>")
    else tips) "<ul>"
  let avgOrderValue := avgOrderValueOf summary
  let tips2 :=
    if avgOrderValue.lt (JSNum.fin 50) then
      tips1 ++
        "<li>💡 <strong>Increase average order value</strong> through bundling or upselling</li>"
    else tips1
  let tips3 :=
    if summary.profitMargin.lt (JSNum.fin 15) then
      tips2 ++ ("<li>📊 <strong>Improve profit margins</strong> by reducing costs or " ++
        "increasing prices by 5-10%</li>")
    else tips2
  let tips4 := tips3 ++ ("<li>🔍 <strong>Track seasonal patterns</strong> to optimize " ++
    "inventory and marketing timing</li>")
  let tips5 := tips4 ++ ("<li>📱 <strong>Automate expense tracking</strong> to identify " ++
    "cost-saving opportunities faster</li>")
  tips5 ++ "</ul>"

/-- The function `generateCategoryAnalysis`.  (The category names are ASCII, on which
`toLowerCase` is exact.) -/
def generateCategoryAnalysis (host : HostFormat) (summary : BusinessSummary) : String :=
  let analysis0 := "<div class=\"category-breakdown\">"
  let categories := summary.expensesByCategory
  let totalCosts := sumOfValues categories
  let analysis1 :=
    if totalCosts.gt (JSNum.fin 0) then
      categories.foldl (fun analysis entry =>
        let percentage := (entry.2.div totalCosts).mul (JSNum.fin 100)
        analysis ++ ("\n                <div class=\"category-item\">" ++
          "\n                    <span class=\"category-badge category-" ++
          toLowerCase entry.1 ++ "\">" ++ entry.1 ++ "</span>" ++
          "\n                    <span class=\"category-amount\">" ++
          host.formatCurrency entry.2 ++ " (" ++ host.toFixed1 percentage ++ "%)</span>" ++
          "\n                </div>" ++ "\n            ")) analysis0
    else analysis0 ++ "<p>No expense data available for categorization.</p>"
  analysis1 ++ "</div>"

/-- The function `generateProjections`. -/
def generateProjections (host : HostFormat) (summary : BusinessSummary) : String :=
  let projections0 := "<ul>"
  let months := jsSort (objectKeys summary.revenueByMonth)
  let projections1 :=
    if months.length ≥ 2 then
      let recentRevenues := (months.drop (months.length - 3)).map fun m =>
        readNumber summary.revenueByMonth m
      let avgRevenue := (recentRevenues.foldl JSNum.add (JSNum.fin 0)).div
        (JSNum.fin recentRevenues.length)
      let growth := calculateAverageGrowth recentRevenues
      let projectedMonthlyRevenue := avgRevenue.mul ((JSNum.fin 1).add growth)
      let projected3MonthRevenue := projectedMonthlyRevenue.mul (JSNum.fin 3)
      let p1 := projections0 ++ ("<li>📈 <strong>3-Month Revenue Projection:</strong> " ++
        host.formatCurrency projected3MonthRevenue ++ "</li>")
      let p2 := p1 ++ ("<li>💡 <strong>Monthly Average Projection:</strong> " ++
        host.formatCurrency projectedMonthlyRevenue ++ "</li>")
      let p3 :=
        if growth.gt (JSNum.fin 0) then
          p2 ++ ("<li>🚀 <strong>Growth Rate:</strong> " ++
            host.toFixed1 (growth.mul (JSNum.fin 100)) ++ "% monthly growth trend</li>")
        else
          p2 ++ ("<li>⚠️ <strong>Growth Rate:</strong> " ++
            host.toFixed1 (growth.mul (JSNum.fin 100)).abs ++
            "% monthly decline - focus on customer retention</li>")
      let avgCosts := summary.totalCosts.div (JSNum.fin months.length)
      let projectedProfit := projected3MonthRevenue.sub (avgCosts.mul (JSNum.fin 3))
      p3 ++ ("<li>💰 <strong>Projected 3-Month Profit:</strong> " ++
        host.formatCurrency projectedProfit ++ "</li>")
    else
      projections0 ++ ("<li>📊 <strong>Insufficient data</strong> for accurate projections. " ++
        "Upload more historical data for better predictions.</li>")
  projections1 ++ "</ul>"

/-- The function `generateLocalInsights` (its `async` wrapper only delays the result). -/
def generateLocalInsights (host : HostFormat) (summary : BusinessSummary) : Insights :=
  { performance := generatePerformanceAnalysis host summary
    optimization := generateOptimizationTips host summary
    categories := generateCategoryAnalysis host summary
    projections := generateProjections host summary }

/-- The function `showAIError`: the content it writes into the four panels. -/
def showAIError (message : String) : Insights :=
  { performance := "<p style=\"color: #dc3545;\">⚠️ " ++ message ++ "</p>"
    optimization := "<p style=\"color: #dc3545;\">⚠️ " ++ message ++ "</p>"
    categories := "<p style=\"color: #dc3545;\">⚠️ " ++ message ++ "</p>"
    projections := "<p style=\"color: #dc3545;\">⚠️ " ++ message ++ "</p>" }

/-- The four assignments `document.getElementById(...).innerHTML = insights....`: the panels
take the new content, whatever they held. -/
def writePanels (_panels insights : Insights) : Insights := insights

/-- The function `performAIAnalysis`, as the content of the four panels when it ends; `panels`
is their content before the call.  `tryBlockThrows` says whether a statement of the `try`
block throws (the generators are total, so this can only be an access to the page); the
`catch` clause then shows the failure message and writes the local insights over it. -/
def performAIAnalysis (host : HostFormat) (config : AIConfig) (processedData : ProcessedData)
    (ordersData costsData : List Record) (panels : Insights)
    (tryBlockThrows : Option JSError) : Insights :=
  if !validateAPIKey config then
    writePanels panels (showAIError "Please configure your Hugging Face API key in config.js")
  else
    let businessSummary := generateBusinessSummary processedData ordersData costsData
    match tryBlockThrows with
    | none => writePanels panels (generateLocalInsights host businessSummary)
    | some _ =>
      let shown := writePanels panels
        (showAIError "AI analysis failed. Using local analysis instead.")
      writePanels shown (generateLocalInsights host businessSummary)

/-! ## Vocabulary for the growth of a series -/

/-- The adjacent pairs `(values[i-1], values[i])` of a series. -/
def adjacentPairs (values : List JSNum) : List (JSNum × JSNum) :=
  values.zip values.tail

/-- The adjacent pairs whose earlier value is above zero. -/
def usablePairs (values : List JSNum) : List (JSNum × JSNum) :=
  (adjacentPairs values).filter fun p => p.1.gt (JSNum.fin 0)

/-- The growth of a pair: `(later - earlier) / earlier`. -/
def pairGrowth (p : JSNum × JSNum) : JSNum :=
  (p.2.sub p.1).div p.1

/-- The usable pairs of a series of rationals. -/
def usablePairsRat (values : List ℚ) : List (ℚ × ℚ) :=
  (values.zip values.tail).filter fun p => decide (0 < p.1)

/-- The body of the loop of `calculateAverageGrowth` on one adjacent pair. -/
def pairStep (acc : JSNum × Nat) (p : JSNum × JSNum) : JSNum × Nat :=
  if p.1.gt (JSNum.fin 0) then (acc.1 + pairGrowth p, acc.2 + 1) else acc

/-! ## Binary64 arithmetic -/

/-- The power `2 ^ p` for an integer exponent. -/
def pow2 (p : Int) : ℚ :=
  if 0 ≤ p then ((2 ^ p.toNat : Nat) : ℚ) else 1 / ((2 ^ (-p).toNat : Nat) : ℚ)

/-- The integer nearest to a rational, a tie going to the even neighbour. -/
def roundHalfEven (q : ℚ) : Int :=
  let lower := Rat.floor q
  let rest := q - lower
  if rest < 1 / 2 then lower
  else if 1 / 2 < rest then lower + 1
  else if lower % 2 = 0 then lower else lower + 1

/-- The number of halvings that bring a natural number below 2, at most `fuel` of them. -/
def halvings : Nat → Nat → Nat
  | 0, _ => 0
  | fuel + 1, n => if n < 2 then 0 else halvings fuel (n / 2) + 1

/-- The place of the leading binary digit of a natural number that is not zero. -/
def leadingBit (n : Nat) : Nat := halvings n n

/-- The exponent of the leading binary digit of a rational that is not zero. -/
def floorLog2 (q : ℚ) : Int :=
  let guess : Int := (leadingBit q.num.natAbs : Int) - (leadingBit q.den : Int)
  if pow2 guess ≤ |q| then guess else guess - 1

/-- The exponent of the last binary place of the binary64 numbers next to a rational that is
not zero: 52 places below the leading digit, and not below `-1074`. -/
def lastPlace (q : ℚ) : Int := max (floorLog2 q - 52) (-1074)

/-- The magnitude of a rational rounded to its last place, a tie going to the even
significand. -/
def roundedMagnitude (q : ℚ) : ℚ :=
  (roundHalfEven (|q| / pow2 (lastPlace q)) : ℚ) * pow2 (lastPlace q)

/-- The Number value of a real: the nearest binary64 number (53 significant bits, least
exponent `-1074`), a tie going to the even significand, and an infinity once the rounded
magnitude reaches `2 ^ 1024`. -/
def roundToDouble (q : ℚ) : JSNum :=
  if q = 0 then JSNum.fin 0
  else if pow2 1024 ≤ roundedMagnitude q then (if q < 0 then JSNum.ninf else JSNum.pinf)
  else JSNum.fin (if q < 0 then -roundedMagnitude q else roundedMagnitude q)

/-- How the host turns the exact result of an operation, or the exact value of a numeric
literal, into a Number. -/
abbrev Rounding := JSNum → JSNum

/-- No rounding: exact arithmetic. -/
def Rounding.exact : Rounding := fun x => x

/-- The rounding of JavaScript: IEEE 754 binary64, round to nearest, ties to even.  The
infinities and `NaN` are Numbers as they are. -/
def Rounding.binary64 : Rounding
  | JSNum.fin q => roundToDouble q
  | x => x

/-! ## `processBusinessData` under a rounding

The same statements as above, with every `+`, `-`, `*`, `/` and every `parseFloat` followed by
the rounding of the host. -/

/-- The expression `parseFloat(String(v).replace(/[$,]/g, ''))` as a Number. -/
def Rounded.amountText (rnd : Rounding) (v : Value) : JSNum :=
  rnd (ProfitPilot.amountText v)

/-- The local `orderValue` of a sale once the `Amount` and `Net` fields have been tried. -/
def Rounded.orderValueOf (rnd : Rounding) (order : Record) : JSNum :=
  let amount := order.get "Amount"
  let fromAmount : JSNum :=
    if amount.truthy && decide (amount ≠ Value.str "--") && decide (amount ≠ Value.str "") then
      (if !(Rounded.amountText rnd amount).isNaN then Rounded.amountText rnd amount
       else JSNum.fin 0)
    else JSNum.fin 0
  let net := order.get "Net"
  if decide (fromAmount = JSNum.fin 0) && net.truthy then
    (if !(Rounded.amountText rnd net).isNaN then Rounded.amountText rnd net else fromAmount)
  else fromAmount

/-- The block `if (date) { const month = extractMonth(date); if (month) { byMonth[month] =
(byMonth[month] || 0) + amount; } }`. -/
def Rounded.addToMonth (rnd : Rounding) (parseDate : DateParser) (byMonth : JSObj) (date : Value)
    (amount : JSNum) : Except JSError JSObj :=
  if date.truthy then
    match extractMonth parseDate date with
    | .ok (some month) =>
      if month ≠ "" then .ok (byMonth.set month (rnd ((byMonth.getOrZero month).add amount)))
      else .ok byMonth
    | .ok none => .ok byMonth
    | .error e => .error e
  else .ok byMonth

/-- The body of `ordersData.forEach`. -/
def Rounded.processOrder (rnd : Rounding) (parseDate : DateParser) (st : ProcessedData)
    (order : Record) : Except JSError ProcessedData :=
  if isSaleType (order.get "Type") then
    let orderValue := Rounded.orderValueOf rnd order
    if orderValue.gt (JSNum.fin 0) then
      match Rounded.addToMonth rnd parseDate st.revenueByMonth (order.get "Date") orderValue with
      | .ok byMonth =>
        .ok { st with
          totalRevenue := rnd (st.totalRevenue.add orderValue)
          revenueByMonth := byMonth }
      | .error e => .error e
    else .ok st
  else .ok st

/-- The local `costAmount` of a completed cost row. -/
def Rounded.costAmountOf (rnd : Rounding) (cost : Record) : JSNum :=
  let value := cost.get "Order Value"
  if value.truthy then
    (if !(Rounded.amountText rnd value).isNaN && (Rounded.amountText rnd value).gt (JSNum.fin 0)
     then Rounded.amountText rnd value
     else JSNum.fin 0)
  else JSNum.fin 0

/-- The statements `if (!cats['Materials']) { cats['Materials'] = 0; }
cats['Materials'] += amount;`. -/
def Rounded.addToMaterials (rnd : Rounding) (cats : JSObj) (amount : JSNum) : JSObj :=
  let present : Bool :=
    match cats.get "Materials" with
    | some x => x.truthy
    | none => false
  let cats0 := if !present then cats.set "Materials" (JSNum.fin 0) else cats
  match cats0.get "Materials" with
  | some x => cats0.set "Materials" (rnd (x.add amount))
  | none => cats0.set "Materials" JSNum.nan

/-- The body of `completedOrders.forEach`. -/
def Rounded.processCost (rnd : Rounding) (parseDate : DateParser) (st : ProcessedData)
    (cost : Record) : Except JSError ProcessedData :=
  let costAmount := Rounded.costAmountOf rnd cost
  if costAmount.gt (JSNum.fin 0) then
    match Rounded.addToMonth rnd parseDate st.costsByMonth (cost.get "Order Date") costAmount with
    | .ok byMonth =>
      .ok { st with
        totalCosts := rnd (st.totalCosts.add costAmount)
        costsByMonth := byMonth
        categorizedExpenses := Rounded.addToMaterials rnd st.categorizedExpenses costAmount }
    | .error e => .error e
  else .ok st

/-- The last two statements of `processBusinessData`. -/
def Rounded.deriveMetrics (rnd : Rounding) (st : ProcessedData) : ProcessedData :=
  let netProfit := rnd (st.totalRevenue.sub st.totalCosts)
  { st with
    netProfit := netProfit
    profitMargin :=
      if st.totalRevenue.gt (JSNum.fin 0) then
        rnd ((rnd (netProfit.div st.totalRevenue)).mul (JSNum.fin 100))
      else JSNum.fin 0 }

/-- The function `processBusinessData` on the globals `ordersData` and `costsData`, in the
arithmetic of the given rounding. -/
def Rounded.processBusinessData (rnd : Rounding) (parseDate : DateParser) (sorter : Sorter)
    (ordersData costsData : List Record) : Except JSError ProcessedData :=
  let afterOrders : Except JSError ProcessedData :=
    if ordersData.length > 0 then
      forEachM (Rounded.processOrder rnd parseDate) ProcessedData.initial ordersData
    else .ok ProcessedData.initial
  match afterOrders with
  | .error e => .error e
  | .ok st1 =>
    let afterCosts : Except JSError ProcessedData :=
      if costsData.length > 0 then
        match filterCompleted costsData with
        | .error e => .error e
        | .ok completedOrders =>
          forEachM (Rounded.processCost rnd parseDate) st1 (sorter.sort completedOrders)
      else .ok st1
    match afterCosts with
    | .error e => .error e
    | .ok st2 => .ok (Rounded.deriveMetrics rnd st2)

/-! ## Vocabulary for sums of Numbers -/

/-- An order row that reaches `totalRevenue`. -/
def Rounded.isCountedOrder (rnd : Rounding) (order : Record) : Bool :=
  isSaleType (order.get "Type") && (Rounded.orderValueOf rnd order).gt (JSNum.fin 0)

/-- The sum of a list taken from the left, each addition followed by the rounding: what a
loop `total += value` computes. -/
def roundedSum (rnd : Rounding) (values : List JSNum) : JSNum :=
  values.foldl (fun acc v => rnd (acc.add v)) (JSNum.fin 0)

/-- One step of a monthly series: `obj[key] = (obj[key] || 0) + amount`. -/
def Rounded.addEntry (rnd : Rounding) (o : JSObj) (e : String × JSNum) : JSObj :=
  o.set e.1 (rnd ((o.getOrZero e.1).add e.2))

/-- One iteration of the orders loop, as a function. -/
def Rounded.orderStep (rnd : Rounding) (parseDate : DateParser) (st : ProcessedData)
    (order : Record) : ProcessedData :=
  if Rounded.isCountedOrder rnd order then
    { st with
      totalRevenue := rnd (st.totalRevenue.add (Rounded.orderValueOf rnd order))
      revenueByMonth :=
        match entryOf parseDate "Date" (Rounded.orderValueOf rnd) order with
        | some e => Rounded.addEntry rnd st.revenueByMonth e
        | none => st.revenueByMonth }
  else st

/-- A Number that is at least the least positive one, `2 ^ -1074`. -/
def JSNum.AtLeastTiny (x : JSNum) : Prop := (JSNum.fin (pow2 (-1074))).le x = true

/-- A value that keeps a running sum above zero under the rounding. -/
def Rounding.Keeps (rnd : Rounding) (v : JSNum) : Prop :=
  ∀ a, JSNum.NonNeg a → JSNum.Pos (rnd (a.add v))

/-- The revenue figures during the orders loop: every monthly value is above zero and at most
the total, and the total is a Number that is not negative. -/
def BucketsWithinTotal (rnd : Rounding) (st : ProcessedData) : Prop :=
  AllPos st.revenueByMonth ∧ JSNum.NonNeg st.totalRevenue ∧
    rnd st.totalRevenue = st.totalRevenue ∧
    ∀ k, (st.revenueByMonth.getOrZero k).le st.totalRevenue = true

/-! ## Reference engines -/

/-- A sort that leaves the list as it is (every date equal or unreadable). -/
def Sorter.keep : Sorter := ⟨fun l => l, fun l => List.Perm.refl l⟩

/-- A sort that reverses the list. -/
def Sorter.reverse : Sorter := ⟨fun l => l.reverse, fun l => List.reverse_perm l⟩

/-- Days of a month of the proleptic Gregorian calendar. -/
def daysInMonth (year month : Nat) : Nat :=
  if month = 2 then
    (if year % 4 = 0 ∧ (year % 100 ≠ 0 ∨ year % 400 = 0) then 29 else 28)
  else if month = 4 ∨ month = 6 ∨ month = 9 ∨ month = 11 then 30
  else 31

/-- A reference `DateParser`: it reads the ISO form `YYYY-MM-DDTHH:mm:ss` (no offset, hence
local time, so that the year and month read back are those written) and rejects every other
text. -/
def isoLocalParser : DateParser := fun text =>
  match text.toList with
  | [y1, y2, y3, y4, c1, m1, m2, c2, d1, d2, c3, h1, h2, c4, n1, n2, c5, s1, s2] =>
    if [y1, y2, y3, y4, m1, m2, d1, d2, h1, h2, n1, n2, s1, s2].all Char.isDigit &&
        [c1, c2, c3, c4, c5] == ['-', '-', 'T', ':', ':'] then
      let year := digitsValue [y1, y2, y3, y4]
      let month := digitsValue [m1, m2]
      let day := digitsValue [d1, d2]
      if hm : 1 ≤ month ∧ month ≤ 12 then
        if 1 ≤ day ∧ day ≤ daysInMonth year month ∧ digitsValue [h1, h2] ≤ 23 ∧
            digitsValue [n1, n2] ≤ 59 ∧ digitsValue [s1, s2] ≤ 59 then
          some ⟨(year : Int), ⟨month - 1, by omega⟩⟩
        else none
      else none
    else none
  | _ => none

/-- Nearest natural number to a rational that is not negative, halves going up. -/
def roundHalfUp (q : ℚ) : Nat := (Rat.floor (q + 1 / 2)).toNat

/-- Digits with a comma before every group of three, counted from the right; the argument
is the reversed digit list and the number of digits already placed in the current group. -/
def groupReversed : List Char → Nat → List Char
  | [], _ => []
  | c :: cs, n => if n = 3 then ',' :: c :: groupReversed cs 1 else c :: groupReversed cs (n + 1)

/-- Thousands separators of the `en-US` locale. -/
def groupThousands (digits : List Char) : List Char :=
  (groupReversed digits.reverse 0).reverse

/-- A reference for `x.toFixed(1)` over exact arithmetic (magnitudes below `10^21`). -/
def exactToFixed1 : JSNum → String
  | JSNum.nan => "NaN"
  | JSNum.pinf => "Infinity"
  | JSNum.ninf => "-Infinity"
  | JSNum.fin q =>
    let n := roundHalfUp (|q| * 10)
    (if q < 0 then "-" else "") ++ String.mk (renderNat (n / 10)) ++ "." ++
      String.mk (renderNat (n % 10))

/-- A reference for `formatCurrency` over exact arithmetic: US dollars, two decimals, halves
away from zero, thousands separators. -/
def exactFormatCurrency : JSNum → String
  | JSNum.nan => "$NaN"
  | JSNum.pinf => "$∞"
  | JSNum.ninf => "-$∞"
  | JSNum.fin q =>
    let cents := roundHalfUp (|q| * 100)
    (if q < 0 then "-" else "") ++ "$" ++ String.mk (groupThousands (renderNat (cents / 100))) ++
      "." ++ String.mk (padStart2 (renderNat (cents % 100)))

/-- A reference host for number formatting. -/
def exactFormat : HostFormat := ⟨exactToFixed1, exactFormatCurrency⟩

/-! ## Sample records -/

/-- The orders of the end-to-end scenario of the specification. -/
def scenarioOrders : List Record :=
  [[("Type", Value.str "Sale"), ("Amount", Value.str "$100.00"), ("Date", Value.str "01-Jan-25")],
   [("Type", Value.str "Fee"), ("Amount", Value.str "$5.00"), ("Date", Value.str "01-Jan-25")]]

/-- The costs of the end-to-end scenario of the specification. -/
def scenarioCosts : List Record :=
  [[("Order Status", Value.str "Completed"), ("Order Value", Value.str "$40.00"),
    ("Order Date", Value.str "01-Jan-25")]]

/-- An order whose `Type` is `SALE`, with a positive amount. -/
def upperCaseSale : Record :=
  [("Type", Value.str "SALE"), ("Amount", Value.str "$100.00"), ("Date", Value.str "01-Jan-25")]

/-- A sale whose `Amount` is negative and whose `Net` is positive. -/
def negativeAmountSale : Record :=
  [("Type", Value.str "Sale"), ("Amount", Value.str "-5"), ("Net", Value.str "10")]

/-- A sale whose `Amount` is the placeholder and whose `Net` carries the value. -/
def placeholderAmountSale : Record :=
  [("Type", Value.str "sale"), ("Amount", Value.str "--"), ("Net", Value.str "$1,234.56")]

/-- The orders of the scenario followed by a sale that has no date. -/
def ordersWithUndatedSale : List Record :=
  scenarioOrders ++ [[("Type", Value.str "sale"), ("Net", Value.num 20)]]

/-- A completed purchase next to a pending one. -/
def pendingAndCompleted : List Record :=
  [[("Order Status", Value.str "Pending"), ("Order Value", Value.str "$15.00")],
   [("Order Status", Value.str "COMPLETED"), ("Order Value", Value.str "$1,040.50")]]

/-- Purchases in several states, with and without dates. -/
def mixedCosts : List Record :=
  pendingAndCompleted ++ scenarioCosts ++
    [[("Order Status", Value.str "completed"), ("Order Value", Value.num 12),
      ("Order Date", Value.str "15-Feb-25")]]

/-- A purchase whose status cell the CSV reader typed as a number. -/
def numericStatusCosts : List Record :=
  [[("Order Status", Value.num 5), ("Order Value", Value.str "$40.00"),
    ("Order Date", Value.str "01-Jan-25")]]

/-- The summary of the scenario of the specification, as `processBusinessData` leaves it. -/
def scenarioProcessedData : ProcessedData :=
  { totalRevenue := JSNum.fin 100
    totalCosts := JSNum.fin 40
    netProfit := JSNum.fin 60
    profitMargin := JSNum.fin 60
    revenueByMonth := [("2025-01", JSNum.fin 100)]
    costsByMonth := [("2025-01", JSNum.fin 40)]
    categorizedExpenses := [("Materials", JSNum.fin 40)] }

/-- A summary with a single month. -/
def oneMonthSummary : ProcessedData :=
  { ProcessedData.initial with
    totalRevenue := JSNum.fin 120
    revenueByMonth := [("2025-01", JSNum.fin 100)] }

/-- A summary with two months, written in the object later month first. -/
def twoMonthSummary : ProcessedData :=
  { ProcessedData.initial with
    totalRevenue := JSNum.fin 250
    revenueByMonth := [("2025-02", JSNum.fin 150), ("2025-01", JSNum.fin 100)] }

/-- A configuration whose key has been set. -/
def configuredKey : AIConfig := ⟨"hf_configured_key"⟩

/-- Panels that hold nothing yet. -/
def emptyPanels : Insights := ⟨"", "", "", ""⟩

/-- Three sales of 0.30, 0.20 and 0.10, the first in January, the others in February. -/
def threeSmallSales : List Record :=
  [[("Type", Value.str "Sale"), ("Amount", Value.str "$0.30"), ("Date", Value.str "15-Jan-25")],
   [("Type", Value.str "Sale"), ("Amount", Value.str "$0.20"), ("Date", Value.str "03-Feb-25")],
   [("Type", Value.str "Sale"), ("Amount", Value.str "$0.10"), ("Date", Value.str "17-Feb-25")]]

/-- Sales of 100 in December 2024 and of 200 in January 2025, the second dated with a
four-digit year. -/
def decemberAndJanuary : List Record :=
  [[("Type", Value.str "Sale"), ("Amount", Value.str "$100.00"), ("Date", Value.str "15-Dec-24")],
   [("Type", Value.str "Sale"), ("Amount", Value.str "$200.00"), ("Date", Value.str "1-Jan-2025")]]

/-! ## Arithmetic lemmas -/

namespace JSNum

theorem add_def (a b : JSNum) : a.add b = a + b := rfl

theorem fin_zero : (fin 0 : JSNum) = 0 := rfl

theorem pos_iff (x : JSNum) : Pos x ↔ (∃ q : ℚ, x = fin q ∧ 0 < q) ∨ x = pinf := by
  cases x <;> simp [Pos, gt]

theorem nonNeg_iff (x : JSNum) : NonNeg x ↔ (∃ q : ℚ, x = fin q ∧ 0 ≤ q) ∨ x = pinf := by
  cases x <;> simp [NonNeg, le]

theorem Pos.nonNeg {x : JSNum} (h : Pos x) : NonNeg x := by
  rcases (pos_iff x).1 h with ⟨q, rfl, hq⟩ | rfl
  · exact (nonNeg_iff _).2 (Or.inl ⟨q, rfl, hq.le⟩)
  · exact (nonNeg_iff _).2 (Or.inr rfl)

theorem nonNeg_zero : NonNeg 0 := (nonNeg_iff _).2 (Or.inl ⟨0, rfl, le_refl _⟩)

theorem NonNeg.add {a b : JSNum} (ha : NonNeg a) (hb : NonNeg b) : NonNeg (a + b) := by
  rcases (nonNeg_iff a).1 ha with ⟨p, rfl, hp⟩ | rfl <;>
    rcases (nonNeg_iff b).1 hb with ⟨q, rfl, hq⟩ | rfl
  · exact (nonNeg_iff _).2 (Or.inl ⟨p + q, rfl, by positivity⟩)
  · exact (nonNeg_iff _).2 (Or.inr rfl)
  · exact (nonNeg_iff _).2 (Or.inr rfl)
  · exact (nonNeg_iff _).2 (Or.inr rfl)

theorem NonNeg.add_pos {a b : JSNum} (ha : NonNeg a) (hb : Pos b) : Pos (a + b) := by
  rcases (nonNeg_iff a).1 ha with ⟨p, rfl, hp⟩ | rfl <;>
    rcases (pos_iff b).1 hb with ⟨q, rfl, hq⟩ | rfl
  · exact (pos_iff _).2 (Or.inl ⟨p + q, rfl, by positivity⟩)
  · exact (pos_iff _).2 (Or.inr rfl)
  · exact (pos_iff _).2 (Or.inr rfl)
  · exact (pos_iff _).2 (Or.inr rfl)

theorem Pos.truthy {x : JSNum} (h : Pos x) : x.truthy = true := by
  rcases (pos_iff x).1 h with ⟨q, rfl, hq⟩ | rfl
  · simp [JSNum.truthy, hq.ne']
  · rfl

theorem Pos.orZero {x : JSNum} (h : Pos x) : x.orZero = x := by
  simp [JSNum.orZero, h.truthy]

theorem Pos.ne_zero {x : JSNum} (h : Pos x) : x ≠ fin 0 := by
  rcases (pos_iff x).1 h with ⟨q, rfl, hq⟩ | rfl
  · intro h2; injection h2 with h3; exact hq.ne' h3
  · intro h2; cases h2

theorem NonNeg.le_add {a b : JSNum} (ha : NonNeg a) (hb : NonNeg b) :
    a.le (a + b) = true := by
  rcases (nonNeg_iff a).1 ha with ⟨p, rfl, hp⟩ | rfl <;>
    rcases (nonNeg_iff b).1 hb with ⟨q, rfl, hq⟩ | rfl
  · show decide (p ≤ p + q) = true
    simpa using hq
  · rfl
  · rfl
  · rfl

theorem NonNeg.le_refl {a : JSNum} (ha : NonNeg a) : a.le a = true := by
  rcases (nonNeg_iff a).1 ha with ⟨p, rfl, hp⟩ | rfl
  · simp [le]
  · rfl

/-- A number that is not negative is positive or zero. -/
theorem NonNeg.pos_or_zero {a : JSNum} (ha : NonNeg a) : Pos a ∨ a = fin 0 := by
  rcases (nonNeg_iff a).1 ha with ⟨p, rfl, hp⟩ | rfl
  · rcases hp.lt_or_eq with h | h
    · exact Or.inl ((pos_iff _).2 (Or.inl ⟨p, rfl, h⟩))
    · exact Or.inr (by rw [← h])
  · exact Or.inl ((pos_iff _).2 (Or.inr rfl))

theorem nonNeg_sum (l : List JSNum) (h : ∀ x ∈ l, NonNeg x) : NonNeg l.sum := by
  induction l with
  | nil => exact nonNeg_zero
  | cons a l ih =>
    rw [List.sum_cons]
    exact NonNeg.add (h a (List.mem_cons_self _ _))
      (ih fun x hx => h x (List.mem_cons_of_mem _ hx))

theorem pos_sum (l : List JSNum) (h : ∀ x ∈ l, Pos x) (hl : l ≠ []) : Pos l.sum := by
  cases l with
  | nil => exact absurd rfl hl
  | cons a l =>
    rw [List.sum_cons, add_comm]
    exact NonNeg.add_pos (nonNeg_sum l fun x hx => (h x (List.mem_cons_of_mem _ hx)).nonNeg)
      (h a (List.mem_cons_self _ _))

end JSNum

/-! ## Objects as maps -/

theorem get_set_self (o : JSObj) (k : String) (v : JSNum) : (o.set k v).get k = some v := by
  induction o with
  | nil => simp [JSObj.set, JSObj.get]
  | cons e o ih =>
    obtain ⟨k2, x⟩ := e
    by_cases h : k2 = k
    · simp [JSObj.set, JSObj.get, h]
    · simp [JSObj.set, JSObj.get, h, ih]

theorem get_set_of_ne (o : JSObj) {k k2 : String} (v : JSNum) (h : k ≠ k2) :
    (o.set k v).get k2 = o.get k2 := by
  induction o with
  | nil => simp [JSObj.set, JSObj.get, h]
  | cons e o ih =>
    obtain ⟨k3, x⟩ := e
    by_cases h3 : k3 = k
    · subst h3
      simp [JSObj.set, JSObj.get, h]
    · by_cases h4 : k3 = k2
      · subst h4
        simp [JSObj.set, JSObj.get, h3]
      · simp [JSObj.set, JSObj.get, h3, h4, ih]

theorem set_set (o : JSObj) (k : String) (v w : JSNum) : (o.set k v).set k w = o.set k w := by
  induction o with
  | nil => simp [JSObj.set]
  | cons e o ih =>
    obtain ⟨k2, x⟩ := e
    by_cases h : k2 = k
    · simp [JSObj.set, h]
    · simp [JSObj.set, h, ih]

theorem get_mem (o : JSObj) (k : String) (x : JSNum) (h : o.get k = some x) : (k, x) ∈ o := by
  induction o with
  | nil => simp [JSObj.get] at h
  | cons e o ih =>
    obtain ⟨k2, y⟩ := e
    by_cases h2 : k2 = k
    · simp [JSObj.get, h2] at h
      simp [h2, h]
    · simp [JSObj.get, h2] at h
      exact List.mem_cons_of_mem _ (ih h)

theorem get_eq_none_iff (o : JSObj) (k : String) : o.get k = none ↔ k ∉ objectKeys o := by
  induction o with
  | nil => simp [JSObj.get, objectKeys]
  | cons e o ih =>
    obtain ⟨k2, y⟩ := e
    by_cases h2 : k2 = k
    · simp [JSObj.get, objectKeys, h2]
    · have h3 : ¬ k = k2 := fun h => h2 h.symm
      simpa [JSObj.get, objectKeys, h2, h3] using ih

theorem mem_set (o : JSObj) (k : String) (v : JSNum) (e : String × JSNum)
    (h : e ∈ o.set k v) : e ∈ o ∨ e = (k, v) := by
  induction o with
  | nil => simpa [JSObj.set] using h
  | cons e2 o ih =>
    obtain ⟨k2, y⟩ := e2
    by_cases h2 : k2 = k
    · simp [JSObj.set, h2] at h
      rcases h with h | h
      · exact Or.inr h
      · exact Or.inl (List.mem_cons_of_mem _ h)
    · simp [JSObj.set, h2] at h
      rcases h with h | h
      · exact Or.inl (by simp [h])
      · rcases ih h with h3 | h3
        · exact Or.inl (List.mem_cons_of_mem _ h3)
        · exact Or.inr h3

theorem AllPos.set {o : JSObj} (ho : AllPos o) (k : String) {v : JSNum} (hv : JSNum.Pos v) :
    AllPos (o.set k v) := by
  intro e he
  rcases mem_set o k v e he with h | h
  · exact ho e h
  · rw [h]; exact hv

theorem AllPos.getOrZero_nonNeg {o : JSObj} (ho : AllPos o) (k : String) :
    JSNum.NonNeg (o.getOrZero k) := by
  unfold JSObj.getOrZero
  cases h : o.get k with
  | none => exact JSNum.nonNeg_zero
  | some x =>
    have hx : JSNum.Pos x := ho _ (get_mem o k x h)
    simpa [hx.orZero] using hx.nonNeg

theorem AllPos.addEntry {o : JSObj} (ho : AllPos o) {e : String × JSNum} (he : JSNum.Pos e.2) :
    AllPos (addEntry o e) :=
  ho.set e.1 ((ho.getOrZero_nonNeg e.1).add_pos he)

theorem objectKeys_set (o : JSObj) (k : String) (v : JSNum) :
    objectKeys (o.set k v) = if k ∈ objectKeys o then objectKeys o else objectKeys o ++ [k] := by
  induction o with
  | nil => simp [JSObj.set, objectKeys]
  | cons e o ih =>
    obtain ⟨k2, y⟩ := e
    by_cases h2 : k2 = k
    · simp [JSObj.set, objectKeys, h2]
    · have h3 : ¬ k = k2 := fun h => h2 h.symm
      simp only [objectKeys] at ih
      simp only [JSObj.set, objectKeys, h2, if_false, List.map_cons, List.mem_cons, h3, false_or,
        ih]
      split <;> simp

theorem nodup_objectKeys_set (o : JSObj) (k : String) (v : JSNum)
    (h : (objectKeys o).Nodup) : (objectKeys (o.set k v)).Nodup := by
  rw [objectKeys_set]
  split
  · exact h
  · next hk =>
    rw [List.nodup_append]
    refine ⟨h, List.nodup_singleton _, ?_⟩
    intro a ha hb
    simp at hb
    exact hk (hb ▸ ha)

theorem sumValues_set (o : JSObj) (ho : AllPos o) (k : String) (v : JSNum) :
    sumValues (o.set k (o.getOrZero k + v)) = sumValues o + v := by
  induction o with
  | nil => simp [JSObj.set, sumValues, JSObj.getOrZero, JSObj.get, JSNum.fin_zero]
  | cons e o ih =>
    obtain ⟨k2, y⟩ := e
    have hy : JSNum.Pos y := ho (k2, y) (List.mem_cons_self _ _)
    have ho2 : AllPos o := fun e he => ho e (List.mem_cons_of_mem _ he)
    by_cases h2 : k2 = k
    · simp only [JSObj.set, h2, if_true, sumValues, List.map_cons, List.sum_cons,
        JSObj.getOrZero, JSObj.get, hy.orZero]
      abel
    · have hget : JSObj.getOrZero ((k2, y) :: o) k = JSObj.getOrZero o k := by
        simp [JSObj.getOrZero, JSObj.get, h2]
      rw [hget]
      simp only [JSObj.set, h2, if_false, sumValues, List.map_cons, List.sum_cons]
      have := ih ho2
      simp only [sumValues] at this
      rw [this]
      abel

/-- The reading of a period after a run of contributions. -/
theorem get_foldl_addEntry (es : List (String × JSNum)) (hes : ∀ e ∈ es, JSNum.Pos e.2)
    (o : JSObj) (ho : AllPos o) (k : String) :
    (es.foldl addEntry o).get k =
      if es.filter (fun e => decide (e.1 = k)) = [] then o.get k
      else some (o.getOrZero k + ((es.filter fun e => decide (e.1 = k)).map Prod.snd).sum) := by
  induction es generalizing o with
  | nil => simp
  | cons e es ih =>
    have he : JSNum.Pos e.2 := hes e (List.mem_cons_self _ _)
    have hes2 : ∀ e ∈ es, JSNum.Pos e.2 := fun e h => hes e (List.mem_cons_of_mem _ h)
    have hpos : JSNum.Pos (o.getOrZero e.1 + e.2) := (ho.getOrZero_nonNeg e.1).add_pos he
    rw [List.foldl_cons, ih hes2 _ (ho.addEntry he)]
    by_cases hk : e.1 = k
    · have hget : (addEntry o e).get k = some (o.getOrZero k + e.2) := by
        unfold ProfitPilot.addEntry
        rw [hk, JSNum.add_def, get_set_self]
      have hgz : (addEntry o e).getOrZero k = o.getOrZero k + e.2 := by
        unfold JSObj.getOrZero
        rw [hget]
        rw [hk] at hpos
        exact hpos.orZero
      simp only [List.filter_cons, hk, decide_True, if_true, hget, hgz, List.map_cons,
        List.sum_cons]
      split
      · next h => simp [h]
      · simp [add_assoc]
    · have hget : (addEntry o e).get k = o.get k := by
        unfold ProfitPilot.addEntry
        exact get_set_of_ne o _ hk
      have hgz : (addEntry o e).getOrZero k = o.getOrZero k := by
        unfold JSObj.getOrZero
        rw [hget]
      simp only [List.filter_cons, hk, decide_False, hget, hgz]
      simp

theorem sumValues_foldl_addEntry (es : List (String × JSNum)) (hes : ∀ e ∈ es, JSNum.Pos e.2)
    (o : JSObj) (ho : AllPos o) :
    sumValues (es.foldl addEntry o) = sumValues o + (es.map Prod.snd).sum := by
  induction es generalizing o with
  | nil => simp
  | cons e es ih =>
    have he : JSNum.Pos e.2 := hes e (List.mem_cons_self _ _)
    have hes2 : ∀ e ∈ es, JSNum.Pos e.2 := fun e h => hes e (List.mem_cons_of_mem _ h)
    rw [List.foldl_cons, ih hes2 _ (ho.addEntry he)]
    have : sumValues (addEntry o e) = sumValues o + e.2 := sumValues_set o ho e.1 e.2
    rw [this, List.map_cons, List.sum_cons, add_assoc]

theorem nodup_foldl_addEntry (es : List (String × JSNum)) (o : JSObj)
    (ho : (objectKeys o).Nodup) : (objectKeys (es.foldl addEntry o)).Nodup := by
  induction es generalizing o with
  | nil => simpa using ho
  | cons e es ih =>
    rw [List.foldl_cons]
    exact ih _ (nodup_objectKeys_set o _ _ ho)

theorem allPos_foldl_addEntry (es : List (String × JSNum)) (hes : ∀ e ∈ es, JSNum.Pos e.2)
    (o : JSObj) (ho : AllPos o) : AllPos (es.foldl addEntry o) := by
  induction es generalizing o with
  | nil => simpa using ho
  | cons e es ih =>
    rw [List.foldl_cons]
    exact ih (fun e h => hes e (List.mem_cons_of_mem _ h)) _
      (ho.addEntry (hes e (List.mem_cons_self _ _)))

theorem addToMaterials_eq (cats : JSObj) (amount : JSNum) :
    addToMaterials cats amount = addEntry cats ("Materials", amount) := by
  unfold addToMaterials ProfitPilot.addEntry JSObj.getOrZero
  cases h : cats.get "Materials" with
  | none => simp [get_set_self, set_set]
  | some x =>
    by_cases hx : x.truthy = true
    · simp [hx, h, JSNum.orZero]
    · simp [hx, h, JSNum.orZero, get_set_self, set_set]

/-! ## The pipeline in closed form -/

theorem extractMonth_ok (parseDate : DateParser) (v : Value) :
    ∃ r, extractMonth parseDate v = .ok r := by
  unfold extractMonth tryCatch
  cases extractMonthBody parseDate v with
  | ok r => exact ⟨r, rfl⟩
  | error e => exact ⟨none, rfl⟩

theorem addToMonth_eq (parseDate : DateParser) (o : JSObj) (date : Value) (amount : JSNum) :
    addToMonth parseDate o date amount =
      .ok (match bucketOf parseDate date with
        | some month => addEntry o (month, amount)
        | none => o) := by
  unfold addToMonth bucketOf
  by_cases ht : date.truthy = true
  · obtain ⟨r, hr⟩ := extractMonth_ok parseDate date
    simp only [ht, if_true, hr]
    cases r with
    | none => rfl
    | some month =>
      by_cases hm : month = ""
      · simp [hm]
      · simp [hm, ProfitPilot.addEntry]
  · simp [ht]

theorem processOrder_eq (parseDate : DateParser) (st : ProcessedData) (order : Record) :
    processOrder parseDate st order = .ok (orderStep parseDate st order) := by
  unfold processOrder orderStep isCountedOrder entryOf
  by_cases h1 : isSaleType (order.get "Type") = true
  · by_cases h2 : (orderValueOf order).gt (JSNum.fin 0) = true
    · simp only [h1, h2, if_true, addToMonth_eq, Bool.and_self]
      cases bucketOf parseDate (order.get "Date") <;> rfl
    · simp [h1, h2]
  · simp [h1]

theorem processCost_eq (parseDate : DateParser) (st : ProcessedData) (cost : Record) :
    processCost parseDate st cost = .ok (costStep parseDate st cost) := by
  unfold processCost costStep isCountedCost entryOf
  by_cases h2 : (costAmountOf cost).gt (JSNum.fin 0) = true
  · simp only [h2, if_true, addToMonth_eq, addToMaterials_eq]
    cases bucketOf parseDate (cost.get "Order Date") <;> rfl
  · simp [h2]

theorem forEachM_ok {σ α : Type} (body : σ → α → Except JSError σ) (step : σ → α → σ)
    (h : ∀ st a, body st a = .ok (step st a)) (st : σ) (l : List α) :
    forEachM body st l = .ok (l.foldl step st) := by
  induction l generalizing st with
  | nil => rfl
  | cons a l ih => simp [forEachM, h, ih]

theorem foldl_orderStep (parseDate : DateParser) (orders : List Record) (st : ProcessedData) :
    orders.foldl (orderStep parseDate) st =
      { st with
        totalRevenue :=
          st.totalRevenue + ((orders.filter isCountedOrder).map orderValueOf).sum
        revenueByMonth :=
          ((orders.filter isCountedOrder).filterMap
            (entryOf parseDate "Date" orderValueOf)).foldl addEntry st.revenueByMonth } := by
  induction orders generalizing st with
  | nil => simp
  | cons order orders ih =>
    rw [List.foldl_cons, ih]
    by_cases h : isCountedOrder order = true
    · cases he : entryOf parseDate "Date" orderValueOf order <;>
        simp [orderStep, h, he, add_assoc]
    · simp [orderStep, h]

theorem foldl_costStep (parseDate : DateParser) (costs : List Record) (st : ProcessedData) :
    costs.foldl (costStep parseDate) st =
      { st with
        totalCosts := st.totalCosts + ((costs.filter isCountedCost).map costAmountOf).sum
        costsByMonth :=
          ((costs.filter isCountedCost).filterMap
            (entryOf parseDate "Order Date" costAmountOf)).foldl addEntry st.costsByMonth
        categorizedExpenses :=
          ((costs.filter isCountedCost).map fun c => ("Materials", costAmountOf c)).foldl
            addEntry st.categorizedExpenses } := by
  induction costs generalizing st with
  | nil => simp
  | cons cost costs ih =>
    rw [List.foldl_cons, ih]
    by_cases h : isCountedCost cost = true
    · cases he : entryOf parseDate "Order Date" costAmountOf cost <;>
        simp [costStep, h, he, add_assoc]
    · simp [costStep, h]

theorem toLowerCase_empty : toLowerCase "" ≠ "completed" := by decide

theorem isCompletedOrder_of_text (cost : Record)
    (h : statusIsText (cost.get "Order Status") = true) :
    isCompletedOrder cost = .ok (statusIsCompleted (cost.get "Order Status")) := by
  unfold isCompletedOrder
  cases hv : cost.get "Order Status" with
  | str s =>
    by_cases hs : s = ""
    · subst hs
      simp [Value.truthy, statusIsCompleted]
    · simp [Value.truthy, statusIsCompleted, hs]
  | num n =>
    rw [hv] at h
    have hn : n = 0 := by simpa [statusIsText] using h
    simp [Value.truthy, statusIsCompleted, hn, toLowerCase_empty]
  | absent => simp [Value.truthy, statusIsCompleted, toLowerCase_empty]

theorem isCompletedOrder_of_not_text (cost : Record)
    (h : statusIsText (cost.get "Order Status") = false) :
    isCompletedOrder cost = .error JSError.typeError := by
  unfold isCompletedOrder
  cases hv : cost.get "Order Status" with
  | str s => rw [hv] at h; simp [statusIsText] at h
  | num n =>
    rw [hv] at h
    have hn : n ≠ 0 := by simpa [statusIsText] using h
    simp [Value.truthy, hn]
  | absent => rw [hv] at h; simp [statusIsText] at h

theorem filterCompleted_of_text (costs : List Record)
    (h : ∀ c ∈ costs, statusIsText (c.get "Order Status") = true) :
    filterCompleted costs = .ok (completedCosts costs) := by
  induction costs with
  | nil => rfl
  | cons c costs ih =>
    have hc := isCompletedOrder_of_text c (h c (List.mem_cons_self _ _))
    have ih2 := ih fun c hc => h c (List.mem_cons_of_mem _ hc)
    simp only [filterCompleted, hc, ih2, completedCosts, List.filter_cons]

theorem filterCompleted_error (costs : List Record)
    (h : ∃ c ∈ costs, statusIsText (c.get "Order Status") = false) :
    filterCompleted costs = .error JSError.typeError := by
  induction costs with
  | nil => simp at h
  | cons c costs ih =>
    by_cases hc : statusIsText (c.get "Order Status") = true
    · have h2 : ∃ c ∈ costs, statusIsText (c.get "Order Status") = false := by
        obtain ⟨d, hd, hd2⟩ := h
        rcases List.mem_cons.1 hd with rfl | hd
        · rw [hc] at hd2; cases hd2
        · exact ⟨d, hd, hd2⟩
      simp [filterCompleted, isCompletedOrder_of_text c hc, ih h2]
    · have hc2 : statusIsText (c.get "Order Status") = false := by simpa using hc
      simp [filterCompleted, isCompletedOrder_of_not_text c hc2]

theorem processBusinessData_of_text (parseDate : DateParser) (sorter : Sorter)
    (orders costs : List Record)
    (h : ∀ c ∈ costs, statusIsText (c.get "Order Status") = true) :
    processBusinessData parseDate sorter orders costs =
      .ok (deriveMetrics (aggregateOf parseDate orders (sorter.sort (completedCosts costs)))) := by
  have horders : (if orders.length > 0 then
      forEachM (processOrder parseDate) ProcessedData.initial orders
      else .ok ProcessedData.initial) =
      .ok (orders.foldl (orderStep parseDate) ProcessedData.initial) := by
    rw [forEachM_ok _ _ (processOrder_eq parseDate)]
    cases orders <;> simp
  have hsort : sorter.sort (completedCosts []) = [] := by
    have := sorter.perm (completedCosts [])
    simpa [completedCosts] using this
  unfold processBusinessData
  simp only [horders]
  by_cases hc : costs.length > 0
  · simp only [hc, if_true, filterCompleted_of_text costs h,
      forEachM_ok _ _ (processCost_eq parseDate), foldl_costStep, foldl_orderStep]
    simp [aggregateOf, ProcessedData.initial, JSNum.fin_zero]
  · have hnil : costs = [] := by
      cases costs with
      | nil => rfl
      | cons c cs => simp at hc
    subst hnil
    simp only [hc, if_false, foldl_orderStep, hsort]
    simp [aggregateOf, ProcessedData.initial, JSNum.fin_zero]

theorem processBusinessData_error (parseDate : DateParser) (sorter : Sorter)
    (orders costs : List Record)
    (h : ∃ c ∈ costs, statusIsText (c.get "Order Status") = false) :
    processBusinessData parseDate sorter orders costs = .error JSError.typeError := by
  have horders : (if orders.length > 0 then
      forEachM (processOrder parseDate) ProcessedData.initial orders
      else .ok ProcessedData.initial) =
      .ok (orders.foldl (orderStep parseDate) ProcessedData.initial) := by
    rw [forEachM_ok _ _ (processOrder_eq parseDate)]
    cases orders <;> simp
  have hc : costs.length > 0 := by
    obtain ⟨c, hc, _⟩ := h
    exact List.length_pos_of_mem hc
  unfold processBusinessData
  simp only [horders, hc, if_true, filterCompleted_error costs h]

/-! ## Amount fields -/

theorem parseFloat_nil : parseFloat [] = JSNum.nan := by decide

theorem amountText_truthy_of_pos (v : Value) (h : (amountText v).gt (JSNum.fin 0) = true) :
    v.truthy = true := by
  cases v with
  | str s =>
    by_cases hs : s = ""
    · subst hs
      have : amountText (Value.str "") = JSNum.nan := by decide
      rw [this] at h
      cases h
    · simp [Value.truthy, hs]
  | num n =>
    have hn : 0 < n := by simpa [amountText, JSNum.gt] using h
    simp [Value.truthy, hn.ne']
  | absent => cases h

theorem isNaN_of_gt {a b : JSNum} (h : a.gt b = true) : a.isNaN = false := by
  cases a <;> first | rfl | cases h

theorem isCountedCost_eq (cost : Record) :
    isCountedCost cost = (amountText (cost.get "Order Value")).gt (JSNum.fin 0) := by
  unfold isCountedCost costAmountOf
  by_cases h : (amountText (cost.get "Order Value")).gt (JSNum.fin 0) = true
  · simp [h, amountText_truthy_of_pos _ h, isNaN_of_gt h]
  · have h2 : (amountText (cost.get "Order Value")).gt (JSNum.fin 0) = false := by simpa using h
    have h0 : (JSNum.fin 0).gt (JSNum.fin 0) = false := by simp [JSNum.gt]
    by_cases ht : (cost.get "Order Value").truthy = true <;> simp [h2, ht, h0]

theorem costAmountOf_of_counted (cost : Record) (h : isCountedCost cost = true) :
    costAmountOf cost = amountText (cost.get "Order Value") := by
  rw [isCountedCost_eq] at h
  unfold costAmountOf
  simp [h, amountText_truthy_of_pos _ h, isNaN_of_gt h]

theorem sum_sort_eq (sorter : Sorter) (l : List Record) (p : Record → Bool)
    (f : Record → JSNum) :
    (((sorter.sort l).filter p).map f).sum = ((l.filter p).map f).sum :=
  (((sorter.perm l).filter p).map f).sum_eq

/-! ## C1: the revenue rule -/

/-- C1, the claim as written fails: an order whose `Type` is `SALE` equals `sale` when letter
case is ignored and carries the positive amount 100, yet `processBusinessData` leaves
`totalRevenue` at 0. -/
theorem C1_upper_case_sale_not_counted :
    toLowerCase "SALE" = "sale" ∧
    orderValueOf upperCaseSale = JSNum.fin 100 ∧
    (processBusinessData isoLocalParser Sorter.keep [upperCaseSale] []).map
      (fun s => s.totalRevenue) = .ok (JSNum.fin 0) := by
  refine ⟨by decide, by decide!, by decide⟩

/-- C1, amended: `processBusinessData` counts an order record towards `totalRevenue` exactly
when its `Type` cell is the string `Sale` or the string `sale` (and its amount is positive):
`totalRevenue` is the sum of the amounts of those records, so that a record of any other
`Type`, `Fee` or `SALE` alike, adds nothing. -/
theorem C1_revenue_counts_Sale_or_sale (parseDate : DateParser) (sorter : Sorter)
    (orders costs : List Record)
    (h : ∀ c ∈ costs, statusIsText (c.get "Order Status") = true) :
    ∃ s, processBusinessData parseDate sorter orders costs = .ok s ∧
      s.totalRevenue =
        ((orders.filter fun o =>
            (decide (o.get "Type" = Value.str "Sale") || decide (o.get "Type" = Value.str "sale"))
              && (orderValueOf o).gt (JSNum.fin 0)).map orderValueOf).sum := by
  refine ⟨_, processBusinessData_of_text parseDate sorter orders costs h, ?_⟩
  rfl

/-- C1, amended, on the scenario of the specification. -/
theorem C1_revenue_counts_Sale_or_sale_witness :
    (∀ c ∈ scenarioCosts, statusIsText (c.get "Order Status") = true) ∧
    ∃ s, processBusinessData isoLocalParser Sorter.keep scenarioOrders scenarioCosts = .ok s ∧
      s.totalRevenue =
        ((scenarioOrders.filter fun o =>
            (decide (o.get "Type" = Value.str "Sale") || decide (o.get "Type" = Value.str "sale"))
              && (orderValueOf o).gt (JSNum.fin 0)).map orderValueOf).sum :=
  ⟨by decide, C1_revenue_counts_Sale_or_sale isoLocalParser Sorter.keep scenarioOrders
    scenarioCosts (by decide)⟩

/-! ## C2: the cost rule -/

/-- C2: when every `Order Status` is text (or a falsy cell), `processBusinessData` returns and
`totalCosts` is the sum of the parsed `Order Value` over exactly the cost records whose status
equals `completed` with letter case ignored and whose `Order Value`, stripped of `$` and `,`,
parses to a number above zero; a record of any other status adds nothing. -/
theorem C2_total_costs_sum_of_completed (parseDate : DateParser) (sorter : Sorter)
    (orders costs : List Record)
    (h : ∀ c ∈ costs, statusIsText (c.get "Order Status") = true) :
    ∃ s, processBusinessData parseDate sorter orders costs = .ok s ∧
      s.totalCosts =
        ((costs.filter fun c =>
            statusIsCompleted (c.get "Order Status") &&
              (amountText (c.get "Order Value")).gt (JSNum.fin 0)).map
          fun c => amountText (c.get "Order Value")).sum := by
  refine ⟨_, processBusinessData_of_text parseDate sorter orders costs h, ?_⟩
  show (((sorter.sort (completedCosts costs)).filter isCountedCost).map costAmountOf).sum = _
  rw [sum_sort_eq, completedCosts, List.filter_filter]
  have hfilter : (costs.filter fun c =>
      isCountedCost c && statusIsCompleted (c.get "Order Status")) =
      costs.filter fun c => statusIsCompleted (c.get "Order Status") &&
        (amountText (c.get "Order Value")).gt (JSNum.fin 0) := by
    apply List.filter_congr
    intro c _
    rw [isCountedCost_eq, Bool.and_comm]
  rw [hfilter]
  congr 1
  apply List.map_congr_left
  intro c hc
  have hc2 := (List.mem_filter.1 hc).2
  simp only [Bool.and_eq_true] at hc2
  exact costAmountOf_of_counted c (by rw [isCountedCost_eq]; exact hc2.2)

/-- C2 on a pending and a completed purchase. -/
theorem C2_total_costs_sum_of_completed_witness :
    (∀ c ∈ pendingAndCompleted, statusIsText (c.get "Order Status") = true) ∧
    ∃ s, processBusinessData isoLocalParser Sorter.reverse [] pendingAndCompleted = .ok s ∧
      s.totalCosts =
        ((pendingAndCompleted.filter fun c =>
            statusIsCompleted (c.get "Order Status") &&
              (amountText (c.get "Order Value")).gt (JSNum.fin 0)).map
          fun c => amountText (c.get "Order Value")).sum :=
  ⟨by decide, C2_total_costs_sum_of_completed isoLocalParser Sorter.reverse []
    pendingAndCompleted (by decide)⟩

/-! ## C3: the amount of a sale -/

theorem orderValueOf_eq (order : Record) :
    orderValueOf order =
      match normalizeAmount (order.get "Amount") with
      | some a =>
        if a = JSNum.fin 0 then (normalizeAmount (order.get "Net")).getD (JSNum.fin 0) else a
      | none => (normalizeAmount (order.get "Net")).getD (JSNum.fin 0) := by
  have hnet : ∀ v : Value,
      (if v.truthy then (if !(amountText v).isNaN then amountText v else JSNum.fin 0)
        else JSNum.fin 0) = (normalizeAmount v).getD (JSNum.fin 0) := by
    intro v
    unfold normalizeAmount
    by_cases ht : v.truthy = true
    · by_cases h1 : v = Value.str "--"
      · subst h1
        have : amountText (Value.str "--") = JSNum.nan := by decide
        simp [this, JSNum.isNaN]
      · by_cases h2 : v = Value.str ""
        · subst h2
          simp [Value.truthy] at ht
        · by_cases hn : (amountText v).isNaN = true <;> simp [ht, h1, h2, hn]
    · simp [ht]
  unfold orderValueOf
  rw [← hnet (order.get "Net")]
  unfold normalizeAmount
  generalize order.get "Amount" = amount
  generalize order.get "Net" = net
  by_cases hc : (amount.truthy && decide (amount ≠ Value.str "--") &&
      decide (amount ≠ Value.str "")) = true
  · by_cases hn : (amountText amount).isNaN = true
    · simp only [hc, hn, if_true, Bool.not_true, Bool.false_eq_true, if_false, decide_True,
        Bool.true_and]
    · simp only [hc, hn, if_true, Bool.not_false, Bool.not_true, if_false]
      by_cases h0 : amountText amount = JSNum.fin 0
      · simp only [h0, decide_True, Bool.true_and, if_true]
      · simp [h0]
  · simp only [hc, Bool.false_eq_true, if_false, decide_True, Bool.true_and]

theorem totalRevenue_single (parseDate : DateParser) (sorter : Sorter) (order : Record)
    (costs : List Record) (h : ∀ c ∈ costs, statusIsText (c.get "Order Status") = true)
    (hs : isSaleType (order.get "Type") = true) :
    ∃ s, processBusinessData parseDate sorter [order] costs = .ok s ∧
      s.totalRevenue =
        if (orderValueOf order).gt (JSNum.fin 0) then orderValueOf order else JSNum.fin 0 := by
  refine ⟨_, processBusinessData_of_text parseDate sorter [order] costs h, ?_⟩
  show (([order].filter isCountedOrder).map orderValueOf).sum = _
  by_cases hg : (orderValueOf order).gt (JSNum.fin 0) = true
  · simp [isCountedOrder, hs, hg]
  · simp only [isCountedOrder, hs, hg, Bool.true_and, List.filter_cons, Bool.false_eq_true,
      if_false, List.filter_nil, List.map_nil, List.sum_nil]
    rfl

/-- C3, the claim as written fails: a sale with `Amount` "-5" and `Net` "10" has a negative
`Amount` and a `Net` that normalizes to 10, yet it adds nothing to `totalRevenue`. -/
theorem C3_negative_amount_no_fallback :
    normalizeAmount (Value.str "-5") = some (JSNum.fin (-5)) ∧
    normalizeAmount (Value.str "10") = some (JSNum.fin 10) ∧
    (processBusinessData isoLocalParser Sorter.keep [negativeAmountSale] []).map
      (fun s => s.totalRevenue) = .ok (JSNum.fin 0) := by
  refine ⟨by decide!, by decide!, by decide!⟩

/-- C3, amended: for a sale record the revenue amount is the `Amount` field when it normalizes
(strip `$` and `,`, reject `--` and the empty string, parse as decimal) to a value above zero;
when `Amount` is absent, a placeholder, unparseable or zero, it is the `Net` field if that
normalizes to a value above zero, and nothing is added if it does not; when `Amount`
normalizes to a negative value nothing is added, whatever `Net` holds.  `$1,234.56` normalizes
to 1234.56, `--` and the empty string to nothing. -/
theorem C3_amount_then_net (parseDate : DateParser) (sorter : Sorter) (order : Record)
    (costs : List Record) (h : ∀ c ∈ costs, statusIsText (c.get "Order Status") = true)
    (hs : isSaleType (order.get "Type") = true) :
    ∃ s, processBusinessData parseDate sorter [order] costs = .ok s ∧
      (∀ a, normalizeAmount (order.get "Amount") = some a → a.gt (JSNum.fin 0) = true →
        s.totalRevenue = a) ∧
      ((normalizeAmount (order.get "Amount") = none ∨
          normalizeAmount (order.get "Amount") = some (JSNum.fin 0)) →
        ∀ n, normalizeAmount (order.get "Net") = some n → n.gt (JSNum.fin 0) = true →
          s.totalRevenue = n) ∧
      ((normalizeAmount (order.get "Amount") = none ∨
          normalizeAmount (order.get "Amount") = some (JSNum.fin 0)) →
        (∀ n, normalizeAmount (order.get "Net") = some n → n.gt (JSNum.fin 0) = false) →
          s.totalRevenue = JSNum.fin 0) ∧
      (∀ a, normalizeAmount (order.get "Amount") = some a → a.gt (JSNum.fin 0) = false →
        a ≠ JSNum.fin 0 → s.totalRevenue = JSNum.fin 0) ∧
      normalizeAmount (Value.str "$1,234.56") = some (JSNum.fin 1234.56) ∧
      normalizeAmount (Value.str "--") = none ∧
      normalizeAmount (Value.str "") = none := by
  obtain ⟨s, hs1, hs2⟩ := totalRevenue_single parseDate sorter order costs h hs
  have h00 : (JSNum.fin 0).gt (JSNum.fin 0) = false := by simp [JSNum.gt]
  have hfall : (normalizeAmount (order.get "Amount") = none ∨
      normalizeAmount (order.get "Amount") = some (JSNum.fin 0)) →
      orderValueOf order = (normalizeAmount (order.get "Net")).getD (JSNum.fin 0) := by
    intro hA
    rw [orderValueOf_eq]
    rcases hA with hA | hA <;> simp [hA]
  refine ⟨s, hs1, ?_, ?_, ?_, ?_, by decide!, by decide, by decide⟩
  · intro a ha hpos
    have hne : a ≠ JSNum.fin 0 := JSNum.Pos.ne_zero hpos
    have hv : orderValueOf order = a := by rw [orderValueOf_eq, ha]; simp [hne]
    rw [hs2, hv, hpos]; rfl
  · intro hA n hn hpos
    have hv : orderValueOf order = n := by rw [hfall hA, hn]; rfl
    rw [hs2, hv, hpos]; rfl
  · intro hA hnet
    rw [hs2, hfall hA]
    cases hn : normalizeAmount (order.get "Net") with
    | none => simp [h00]
    | some n => simp [hnet n hn]
  · intro a ha hneg hne
    have hv : orderValueOf order = a := by rw [orderValueOf_eq, ha]; simp [hne]
    rw [hs2, hv, hneg]; rfl

/-- C3, amended, on a sale whose `Amount` is the placeholder `--`. -/
theorem C3_amount_then_net_witness :
    (∀ c ∈ scenarioCosts, statusIsText (c.get "Order Status") = true) ∧
    isSaleType (placeholderAmountSale.get "Type") = true ∧
    ∃ s, processBusinessData isoLocalParser Sorter.keep [placeholderAmountSale] scenarioCosts
        = .ok s ∧
      (∀ a, normalizeAmount (placeholderAmountSale.get "Amount") = some a →
        a.gt (JSNum.fin 0) = true → s.totalRevenue = a) ∧
      ((normalizeAmount (placeholderAmountSale.get "Amount") = none ∨
          normalizeAmount (placeholderAmountSale.get "Amount") = some (JSNum.fin 0)) →
        ∀ n, normalizeAmount (placeholderAmountSale.get "Net") = some n →
          n.gt (JSNum.fin 0) = true → s.totalRevenue = n) ∧
      ((normalizeAmount (placeholderAmountSale.get "Amount") = none ∨
          normalizeAmount (placeholderAmountSale.get "Amount") = some (JSNum.fin 0)) →
        (∀ n, normalizeAmount (placeholderAmountSale.get "Net") = some n →
          n.gt (JSNum.fin 0) = false) → s.totalRevenue = JSNum.fin 0) ∧
      (∀ a, normalizeAmount (placeholderAmountSale.get "Amount") = some a →
        a.gt (JSNum.fin 0) = false → a ≠ JSNum.fin 0 → s.totalRevenue = JSNum.fin 0) ∧
      normalizeAmount (Value.str "$1,234.56") = some (JSNum.fin 1234.56) ∧
      normalizeAmount (Value.str "--") = none ∧
      normalizeAmount (Value.str "") = none :=
  ⟨by decide, by decide, C3_amount_then_net isoLocalParser Sorter.keep placeholderAmountSale
    scenarioCosts (by decide) (by decide)⟩

/-! ## Monthly series -/

theorem entries_pos (parseDate : DateParser) (dateKey : String) (amount : Record → JSNum)
    (rows : List Record) (h : ∀ r ∈ rows, JSNum.Pos (amount r)) :
    ∀ e ∈ rows.filterMap (entryOf parseDate dateKey amount), JSNum.Pos e.2 := by
  intro e he
  obtain ⟨r, hr, hre⟩ := List.mem_filterMap.1 he
  unfold entryOf at hre
  cases hb : bucketOf parseDate (r.get dateKey) with
  | none => rw [hb] at hre; cases hre
  | some m =>
    rw [hb] at hre
    simp only [Option.map_some', Option.some.injEq] at hre
    rw [← hre]
    exact h r hr

theorem entries_of_month (parseDate : DateParser) (dateKey : String) (amount : Record → JSNum)
    (k : String) (rows : List Record) :
    ((rows.filterMap (entryOf parseDate dateKey amount)).filter
        fun e => decide (e.1 = k)).map Prod.snd =
      (rowsOfMonth parseDate dateKey k rows).map amount := by
  induction rows with
  | nil => rfl
  | cons r rows ih =>
    unfold rowsOfMonth at ih ⊢
    unfold entryOf at ih ⊢
    cases hb : bucketOf parseDate (r.get dateKey) with
    | none => simp [List.filterMap_cons, hb, List.filter_cons, ih]
    | some m =>
      by_cases hm : m = k
      · simp [List.filterMap_cons, hb, List.filter_cons, hm, ih]
      · simp [List.filterMap_cons, hb, List.filter_cons, hm, ih]

theorem entries_sum (parseDate : DateParser) (dateKey : String) (amount : Record → JSNum)
    (rows : List Record) :
    ((rows.filterMap (entryOf parseDate dateKey amount)).map Prod.snd).sum +
      ((rows.filter fun r => decide (bucketOf parseDate (r.get dateKey) = none)).map amount).sum
      = (rows.map amount).sum := by
  induction rows with
  | nil => simp
  | cons r rows ih =>
    unfold entryOf at ih ⊢
    cases hb : bucketOf parseDate (r.get dateKey) with
    | none =>
      simp only [List.filterMap_cons, hb, Option.map_none', List.filter_cons, decide_True, if_true,
        List.map_cons, List.sum_cons]
      rw [← ih]
      abel
    | some m =>
      simp only [List.filterMap_cons, hb, Option.map_some', List.filter_cons, List.map_cons,
        List.sum_cons, reduceCtorEq, decide_False, Bool.false_eq_true, if_false]
      rw [← ih]
      abel

theorem counted_orders_pos (orders : List Record) :
    ∀ r ∈ orders.filter isCountedOrder, JSNum.Pos (orderValueOf r) := by
  intro r hr
  have h := (List.mem_filter.1 hr).2
  unfold isCountedOrder at h
  simp only [Bool.and_eq_true] at h
  exact h.2

theorem counted_costs_pos (costs : List Record) :
    ∀ r ∈ costs.filter isCountedCost, JSNum.Pos (costAmountOf r) := by
  intro r hr
  exact (List.mem_filter.1 hr).2

theorem allPos_nil : AllPos [] := by
  intro e he
  cases he

/-- Reading a period of a monthly series built from the counted rows. -/
theorem get_series (parseDate : DateParser) (dateKey : String) (amount : Record → JSNum)
    (rows : List Record) (h : ∀ r ∈ rows, JSNum.Pos (amount r)) (k : String) :
    JSObj.get ((rows.filterMap (entryOf parseDate dateKey amount)).foldl addEntry []) k =
      if rowsOfMonth parseDate dateKey k rows = [] then none
      else some ((rowsOfMonth parseDate dateKey k rows).map amount).sum := by
  rw [get_foldl_addEntry _ (entries_pos parseDate dateKey amount rows h) [] allPos_nil k]
  have hmap := entries_of_month parseDate dateKey amount k rows
  by_cases hnil : rowsOfMonth parseDate dateKey k rows = []
  · have : (rows.filterMap (entryOf parseDate dateKey amount)).filter
        (fun e => decide (e.1 = k)) = [] := by
      rw [hnil] at hmap
      simpa using hmap
    simp [hnil, this, JSObj.get]
  · have : (rows.filterMap (entryOf parseDate dateKey amount)).filter
        (fun e => decide (e.1 = k)) ≠ [] := by
      intro h0
      rw [h0] at hmap
      exact hnil (by simpa using hmap.symm)
    simp only [this, hnil, if_false, hmap, JSObj.getOrZero, JSObj.get, JSNum.fin_zero, zero_add]

theorem sum_series (parseDate : DateParser) (dateKey : String) (amount : Record → JSNum)
    (rows : List Record) (h : ∀ r ∈ rows, JSNum.Pos (amount r)) :
    sumValues ((rows.filterMap (entryOf parseDate dateKey amount)).foldl addEntry []) =
      ((rows.filterMap (entryOf parseDate dateKey amount)).map Prod.snd).sum := by
  rw [sumValues_foldl_addEntry _ (entries_pos parseDate dateKey amount rows h) [] allPos_nil]
  simp [sumValues]

/-! ## Rounding to binary64 -/

theorem pow2_eq (p : Int) : pow2 p = (2 : ℚ) ^ p := by
  unfold pow2
  split
  · next h =>
    obtain ⟨n, rfl⟩ := Int.eq_ofNat_of_zero_le h
    simp
  · next h =>
    obtain ⟨n, rfl⟩ := Int.exists_eq_neg_ofNat (le_of_lt (not_le.1 h))
    simp

theorem pow2_pos (p : Int) : 0 < pow2 p := by
  rw [pow2_eq]
  positivity

theorem pow2_mono {p r : Int} (h : p ≤ r) : pow2 p ≤ pow2 r := by
  rw [pow2_eq, pow2_eq]
  exact zpow_le_zpow_right₀ (by norm_num) h

theorem halvings_bounds : ∀ fuel n : Nat, 1 ≤ n → n ≤ fuel →
    2 ^ halvings fuel n ≤ n ∧ n < 2 ^ (halvings fuel n + 1)
  | 0, n, h1, h2 => by omega
  | fuel + 1, n, h1, h2 => by
    unfold halvings
    by_cases h : n < 2
    · simp only [h, if_true]
      omega
    · simp only [h, if_false]
      have ih := halvings_bounds fuel (n / 2) (by omega) (by omega)
      rw [pow_succ, pow_succ]
      generalize 2 ^ halvings fuel (n / 2) = x at ih ⊢
      rw [pow_succ] at ih
      omega

theorem leadingBit_le (n : Nat) (h : 1 ≤ n) : 2 ^ leadingBit n ≤ n :=
  (halvings_bounds n n h (le_refl n)).1

theorem lt_leadingBit (n : Nat) (h : 1 ≤ n) : n < 2 ^ (leadingBit n + 1) :=
  (halvings_bounds n n h (le_refl n)).2

/-- The exponent found for a rational is not above its magnitude. -/
theorem pow2_floorLog2_le (q : ℚ) (hq : q ≠ 0) : pow2 (floorLog2 q) ≤ |q| := by
  unfold floorLog2
  simp only []
  split
  · next h => exact h
  · have hnum : 1 ≤ q.num.natAbs := by
      have : q.num ≠ 0 := Rat.num_ne_zero.2 hq
      omega
    have hden : 1 ≤ q.den := q.den_pos
    have h1 : ((2 ^ leadingBit q.num.natAbs : Nat) : ℚ) ≤ (q.num.natAbs : ℚ) := by
      exact_mod_cast leadingBit_le _ hnum
    have h2 : (q.den : ℚ) ≤ ((2 ^ (leadingBit q.den + 1) : Nat) : ℚ) := by
      exact_mod_cast (lt_leadingBit _ hden).le
    have habs : |q| = (q.num.natAbs : ℚ) / (q.den : ℚ) := by
      conv_lhs => rw [← Rat.num_div_den q]
      rw [abs_div, Nat.abs_cast, Nat.cast_natAbs, Int.cast_abs]
    rw [habs, pow2_eq]
    have hexp : ((leadingBit q.num.natAbs : Int) - (leadingBit q.den : Int) - 1) =
        (leadingBit q.num.natAbs : Int) - ((leadingBit q.den + 1 : Nat) : Int) := by
      push_cast
      ring
    rw [hexp, zpow_sub₀ (by norm_num : (2 : ℚ) ≠ 0), zpow_natCast, zpow_natCast]
    push_cast at h1 h2
    have hd : (0 : ℚ) < q.den := by exact_mod_cast hden
    exact div_le_div₀ (by positivity) h1 hd h2

theorem floor_le_roundHalfEven (x : ℚ) : Rat.floor x ≤ roundHalfEven x := by
  unfold roundHalfEven
  simp only
  split
  · exact le_refl _
  · split
    · omega
    · split <;> omega

theorem roundHalfEven_nonneg (x : ℚ) (h : 0 ≤ x) : 0 ≤ roundHalfEven x :=
  le_trans (Rat.le_floor.2 (by exact_mod_cast h)) (floor_le_roundHalfEven x)

theorem one_le_roundHalfEven (x : ℚ) (h : 1 ≤ x) : 1 ≤ roundHalfEven x :=
  le_trans (Rat.le_floor.2 (by exact_mod_cast h)) (floor_le_roundHalfEven x)

theorem roundedMagnitude_nonneg (q : ℚ) : 0 ≤ roundedMagnitude q := by
  have hr : (0 : ℚ) ≤ ((roundHalfEven (|q| / pow2 (lastPlace q)) : Int) : ℚ) := by
    exact_mod_cast roundHalfEven_nonneg _ (div_nonneg (abs_nonneg q) (pow2_pos _).le)
  exact mul_nonneg hr (pow2_pos _).le

theorem lastPlace_ge (q : ℚ) : -1074 ≤ lastPlace q := le_max_right _ _

/-- The shape of the Number next to a positive rational. -/
theorem roundToDouble_of_pos (q : ℚ) (hq : 0 < q) :
    roundToDouble q = if pow2 1024 ≤ roundedMagnitude q then JSNum.pinf
      else JSNum.fin (roundedMagnitude q) := by
  unfold roundToDouble
  simp only [hq.ne', if_false, not_lt.2 hq.le]

/-- A positive rational that is at least the least positive Number keeps a significand of at
least one. -/
theorem pow2_le_roundedMagnitude (q : ℚ) (h : pow2 (-1074) ≤ q) :
    pow2 (lastPlace q) ≤ roundedMagnitude q := by
  have hq : 0 < q := lt_of_lt_of_le (pow2_pos _) h
  have habs : |q| = q := abs_of_pos hq
  have h1 : (1 : Int) ≤ roundHalfEven (|q| / pow2 (lastPlace q)) := by
    apply one_le_roundHalfEven
    rw [le_div_iff₀ (pow2_pos _), one_mul]
    unfold lastPlace
    rcases max_cases (floorLog2 q - 52) (-1074) with ⟨h1, _⟩ | ⟨h1, _⟩
    · rw [h1]
      exact le_trans (pow2_mono (by omega)) (pow2_floorLog2_le q hq.ne')
    · rw [h1, habs]
      exact h
  have h2 : (1 : ℚ) ≤ (roundHalfEven (|q| / pow2 (lastPlace q)) : ℚ) := by exact_mod_cast h1
  unfold roundedMagnitude
  calc pow2 (lastPlace q) = 1 * pow2 (lastPlace q) := (one_mul _).symm
    _ ≤ _ := mul_le_mul_of_nonneg_right h2 (pow2_pos _).le

/-- A rounded magnitude above zero is at least the least positive Number. -/
theorem roundedMagnitude_tiny (q : ℚ) (h : 0 < roundedMagnitude q) :
    pow2 (-1074) ≤ roundedMagnitude q := by
  have hm : 0 < roundHalfEven (|q| / pow2 (lastPlace q)) := by
    rcases (roundHalfEven_nonneg _
      (div_nonneg (abs_nonneg q) (pow2_pos (lastPlace q)).le)).lt_or_eq with h3 | h3
    · exact h3
    · unfold roundedMagnitude at h
      rw [← h3] at h
      simp at h
  have hm1 : (1 : ℚ) ≤ (roundHalfEven (|q| / pow2 (lastPlace q)) : ℚ) := by exact_mod_cast hm
  unfold roundedMagnitude
  calc pow2 (-1074) ≤ pow2 (lastPlace q) := pow2_mono (lastPlace_ge q)
    _ = 1 * pow2 (lastPlace q) := (one_mul _).symm
    _ ≤ _ := mul_le_mul_of_nonneg_right hm1 (pow2_pos _).le

theorem roundToDouble_of_neg (q : ℚ) (hq : q < 0) : ¬ JSNum.Pos (roundToDouble q) := by
  have hm := roundedMagnitude_nonneg q
  unfold roundToDouble
  simp only [hq.ne, if_false, hq, if_true]
  split
  · simp [JSNum.Pos, JSNum.gt]
  · simp only [JSNum.Pos, JSNum.gt, decide_eq_true_eq, not_lt]
    linarith

theorem atLeastTiny_iff (x : JSNum) :
    x.AtLeastTiny ↔ (∃ q : ℚ, x = JSNum.fin q ∧ pow2 (-1074) ≤ q) ∨ x = JSNum.pinf := by
  cases x <;> simp [JSNum.AtLeastTiny, JSNum.le]

/-- A Number above zero is at least the least positive Number. -/
theorem binary64_atLeastTiny (w : JSNum) (h : JSNum.Pos (Rounding.binary64 w)) :
    (Rounding.binary64 w).AtLeastTiny := by
  cases w with
  | fin q =>
    show (roundToDouble q).AtLeastTiny
    have h2 : JSNum.Pos (roundToDouble q) := h
    rcases lt_trichotomy q 0 with hq | hq | hq
    · exact absurd h2 (roundToDouble_of_neg q hq)
    · subst hq
      have : roundToDouble 0 = JSNum.fin 0 := by simp [roundToDouble]
      rw [this] at h2
      simp [JSNum.Pos, JSNum.gt] at h2
    · rw [roundToDouble_of_pos q hq] at h2 ⊢
      split
      · exact (atLeastTiny_iff _).2 (Or.inr rfl)
      · next hfin =>
        simp only [hfin, if_false] at h2
        have hpos : 0 < roundedMagnitude q := by simpa [JSNum.Pos, JSNum.gt] using h2
        exact (atLeastTiny_iff _).2 (Or.inl ⟨_, rfl, roundedMagnitude_tiny q hpos⟩)
  | pinf => exact (atLeastTiny_iff _).2 (Or.inr rfl)
  | ninf => cases h
  | nan => cases h

/-- Rounding keeps a rational that is at least the least positive Number above zero. -/
theorem roundToDouble_pos (q : ℚ) (h : pow2 (-1074) ≤ q) : JSNum.Pos (roundToDouble q) := by
  have hq : 0 < q := lt_of_lt_of_le (pow2_pos _) h
  rw [roundToDouble_of_pos q hq]
  split
  · rfl
  · have : 0 < roundedMagnitude q :=
      lt_of_lt_of_le (pow2_pos _) (pow2_le_roundedMagnitude q h)
    simpa [JSNum.Pos, JSNum.gt] using this

/-- A running sum to which a Number above zero is added stays above zero. -/
theorem binary64_keeps (v : JSNum) (h : v.AtLeastTiny) : Rounding.binary64.Keeps v := by
  intro a ha
  rcases (JSNum.nonNeg_iff a).1 ha with ⟨x, rfl, hx⟩ | rfl <;>
    rcases (atLeastTiny_iff v).1 h with ⟨y, rfl, hy⟩ | rfl
  · show JSNum.Pos (roundToDouble (x + y))
    exact roundToDouble_pos _ (by linarith)
  · rfl
  · rfl
  · rfl

theorem pow2_add (a b : Int) : pow2 (a + b) = pow2 a * pow2 b := by
  rw [pow2_eq, pow2_eq, pow2_eq, zpow_add₀ (by norm_num : (2 : ℚ) ≠ 0)]

theorem lt_of_pow2_lt {a b : Int} (h : pow2 a < pow2 b) : a < b := by
  by_contra hba
  exact absurd (pow2_mono (not_lt.1 hba)) (not_le.2 h)

theorem pow2_toNat (n : Int) (h : 0 ≤ n) : pow2 n = (((2 : Int) ^ n.toNat : Int) : ℚ) := by
  unfold pow2
  simp [h]

/-- The exponent found for a rational is the place of its leading digit. -/
theorem lt_pow2_floorLog2 (q : ℚ) (hq : q ≠ 0) : |q| < pow2 (floorLog2 q + 1) := by
  unfold floorLog2
  simp only []
  split
  · have hnum : 1 ≤ q.num.natAbs := by
      have : q.num ≠ 0 := Rat.num_ne_zero.2 hq
      omega
    have hden : 1 ≤ q.den := q.den_pos
    have h1 : (q.num.natAbs : ℚ) < ((2 ^ (leadingBit q.num.natAbs + 1) : Nat) : ℚ) := by
      exact_mod_cast lt_leadingBit _ hnum
    have h2 : ((2 ^ leadingBit q.den : Nat) : ℚ) ≤ (q.den : ℚ) := by
      exact_mod_cast leadingBit_le _ hden
    have habs : |q| = (q.num.natAbs : ℚ) / (q.den : ℚ) := by
      conv_lhs => rw [← Rat.num_div_den q]
      rw [abs_div, Nat.abs_cast, Nat.cast_natAbs, Int.cast_abs]
    rw [habs, pow2_eq]
    have hexp : ((leadingBit q.num.natAbs : Int) - (leadingBit q.den : Int) + 1) =
        ((leadingBit q.num.natAbs + 1 : Nat) : Int) - (leadingBit q.den : Int) := by
      push_cast
      ring
    rw [hexp, zpow_sub₀ (by norm_num : (2 : ℚ) ≠ 0), zpow_natCast, zpow_natCast]
    push_cast at h1 h2
    have hd : (0 : ℚ) < 2 ^ leadingBit q.den := by positivity
    exact div_lt_div₀ h1 h2 (by positivity) hd
  · next h =>
    have : (↑(leadingBit q.num.natAbs) - ↑(leadingBit q.den) - 1 + 1 : Int) =
        ↑(leadingBit q.num.natAbs) - ↑(leadingBit q.den) := by ring
    rw [this]
    exact not_le.1 h

theorem floorLog2_eq (q : ℚ) (e : Int) (h1 : pow2 e ≤ |q|) (h2 : |q| < pow2 (e + 1)) :
    floorLog2 q = e := by
  have hq : q ≠ 0 := by
    intro h0
    rw [h0, abs_zero] at h1
    exact absurd h1 (not_le.2 (pow2_pos e))
  have h3 := pow2_floorLog2_le q hq
  have h4 := lt_pow2_floorLog2 q hq
  have h5 := lt_of_pow2_lt (lt_of_le_of_lt h3 h2)
  have h6 := lt_of_pow2_lt (lt_of_le_of_lt h1 h4)
  omega

theorem floorLog2_mono (x y : ℚ) (hx : 0 < x) (hxy : x ≤ y) : floorLog2 x ≤ floorLog2 y := by
  have hy : 0 < y := lt_of_lt_of_le hx hxy
  have h1 := pow2_floorLog2_le x hx.ne'
  have h2 := lt_pow2_floorLog2 y hy.ne'
  rw [abs_of_pos hx] at h1
  rw [abs_of_pos hy] at h2
  have := lt_of_pow2_lt (lt_of_le_of_lt (le_trans h1 hxy) h2)
  omega

theorem roundHalfEven_le_floor_add_one (x : ℚ) : roundHalfEven x ≤ Rat.floor x + 1 := by
  unfold roundHalfEven
  simp only []
  split
  · omega
  · split
    · exact le_refl _
    · split <;> omega

theorem floor_le_self (a : ℚ) : (Rat.floor a : ℚ) ≤ a := Rat.le_floor.1 (le_refl _)

theorem floor_intCast (n : Int) : Rat.floor (n : ℚ) = n := by
  apply le_antisymm
  · exact_mod_cast floor_le_self (n : ℚ)
  · exact Rat.le_floor.2 (le_refl _)

theorem roundHalfEven_intCast (n : Int) : roundHalfEven (n : ℚ) = n := by
  have hf : Rat.floor (n : ℚ) = n := floor_intCast n
  unfold roundHalfEven
  simp only [hf, sub_self]
  norm_num

theorem roundHalfEven_mono (a b : ℚ) (h : a ≤ b) : roundHalfEven a ≤ roundHalfEven b := by
  have hfloor : Rat.floor a ≤ Rat.floor b := Rat.le_floor.2 (le_trans (floor_le_self a) h)
  rcases hfloor.lt_or_eq with hlt | heq
  · calc roundHalfEven a ≤ Rat.floor a + 1 := roundHalfEven_le_floor_add_one a
      _ ≤ Rat.floor b := hlt
      _ ≤ roundHalfEven b := floor_le_roundHalfEven b
  · have hrest : a - (Rat.floor a : ℚ) ≤ b - (Rat.floor b : ℚ) := by
      rw [heq]
      linarith
    unfold roundHalfEven
    simp only []
    rw [← heq] at hrest ⊢
    generalize Rat.floor a = f at hrest ⊢
    split_ifs <;> first | omega | (exfalso; linarith)

theorem roundHalfEven_le (a : ℚ) (k : Int) (h : a ≤ k) : roundHalfEven a ≤ k := by
  have := roundHalfEven_mono a k h
  rwa [roundHalfEven_intCast] at this

theorem le_roundHalfEven (a : ℚ) (k : Int) (h : (k : ℚ) ≤ a) : k ≤ roundHalfEven a := by
  have := roundHalfEven_mono k a h
  rwa [roundHalfEven_intCast] at this

theorem pow2_sub (a b : Int) : pow2 (a - b) = pow2 a / pow2 b := by
  rw [pow2_eq, pow2_eq, pow2_eq, zpow_sub₀ (by norm_num : (2 : ℚ) ≠ 0)]

theorem roundedMagnitude_zero : roundedMagnitude 0 = 0 := by
  unfold roundedMagnitude
  have : roundHalfEven (0 : ℚ) = 0 := by
    have := roundHalfEven_intCast 0
    simpa using this
  simp [this]

/-- A rounded magnitude does not pass the next power of two. -/
theorem roundedMagnitude_le_pow2 (x : ℚ) (hx : x ≠ 0) (e : Int) (h1 : floorLog2 x + 1 ≤ e)
    (h2 : lastPlace x ≤ e) : roundedMagnitude x ≤ pow2 e := by
  have hlt : |x| < pow2 e := lt_of_lt_of_le (lt_pow2_floorLog2 x hx) (pow2_mono h1)
  have hdiv : |x| / pow2 (lastPlace x) ≤ (((2 : Int) ^ (e - lastPlace x).toNat : Int) : ℚ) := by
    rw [← pow2_toNat _ (by omega), pow2_sub]
    exact div_le_div_of_nonneg_right hlt.le (pow2_pos _).le
  have hm := roundHalfEven_le _ _ hdiv
  have hm2 : (roundHalfEven (|x| / pow2 (lastPlace x)) : ℚ) ≤
      (((2 : Int) ^ (e - lastPlace x).toNat : Int) : ℚ) := by exact_mod_cast hm
  unfold roundedMagnitude
  calc (roundHalfEven (|x| / pow2 (lastPlace x)) : ℚ) * pow2 (lastPlace x)
      ≤ (((2 : Int) ^ (e - lastPlace x).toNat : Int) : ℚ) * pow2 (lastPlace x) :=
        mul_le_mul_of_nonneg_right hm2 (pow2_pos _).le
    _ = pow2 (e - lastPlace x) * pow2 (lastPlace x) := by rw [← pow2_toNat _ (by omega)]
    _ = pow2 e := by rw [← pow2_add]; congr 1; ring

/-- A rounded magnitude with a full significand is not below its leading power of two. -/
theorem pow2_floorLog2_le_roundedMagnitude (y : ℚ) (hy : y ≠ 0)
    (h : lastPlace y = floorLog2 y - 52) : pow2 (floorLog2 y) ≤ roundedMagnitude y := by
  have hge := pow2_floorLog2_le y hy
  have hdiv : (((2 : Int) ^ (52 : Int).toNat : Int) : ℚ) ≤ |y| / pow2 (lastPlace y) := by
    rw [← pow2_toNat _ (by norm_num)]
    have : (52 : Int) = floorLog2 y - lastPlace y := by omega
    rw [this, pow2_sub]
    exact div_le_div_of_nonneg_right hge (pow2_pos _).le
  have hm := le_roundHalfEven _ _ hdiv
  have hm2 : (((2 : Int) ^ (52 : Int).toNat : Int) : ℚ) ≤
      (roundHalfEven (|y| / pow2 (lastPlace y)) : ℚ) := by exact_mod_cast hm
  unfold roundedMagnitude
  calc pow2 (floorLog2 y) = pow2 52 * pow2 (lastPlace y) := by
        rw [← pow2_add]; congr 1; omega
    _ = (((2 : Int) ^ (52 : Int).toNat : Int) : ℚ) * pow2 (lastPlace y) := by
        rw [← pow2_toNat _ (by norm_num)]
    _ ≤ _ := mul_le_mul_of_nonneg_right hm2 (pow2_pos _).le

/-- Rounding keeps the order of positive rationals. -/
theorem roundedMagnitude_mono (x y : ℚ) (hx : 0 < x) (hxy : x ≤ y) :
    roundedMagnitude x ≤ roundedMagnitude y := by
  have hy : 0 < y := lt_of_lt_of_le hx hxy
  have hfl := floorLog2_mono x y hx hxy
  have hp : lastPlace x ≤ lastPlace y := by
    unfold lastPlace
    exact max_le_max (by omega) (le_refl _)
  rcases hp.lt_or_eq with hlt | heq
  · have hnormal : lastPlace y = floorLog2 y - 52 := by
      have h1 := lastPlace_ge x
      unfold lastPlace at hlt h1 ⊢
      rcases max_cases (floorLog2 y - 52) (-1074) with ⟨h2, _⟩ | ⟨h2, _⟩
      · exact h2
      · rw [h2] at hlt; omega
    have hflt : floorLog2 x + 1 ≤ floorLog2 y := by
      by_contra hcon
      have heq : floorLog2 x = floorLog2 y := by omega
      unfold lastPlace at hlt
      rw [heq] at hlt
      exact lt_irrefl _ hlt
    exact le_trans (roundedMagnitude_le_pow2 x hx.ne' (floorLog2 y) hflt (by omega))
      (pow2_floorLog2_le_roundedMagnitude y hy.ne' hnormal)
  · unfold roundedMagnitude
    rw [heq, abs_of_pos hx, abs_of_pos hy]
    have hdiv : x / pow2 (lastPlace y) ≤ y / pow2 (lastPlace y) :=
      div_le_div_of_nonneg_right hxy (pow2_pos _).le
    have hm : (roundHalfEven (x / pow2 (lastPlace y)) : ℚ) ≤
        (roundHalfEven (y / pow2 (lastPlace y)) : ℚ) := by
      exact_mod_cast roundHalfEven_mono _ _ hdiv
    exact mul_le_mul_of_nonneg_right hm (pow2_pos _).le

/-- An integer below `2 ^ 53` times a power of two that is not below the least one is a
binary64 number: rounding leaves it as it is. -/
theorem roundedMagnitude_of_significand (m p : Int) (hm1 : 1 ≤ m) (hm2 : m < 2 ^ 53)
    (hp : -1074 ≤ p) : roundedMagnitude ((m : ℚ) * pow2 p) = (m : ℚ) * pow2 p := by
  have hmq : (1 : ℚ) ≤ (m : ℚ) := by exact_mod_cast hm1
  have hmq2 : (m : ℚ) < pow2 53 := by
    rw [pow2_toNat 53 (by norm_num)]
    exact_mod_cast hm2
  have hpos : 0 < (m : ℚ) * pow2 p := mul_pos (by linarith) (pow2_pos p)
  have hlt : (m : ℚ) * pow2 p < pow2 (p + 53) := by
    rw [add_comm, pow2_add]
    exact mul_lt_mul_of_pos_right hmq2 (pow2_pos p)
  have hfl : floorLog2 ((m : ℚ) * pow2 p) < p + 53 := by
    have h1 := pow2_floorLog2_le _ hpos.ne'
    rw [abs_of_pos hpos] at h1
    exact lt_of_pow2_lt (lt_of_le_of_lt h1 hlt)
  have hlast : lastPlace ((m : ℚ) * pow2 p) ≤ p := by
    unfold lastPlace
    exact max_le (by omega) hp
  have hdiv : |(m : ℚ) * pow2 p| / pow2 (lastPlace ((m : ℚ) * pow2 p)) =
      ((m * (2 : Int) ^ (p - lastPlace ((m : ℚ) * pow2 p)).toNat : Int) : ℚ) := by
    rw [abs_of_pos hpos, mul_div_assoc, ← pow2_sub, pow2_toNat _ (by omega)]
    push_cast
    rfl
  unfold roundedMagnitude
  rw [hdiv, roundHalfEven_intCast]
  push_cast
  rw [mul_assoc]
  congr 1
  have := pow2_toNat (p - lastPlace ((m : ℚ) * pow2 p)) (by omega)
  push_cast at this
  rw [← this, ← pow2_add]
  congr 1
  ring

theorem significand_le (q : ℚ) (hq : q ≠ 0) :
    roundHalfEven (|q| / pow2 (lastPlace q)) ≤ 2 ^ 53 := by
  have hlt := lt_pow2_floorLog2 q hq
  have hp : floorLog2 q + 1 - lastPlace q ≤ 53 := by
    have : floorLog2 q - 52 ≤ lastPlace q := le_max_left _ _
    omega
  have hdiv : |q| / pow2 (lastPlace q) ≤ (((2 : Int) ^ 53 : Int) : ℚ) := by
    have h53 : pow2 53 = (((2 : Int) ^ 53 : Int) : ℚ) := pow2_toNat 53 (by norm_num)
    rw [← h53]
    calc |q| / pow2 (lastPlace q) ≤ pow2 (floorLog2 q + 1) / pow2 (lastPlace q) :=
          div_le_div_of_nonneg_right hlt.le (pow2_pos _).le
      _ = pow2 (floorLog2 q + 1 - lastPlace q) := (pow2_sub _ _).symm
      _ ≤ pow2 53 := pow2_mono hp
  exact roundHalfEven_le _ _ hdiv

/-- Rounding a rounded magnitude leaves it as it is. -/
theorem roundedMagnitude_idem (q : ℚ) :
    roundedMagnitude (roundedMagnitude q) = roundedMagnitude q := by
  by_cases hq : q = 0
  · rw [hq, roundedMagnitude_zero, roundedMagnitude_zero]
  · have h0 := roundHalfEven_nonneg _
      (div_nonneg (abs_nonneg q) (pow2_pos (lastPlace q)).le)
    have h53 := significand_le q hq
    have hp := lastPlace_ge q
    have hdef : roundedMagnitude q =
        (roundHalfEven (|q| / pow2 (lastPlace q)) : ℚ) * pow2 (lastPlace q) := rfl
    generalize roundHalfEven (|q| / pow2 (lastPlace q)) = m at h0 h53 hdef
    generalize lastPlace q = p at hp hdef
    rw [hdef]
    rcases h0.lt_or_eq with hpos | hzero
    · rcases h53.lt_or_eq with hlt | heq
      · exact roundedMagnitude_of_significand m p (by omega) hlt hp
      · have hre : (m : ℚ) * pow2 p = (((2 : Int) ^ 52 : Int) : ℚ) * pow2 (p + 1) := by
          rw [heq, pow2_add]
          have : pow2 1 = 2 := by
            rw [pow2_eq]
            norm_num
          rw [this]
          push_cast
          ring
        rw [hre]
        exact roundedMagnitude_of_significand _ (p + 1) (by norm_num) (by norm_num) (by omega)
    · rw [← hzero]
      simp [roundedMagnitude_zero]

theorem jsnum_le_trans (a b c : JSNum) (h1 : a.le b = true) (h2 : b.le c = true) :
    a.le c = true := by
  cases a <;> cases b <;> cases c <;> simp_all [JSNum.le] <;> linarith

theorem jsnum_le_add_right (a b v : JSNum) (ha : JSNum.NonNeg a) (hv : JSNum.NonNeg v)
    (h : a.le b = true) : (a.add v).le (b.add v) = true := by
  rcases (JSNum.nonNeg_iff v).1 hv with ⟨z, rfl, hz⟩ | rfl <;>
    rcases (JSNum.nonNeg_iff a).1 ha with ⟨x, rfl, hx⟩ | rfl <;>
      cases b <;> simp_all [JSNum.le, JSNum.add]

theorem binary64_nonNeg (a : JSNum) (ha : JSNum.NonNeg a) : JSNum.NonNeg (Rounding.binary64 a) := by
  rcases (JSNum.nonNeg_iff a).1 ha with ⟨x, rfl, hx⟩ | rfl
  · show JSNum.NonNeg (roundToDouble x)
    rcases hx.lt_or_eq with hpos | hzero
    · rw [roundToDouble_of_pos x hpos]
      split
      · exact (JSNum.nonNeg_iff _).2 (Or.inr rfl)
      · exact (JSNum.nonNeg_iff _).2 (Or.inl ⟨_, rfl, roundedMagnitude_nonneg x⟩)
    · rw [← hzero]
      simp [roundToDouble, JSNum.NonNeg, JSNum.le]
  · exact ha

theorem le_pinf_of_nonNeg (a : JSNum) (ha : JSNum.NonNeg a) : a.le JSNum.pinf = true := by
  rcases (JSNum.nonNeg_iff a).1 ha with ⟨x, rfl, hx⟩ | rfl <;> rfl

/-- Rounding to binary64 keeps the order of Numbers that are not negative. -/
theorem binary64_mono (a b : JSNum) (ha : JSNum.NonNeg a) (h : a.le b = true) :
    (Rounding.binary64 a).le (Rounding.binary64 b) = true := by
  rcases (JSNum.nonNeg_iff a).1 ha with ⟨x, rfl, hx⟩ | rfl
  · cases b with
    | fin y =>
      have hxy : x ≤ y := by simpa [JSNum.le] using h
      show (roundToDouble x).le (roundToDouble y) = true
      rcases hx.lt_or_eq with hpos | hzero
      · have hy : 0 < y := lt_of_lt_of_le hpos hxy
        have hm := roundedMagnitude_mono x y hpos hxy
        rw [roundToDouble_of_pos x hpos, roundToDouble_of_pos y hy]
        by_cases h1 : pow2 1024 ≤ roundedMagnitude x
        · have h2 : pow2 1024 ≤ roundedMagnitude y := le_trans h1 hm
          simp [h1, h2, JSNum.le]
        · by_cases h2 : pow2 1024 ≤ roundedMagnitude y
          · simp [h1, h2, JSNum.le]
          · simp [h1, h2, JSNum.le, hm]
      · have h0 : roundToDouble x = JSNum.fin 0 := by
          rw [← hzero]
          simp [roundToDouble]
        rw [h0]
        exact binary64_nonNeg (JSNum.fin y) ((JSNum.nonNeg_iff _).2 (Or.inl ⟨y, rfl, le_trans hx hxy⟩))
    | pinf => exact le_pinf_of_nonNeg _ (binary64_nonNeg _ ha)
    | ninf => simp [JSNum.le] at h
    | nan => simp [JSNum.le] at h
  · cases b <;> simp_all [JSNum.le, Rounding.binary64]

/-- Rounding a Number that is not negative gives a Number that rounding leaves as it is. -/
theorem binary64_idem (a : JSNum) (ha : JSNum.NonNeg a) :
    Rounding.binary64 (Rounding.binary64 a) = Rounding.binary64 a := by
  rcases (JSNum.nonNeg_iff a).1 ha with ⟨x, rfl, hx⟩ | rfl
  · show Rounding.binary64 (roundToDouble x) = roundToDouble x
    rcases hx.lt_or_eq with hpos | hzero
    · rw [roundToDouble_of_pos x hpos]
      by_cases h1 : pow2 1024 ≤ roundedMagnitude x
      · simp [h1, Rounding.binary64]
      · simp only [h1, if_false]
        show roundToDouble (roundedMagnitude x) = JSNum.fin (roundedMagnitude x)
        rcases (roundedMagnitude_nonneg x).lt_or_eq with hm | hm
        · rw [roundToDouble_of_pos _ hm, roundedMagnitude_idem]
          simp [h1]
        · rw [← hm]
          simp [roundToDouble]
    · rw [← hzero]
      simp [roundToDouble, Rounding.binary64]
  · rfl

/-! ## The pipeline under a rounding -/

theorem processBusinessData_exact (parseDate : DateParser) (sorter : Sorter)
    (orders costs : List Record) :
    Rounded.processBusinessData Rounding.exact parseDate sorter orders costs =
      processBusinessData parseDate sorter orders costs := rfl

theorem addToMonth_rounded (rnd : Rounding) (parseDate : DateParser) (o : JSObj) (date : Value)
    (amount : JSNum) :
    Rounded.addToMonth rnd parseDate o date amount =
      .ok (match bucketOf parseDate date with
        | some month => Rounded.addEntry rnd o (month, amount)
        | none => o) := by
  unfold Rounded.addToMonth bucketOf
  by_cases ht : date.truthy = true
  · obtain ⟨r, hr⟩ := extractMonth_ok parseDate date
    simp only [ht, if_true, hr]
    cases r with
    | none => rfl
    | some month =>
      by_cases hm : month = ""
      · simp [hm]
      · simp [hm, Rounded.addEntry]
  · simp [ht]

theorem processOrder_rounded (rnd : Rounding) (parseDate : DateParser) (st : ProcessedData)
    (order : Record) :
    Rounded.processOrder rnd parseDate st order = .ok (Rounded.orderStep rnd parseDate st order) := by
  unfold Rounded.processOrder Rounded.orderStep Rounded.isCountedOrder entryOf
  by_cases h1 : isSaleType (order.get "Type") = true
  · by_cases h2 : (Rounded.orderValueOf rnd order).gt (JSNum.fin 0) = true
    · simp only [h1, h2, if_true, addToMonth_rounded, Bool.and_self]
      cases bucketOf parseDate (order.get "Date") <;> rfl
    · simp [h1, h2]
  · simp [h1]

theorem foldl_orderStep_rounded (rnd : Rounding) (parseDate : DateParser) (orders : List Record)
    (st : ProcessedData) :
    orders.foldl (Rounded.orderStep rnd parseDate) st =
      { st with
        totalRevenue :=
          ((orders.filter (Rounded.isCountedOrder rnd)).map (Rounded.orderValueOf rnd)).foldl
            (fun acc v => rnd (acc.add v)) st.totalRevenue
        revenueByMonth :=
          ((orders.filter (Rounded.isCountedOrder rnd)).filterMap
            (entryOf parseDate "Date" (Rounded.orderValueOf rnd))).foldl
              (Rounded.addEntry rnd) st.revenueByMonth } := by
  induction orders generalizing st with
  | nil => simp
  | cons order orders ih =>
    rw [List.foldl_cons, ih]
    by_cases h : Rounded.isCountedOrder rnd order = true
    · cases he : entryOf parseDate "Date" (Rounded.orderValueOf rnd) order <;>
        simp [Rounded.orderStep, h, he]
    · simp [Rounded.orderStep, h]

/-- The costs loop leaves the revenue figures as they are. -/
theorem processCost_rounded (rnd : Rounding) (parseDate : DateParser) (st : ProcessedData)
    (cost : Record) :
    ∃ st2, Rounded.processCost rnd parseDate st cost = .ok st2 ∧
      (st2.totalRevenue, st2.revenueByMonth) = (st.totalRevenue, st.revenueByMonth) := by
  unfold Rounded.processCost
  by_cases h2 : (Rounded.costAmountOf rnd cost).gt (JSNum.fin 0) = true
  · simp only [h2, if_true, addToMonth_rounded]
    exact ⟨_, rfl, rfl⟩
  · simp only [h2]
    exact ⟨_, rfl, rfl⟩

theorem forEachM_keeps {σ α β : Type} (body : σ → α → Except JSError σ) (f : σ → β)
    (h : ∀ st a, ∃ st2, body st a = .ok st2 ∧ f st2 = f st) (st : σ) (l : List α) :
    ∃ st2, forEachM body st l = .ok st2 ∧ f st2 = f st := by
  induction l generalizing st with
  | nil => exact ⟨st, rfl, rfl⟩
  | cons a l ih =>
    obtain ⟨st1, h1, h2⟩ := h st a
    obtain ⟨st2, h3, h4⟩ := ih st1
    refine ⟨st2, ?_, h4.trans h2⟩
    simp [forEachM, h1, h3]

/-- The revenue figures of `processBusinessData` under a rounding are those the orders loop
leaves. -/
theorem processBusinessData_rounded_fold (rnd : Rounding) (parseDate : DateParser)
    (sorter : Sorter) (orders costs : List Record)
    (h : ∀ c ∈ costs, statusIsText (c.get "Order Status") = true) :
    ∃ s, Rounded.processBusinessData rnd parseDate sorter orders costs = .ok s ∧
      s.totalRevenue =
        (orders.foldl (Rounded.orderStep rnd parseDate) ProcessedData.initial).totalRevenue ∧
      s.revenueByMonth =
        (orders.foldl (Rounded.orderStep rnd parseDate) ProcessedData.initial).revenueByMonth := by
  have horders : (if orders.length > 0 then
      forEachM (Rounded.processOrder rnd parseDate) ProcessedData.initial orders
      else .ok ProcessedData.initial) =
      .ok (orders.foldl (Rounded.orderStep rnd parseDate) ProcessedData.initial) := by
    rw [forEachM_ok _ _ (processOrder_rounded rnd parseDate)]
    cases orders <;> simp
  unfold Rounded.processBusinessData
  simp only [horders]
  by_cases hc : costs.length > 0
  · obtain ⟨st2, h2, h3⟩ := forEachM_keeps (Rounded.processCost rnd parseDate)
      (fun st => (st.totalRevenue, st.revenueByMonth)) (processCost_rounded rnd parseDate)
      (orders.foldl (Rounded.orderStep rnd parseDate) ProcessedData.initial)
      (sorter.sort (completedCosts costs))
    simp only [hc, if_true, filterCompleted_of_text costs h, h2]
    simp only [Prod.mk.injEq] at h3
    exact ⟨_, rfl, h3.1, h3.2⟩
  · simp only [hc, if_false]
    exact ⟨_, rfl, rfl, rfl⟩

/-- The revenue figures of `processBusinessData` under a rounding, when it returns. -/
theorem processBusinessData_rounded (rnd : Rounding) (parseDate : DateParser) (sorter : Sorter)
    (orders costs : List Record)
    (h : ∀ c ∈ costs, statusIsText (c.get "Order Status") = true) :
    ∃ s, Rounded.processBusinessData rnd parseDate sorter orders costs = .ok s ∧
      s.totalRevenue = roundedSum rnd
        ((orders.filter (Rounded.isCountedOrder rnd)).map (Rounded.orderValueOf rnd)) ∧
      s.revenueByMonth =
        ((orders.filter (Rounded.isCountedOrder rnd)).filterMap
          (entryOf parseDate "Date" (Rounded.orderValueOf rnd))).foldl (Rounded.addEntry rnd) [] := by
  obtain ⟨s, hs, h1, h2⟩ := processBusinessData_rounded_fold rnd parseDate sorter orders costs h
  rw [foldl_orderStep_rounded] at h1 h2
  exact ⟨s, hs, h1, h2⟩

theorem allPos_addEntry_rounded (rnd : Rounding) {o : JSObj} (ho : AllPos o)
    {e : String × JSNum} (he : rnd.Keeps e.2) : AllPos (Rounded.addEntry rnd o e) :=
  ho.set e.1 (he _ (ho.getOrZero_nonNeg e.1))

/-- The reading of a period after a run of contributions under a rounding. -/
theorem get_foldl_addEntry_rounded (rnd : Rounding) (es : List (String × JSNum))
    (hes : ∀ e ∈ es, rnd.Keeps e.2) (o : JSObj) (ho : AllPos o) (k : String) :
    (es.foldl (Rounded.addEntry rnd) o).get k =
      if es.filter (fun e => decide (e.1 = k)) = [] then o.get k
      else some (((es.filter fun e => decide (e.1 = k)).map Prod.snd).foldl
        (fun acc v => rnd (acc.add v)) (o.getOrZero k)) := by
  induction es generalizing o with
  | nil => simp
  | cons e es ih =>
    have he : rnd.Keeps e.2 := hes e (List.mem_cons_self _ _)
    have hes2 : ∀ e ∈ es, rnd.Keeps e.2 := fun e h => hes e (List.mem_cons_of_mem _ h)
    have hpos : JSNum.Pos (rnd ((o.getOrZero e.1).add e.2)) := he _ (ho.getOrZero_nonNeg e.1)
    rw [List.foldl_cons, ih hes2 _ (allPos_addEntry_rounded rnd ho he)]
    by_cases hk : e.1 = k
    · have hget : (Rounded.addEntry rnd o e).get k = some (rnd ((o.getOrZero k).add e.2)) := by
        unfold Rounded.addEntry
        rw [hk, get_set_self]
      have hgz : (Rounded.addEntry rnd o e).getOrZero k = rnd ((o.getOrZero k).add e.2) := by
        unfold JSObj.getOrZero
        rw [hget]
        rw [hk] at hpos
        exact hpos.orZero
      simp only [List.filter_cons, hk, decide_True, if_true, hget, hgz, List.map_cons,
        List.foldl_cons]
      split
      · next h => simp [h]
      · simp
    · have hget : (Rounded.addEntry rnd o e).get k = o.get k := by
        unfold Rounded.addEntry
        exact get_set_of_ne o _ hk
      have hgz : (Rounded.addEntry rnd o e).getOrZero k = o.getOrZero k := by
        unfold JSObj.getOrZero
        rw [hget]
      simp only [List.filter_cons, hk, decide_False, hget, hgz]
      simp

theorem nodup_foldl_addEntry_rounded (rnd : Rounding) (es : List (String × JSNum)) (o : JSObj)
    (ho : (objectKeys o).Nodup) : (objectKeys (es.foldl (Rounded.addEntry rnd) o)).Nodup := by
  induction es generalizing o with
  | nil => simpa using ho
  | cons e es ih =>
    rw [List.foldl_cons]
    exact ih _ (nodup_objectKeys_set o _ _ ho)

/-- The amount of a sale is zero or a Number read from a cell. -/
theorem orderValueOf_rounded (rnd : Rounding) (order : Record) :
    Rounded.orderValueOf rnd order = JSNum.fin 0 ∨
      ∃ w, Rounded.orderValueOf rnd order = rnd w := by
  unfold Rounded.orderValueOf Rounded.amountText
  simp only []
  split_ifs <;> first | exact Or.inl rfl | exact Or.inr ⟨_, rfl⟩

/-- A counted amount keeps a running sum in binary64 above zero. -/
theorem keeps_of_counted (order : Record)
    (h : Rounded.isCountedOrder Rounding.binary64 order = true) :
    Rounding.binary64.Keeps (Rounded.orderValueOf Rounding.binary64 order) := by
  unfold Rounded.isCountedOrder at h
  simp only [Bool.and_eq_true] at h
  have hpos : JSNum.Pos (Rounded.orderValueOf Rounding.binary64 order) := h.2
  apply binary64_keeps
  rcases orderValueOf_rounded Rounding.binary64 order with h0 | ⟨w, hw⟩
  · rw [h0] at hpos
    simp [JSNum.Pos, JSNum.gt] at hpos
  · rw [hw] at hpos ⊢
    exact binary64_atLeastTiny w hpos

theorem counted_keeps (orders : List Record) :
    ∀ r ∈ orders.filter (Rounded.isCountedOrder Rounding.binary64),
      Rounding.binary64.Keeps (Rounded.orderValueOf Rounding.binary64 r) :=
  fun r hr => keeps_of_counted r (List.mem_filter.1 hr).2

theorem entries_keep (rnd : Rounding) (parseDate : DateParser) (dateKey : String)
    (amount : Record → JSNum) (rows : List Record) (h : ∀ r ∈ rows, rnd.Keeps (amount r)) :
    ∀ e ∈ rows.filterMap (entryOf parseDate dateKey amount), rnd.Keeps e.2 := by
  intro e he
  obtain ⟨r, hr, hre⟩ := List.mem_filterMap.1 he
  unfold entryOf at hre
  cases hb : bucketOf parseDate (r.get dateKey) with
  | none => rw [hb] at hre; cases hre
  | some m =>
    rw [hb] at hre
    simp only [Option.map_some', Option.some.injEq] at hre
    rw [← hre]
    exact h r hr

/-- Reading a period of a monthly series built under a rounding. -/
theorem get_series_rounded (rnd : Rounding) (parseDate : DateParser) (dateKey : String)
    (amount : Record → JSNum) (rows : List Record) (h : ∀ r ∈ rows, rnd.Keeps (amount r))
    (k : String) :
    JSObj.get ((rows.filterMap (entryOf parseDate dateKey amount)).foldl
        (Rounded.addEntry rnd) []) k =
      if rowsOfMonth parseDate dateKey k rows = [] then none
      else some (roundedSum rnd ((rowsOfMonth parseDate dateKey k rows).map amount)) := by
  rw [get_foldl_addEntry_rounded rnd _ (entries_keep rnd parseDate dateKey amount rows h) []
    allPos_nil k]
  have hmap := entries_of_month parseDate dateKey amount k rows
  by_cases hnil : rowsOfMonth parseDate dateKey k rows = []
  · have : (rows.filterMap (entryOf parseDate dateKey amount)).filter
        (fun e => decide (e.1 = k)) = [] := by
      rw [hnil] at hmap
      simpa using hmap
    simp [hnil, this, JSObj.get]
  · have : (rows.filterMap (entryOf parseDate dateKey amount)).filter
        (fun e => decide (e.1 = k)) ≠ [] := by
      intro h0
      rw [h0] at hmap
      exact hnil (by simpa using hmap.symm)
    simp only [this, hnil, if_false, hmap, JSObj.getOrZero, JSObj.get, roundedSum]

/-- One iteration of the orders loop in binary64 keeps every monthly value within the
total. -/
theorem orderStep_within (parseDate : DateParser) (st : ProcessedData) (order : Record)
    (h : BucketsWithinTotal Rounding.binary64 st) :
    BucketsWithinTotal Rounding.binary64
      (Rounded.orderStep Rounding.binary64 parseDate st order) := by
  obtain ⟨hall, hnn, hfix, hle⟩ := h
  unfold Rounded.orderStep
  by_cases hc : Rounded.isCountedOrder Rounding.binary64 order = true
  · have hkeeps := keeps_of_counted order hc
    have hv : JSNum.Pos (Rounded.orderValueOf Rounding.binary64 order) := by
      unfold Rounded.isCountedOrder at hc
      simp only [Bool.and_eq_true] at hc
      exact hc.2
    have hsum : JSNum.NonNeg (st.totalRevenue.add (Rounded.orderValueOf Rounding.binary64 order)) :=
      JSNum.NonNeg.add hnn hv.nonNeg
    have htotal : JSNum.NonNeg (Rounding.binary64
        (st.totalRevenue.add (Rounded.orderValueOf Rounding.binary64 order))) :=
      binary64_nonNeg _ hsum
    have hgrow : st.totalRevenue.le (Rounding.binary64
        (st.totalRevenue.add (Rounded.orderValueOf Rounding.binary64 order))) = true := by
      have := binary64_mono _ _ hnn (JSNum.NonNeg.le_add hnn hv.nonNeg)
      rw [hfix] at this
      exact this
    simp only [hc, if_true]
    cases he : entryOf parseDate "Date" (Rounded.orderValueOf Rounding.binary64) order with
    | none =>
      exact ⟨hall, htotal, binary64_idem _ hsum, fun k => jsnum_le_trans _ _ _ (hle k) hgrow⟩
    | some e =>
      have he2 : e.2 = Rounded.orderValueOf Rounding.binary64 order := by
        unfold entryOf at he
        cases hb : bucketOf parseDate (order.get "Date") with
        | none => rw [hb] at he; cases he
        | some m =>
          rw [hb] at he
          simp only [Option.map_some', Option.some.injEq] at he
          rw [← he]
      have hke : Rounding.binary64.Keeps e.2 := by rw [he2]; exact hkeeps
      refine ⟨allPos_addEntry_rounded _ hall hke, htotal, binary64_idem _ hsum, ?_⟩
      intro k
      show (JSObj.getOrZero (Rounded.addEntry Rounding.binary64 st.revenueByMonth e) k).le _ = true
      by_cases hk : e.1 = k
      · have hpos : JSNum.Pos (Rounding.binary64 ((st.revenueByMonth.getOrZero k).add e.2)) :=
          hke _ (hall.getOrZero_nonNeg k)
        have hget : (Rounded.addEntry Rounding.binary64 st.revenueByMonth e).get k =
            some (Rounding.binary64 ((st.revenueByMonth.getOrZero k).add e.2)) := by
          unfold Rounded.addEntry
          rw [hk, get_set_self]
        have hgz : (Rounded.addEntry Rounding.binary64 st.revenueByMonth e).getOrZero k =
            Rounding.binary64 ((st.revenueByMonth.getOrZero k).add e.2) := by
          unfold JSObj.getOrZero
          rw [hget]
          exact hpos.orZero
        rw [hgz, he2]
        exact binary64_mono _ _ (JSNum.NonNeg.add (hall.getOrZero_nonNeg k) hv.nonNeg)
          (jsnum_le_add_right _ _ _ (hall.getOrZero_nonNeg k) hv.nonNeg (hle k))
      · have hget : (Rounded.addEntry Rounding.binary64 st.revenueByMonth e).get k =
            st.revenueByMonth.get k := by
          unfold Rounded.addEntry
          exact get_set_of_ne _ _ hk
        have hgz : (Rounded.addEntry Rounding.binary64 st.revenueByMonth e).getOrZero k =
            st.revenueByMonth.getOrZero k := by
          unfold JSObj.getOrZero
          rw [hget]
        rw [hgz]
        exact jsnum_le_trans _ _ _ (hle k) hgrow
  · simp only [hc]
    exact ⟨hall, hnn, hfix, hle⟩

theorem foldl_orderStep_within (parseDate : DateParser) (orders : List Record)
    (st : ProcessedData) (h : BucketsWithinTotal Rounding.binary64 st) :
    BucketsWithinTotal Rounding.binary64
      (orders.foldl (Rounded.orderStep Rounding.binary64 parseDate) st) := by
  induction orders generalizing st with
  | nil => exact h
  | cons order orders ih =>
    rw [List.foldl_cons]
    exact ih _ (orderStep_within parseDate st order h)

theorem initial_within : BucketsWithinTotal Rounding.binary64 ProcessedData.initial := by
  refine ⟨allPos_nil, JSNum.nonNeg_zero, ?_, ?_⟩
  · show roundToDouble 0 = JSNum.fin 0
    simp [roundToDouble]
  · intro k
    simp [ProcessedData.initial, JSObj.getOrZero, JSObj.get, JSNum.le]

/-- In binary64 every monthly value is at most `totalRevenue` when `processBusinessData`
returns. -/
theorem bucket_le_total (parseDate : DateParser) (sorter : Sorter) (orders costs : List Record)
    (h : ∀ c ∈ costs, statusIsText (c.get "Order Status") = true) :
    ∃ s, Rounded.processBusinessData Rounding.binary64 parseDate sorter orders costs = .ok s ∧
      ∀ k x, s.revenueByMonth.get k = some x → x.le s.totalRevenue = true := by
  obtain ⟨s, hs, h1, h2⟩ :=
    processBusinessData_rounded_fold Rounding.binary64 parseDate sorter orders costs h
  obtain ⟨hall, -, -, hle⟩ :=
    foldl_orderStep_within parseDate orders ProcessedData.initial initial_within
  rw [← h1, ← h2] at hle
  rw [← h2] at hall
  refine ⟨s, hs, ?_⟩
  intro k x hx
  have hpos : JSNum.Pos x := hall _ (get_mem _ k x hx)
  have := hle k
  unfold JSObj.getOrZero at this
  rw [hx] at this
  simpa [hpos.orZero] using this

/-! ## C4: the monthly series -/

/-- The monthly series in exact arithmetic. -/
theorem revenue_by_month_exact (parseDate : DateParser) (sorter : Sorter)
    (orders costs : List Record)
    (h : ∀ c ∈ costs, statusIsText (c.get "Order Status") = true) :
    ∃ s, processBusinessData parseDate sorter orders costs = .ok s ∧
      (∀ k, s.revenueByMonth.get k =
        if rowsOfMonth parseDate "Date" k (orders.filter isCountedOrder) = [] then none
        else some
          ((rowsOfMonth parseDate "Date" k (orders.filter isCountedOrder)).map orderValueOf).sum) ∧
      (∀ k ∈ objectKeys s.revenueByMonth, ∃ o ∈ orders, isCountedOrder o = true ∧
        bucketOf parseDate (o.get "Date") = some k) ∧
      (objectKeys s.revenueByMonth).Nodup ∧
      s.totalRevenue = sumValues s.revenueByMonth +
        (((orders.filter isCountedOrder).filter fun o =>
          decide (bucketOf parseDate (o.get "Date") = none)).map orderValueOf).sum ∧
      (sumValues s.revenueByMonth).le s.totalRevenue = true ∧
      ((∀ o ∈ orders, isCountedOrder o = true → bucketOf parseDate (o.get "Date") ≠ none) →
        sumValues s.revenueByMonth = s.totalRevenue) := by
  refine ⟨_, processBusinessData_of_text parseDate sorter orders costs h, ?_⟩
  have hpos := counted_orders_pos orders
  have hget : ∀ k, JSObj.get (((orders.filter isCountedOrder).filterMap
      (entryOf parseDate "Date" orderValueOf)).foldl addEntry []) k =
      if rowsOfMonth parseDate "Date" k (orders.filter isCountedOrder) = [] then none
      else some
        ((rowsOfMonth parseDate "Date" k (orders.filter isCountedOrder)).map orderValueOf).sum :=
    get_series parseDate "Date" orderValueOf _ hpos
  have hsum := sum_series parseDate "Date" orderValueOf _ hpos
  have htotal := entries_sum parseDate "Date" orderValueOf (orders.filter isCountedOrder)
  have hentries := entries_pos parseDate "Date" orderValueOf _ hpos
  have hrest : JSNum.NonNeg (((orders.filter isCountedOrder).filter fun o =>
      decide (bucketOf parseDate (o.get "Date") = none)).map orderValueOf).sum := by
    apply JSNum.nonNeg_sum
    intro x hx
    obtain ⟨r, hr, rfl⟩ := List.mem_map.1 hx
    exact (hpos r (List.mem_filter.1 hr).1).nonNeg
  have hbuckets : JSNum.NonNeg (((orders.filter isCountedOrder).filterMap
      (entryOf parseDate "Date" orderValueOf)).map Prod.snd).sum := by
    apply JSNum.nonNeg_sum
    intro x hx
    obtain ⟨e, he, rfl⟩ := List.mem_map.1 hx
    exact (hentries e he).nonNeg
  have hrbm : (deriveMetrics (aggregateOf parseDate orders
      (sorter.sort (completedCosts costs)))).revenueByMonth =
      ((orders.filter isCountedOrder).filterMap
        (entryOf parseDate "Date" orderValueOf)).foldl addEntry [] := rfl
  refine ⟨hget, ?_, ?_, ?_, ?_, ?_⟩
  · intro k hk
    have hne : JSObj.get (((orders.filter isCountedOrder).filterMap
        (entryOf parseDate "Date" orderValueOf)).foldl addEntry []) k ≠ none := by
      intro h0
      exact (get_eq_none_iff _ k).1 h0 hk
    rw [hget k] at hne
    have hrows : rowsOfMonth parseDate "Date" k (orders.filter isCountedOrder) ≠ [] := by
      intro h0
      exact hne (by simp [h0])
    obtain ⟨o, ho⟩ := List.exists_mem_of_ne_nil _ hrows
    unfold rowsOfMonth at ho
    obtain ⟨ho1, ho2⟩ := List.mem_filter.1 ho
    obtain ⟨ho3, ho4⟩ := List.mem_filter.1 ho1
    exact ⟨o, ho3, ho4, by simpa using ho2⟩
  · exact nodup_foldl_addEntry _ [] (by simp [objectKeys])
  · show ((orders.filter isCountedOrder).map orderValueOf).sum = _
    rw [← htotal, ← hsum]
    rfl
  · show JSNum.le _ ((orders.filter isCountedOrder).map orderValueOf).sum = true
    rw [← htotal, hrbm, hsum]
    exact JSNum.NonNeg.le_add hbuckets hrest
  · intro hall
    show sumValues _ = ((orders.filter isCountedOrder).map orderValueOf).sum
    rw [← htotal, hrbm, hsum]
    have hnone : ((orders.filter isCountedOrder).filter fun o =>
        decide (bucketOf parseDate (o.get "Date") = none)) = [] := by
      rw [List.filter_eq_nil_iff]
      intro o ho
      obtain ⟨ho1, ho2⟩ := List.mem_filter.1 ho
      simpa using hall o ho1 ho2
    rw [hnone]
    simp

/-- C4, the claim as written fails in the arithmetic of the code: sales of 0.30 in January and
of 0.20 and 0.10 in February, every one counted and every date bucketed, leave `totalRevenue`
at the Number 0.6 (0.3 + 0.2 is 0.5, and 0.5 + 0.1 rounds to 0.6), the January bucket at 0.3 and
the February bucket at 0.30000000000000004 (0.2 + 0.1 rounded); the sum of the two buckets,
taken exactly or as the Number 0.6000000000000001, is above `totalRevenue`. -/
theorem C4_bucket_sum_exceeds_total :
    ∃ s, Rounded.processBusinessData Rounding.binary64 isoLocalParser Sorter.keep
        threeSmallSales [] = .ok s ∧
      (∀ o ∈ threeSmallSales, Rounded.isCountedOrder Rounding.binary64 o = true ∧
        bucketOf isoLocalParser (o.get "Date") ≠ none) ∧
      s.totalRevenue = JSNum.fin (5404319552844595 / 2 ^ 53) ∧
      s.revenueByMonth = [("2025-01", JSNum.fin (5404319552844595 / 2 ^ 54)),
        ("2025-02", JSNum.fin (5404319552844596 / 2 ^ 54))] ∧
      (sumValues s.revenueByMonth).gt s.totalRevenue = true ∧
      roundedSum Rounding.binary64 (s.revenueByMonth.map Prod.snd) =
        JSNum.fin (5404319552844596 / 2 ^ 53) ∧
      (sumValues s.revenueByMonth).le s.totalRevenue = false :=
  ⟨{ totalRevenue := JSNum.fin (5404319552844595 / 2 ^ 53)
     totalCosts := JSNum.fin 0
     netProfit := JSNum.fin (5404319552844595 / 2 ^ 53)
     profitMargin := JSNum.fin 100
     revenueByMonth := [("2025-01", JSNum.fin (5404319552844595 / 2 ^ 54)),
        ("2025-02", JSNum.fin (5404319552844596 / 2 ^ 54))]
     costsByMonth := []
     categorizedExpenses := [] },
    by decide!, by decide!, rfl, rfl, by decide!, by decide!, by decide!⟩

/-- C4, amended.  When `processBusinessData` returns, in the binary64 arithmetic of the code:
`revenueByMonth[k]` is the sum, taken in record order with every addition rounded, of the
counted amounts of the counted sale records whose `Date` buckets (through `extractMonth`) to
`k`; `k` is a key only if some counted record buckets to it; `totalRevenue` is the sum, taken
the same way, of the counted amounts of all counted records, so that a counted record whose
date is missing or unparseable adds to `totalRevenue` and to no bucket; when every counted
record buckets to one and the same `k`, `revenueByMonth[k]` is `totalRevenue`; and every value
of `revenueByMonth` is at most `totalRevenue`.  In exact
arithmetic (the same code without the rounding): the buckets are the exact sums,
`totalRevenue` is the sum of the buckets plus the amounts of the counted records that do not
bucket, the sum of the values of `revenueByMonth` is at most `totalRevenue`, and the two are
equal when every counted record's date buckets. -/
theorem C4_revenue_by_month (parseDate : DateParser) (sorter : Sorter)
    (orders costs : List Record)
    (h : ∀ c ∈ costs, statusIsText (c.get "Order Status") = true) :
    (∃ s, Rounded.processBusinessData Rounding.binary64 parseDate sorter orders costs = .ok s ∧
      (∀ k, s.revenueByMonth.get k =
        if rowsOfMonth parseDate "Date" k
            (orders.filter (Rounded.isCountedOrder Rounding.binary64)) = [] then none
        else some (roundedSum Rounding.binary64
          ((rowsOfMonth parseDate "Date" k
            (orders.filter (Rounded.isCountedOrder Rounding.binary64))).map
              (Rounded.orderValueOf Rounding.binary64)))) ∧
      (∀ k ∈ objectKeys s.revenueByMonth, ∃ o ∈ orders,
        Rounded.isCountedOrder Rounding.binary64 o = true ∧
        bucketOf parseDate (o.get "Date") = some k) ∧
      (objectKeys s.revenueByMonth).Nodup ∧
      s.totalRevenue = roundedSum Rounding.binary64
        ((orders.filter (Rounded.isCountedOrder Rounding.binary64)).map
          (Rounded.orderValueOf Rounding.binary64)) ∧
      (∀ k, (∃ o ∈ orders, Rounded.isCountedOrder Rounding.binary64 o = true) →
        (∀ o ∈ orders, Rounded.isCountedOrder Rounding.binary64 o = true →
          bucketOf parseDate (o.get "Date") = some k) →
        s.revenueByMonth.get k = some s.totalRevenue) ∧
      (∀ k x, s.revenueByMonth.get k = some x → x.le s.totalRevenue = true)) ∧
    (∃ s, processBusinessData parseDate sorter orders costs = .ok s ∧
      (∀ k, s.revenueByMonth.get k =
        if rowsOfMonth parseDate "Date" k (orders.filter isCountedOrder) = [] then none
        else some
          ((rowsOfMonth parseDate "Date" k (orders.filter isCountedOrder)).map orderValueOf).sum) ∧
      (∀ k ∈ objectKeys s.revenueByMonth, ∃ o ∈ orders, isCountedOrder o = true ∧
        bucketOf parseDate (o.get "Date") = some k) ∧
      (objectKeys s.revenueByMonth).Nodup ∧
      s.totalRevenue = sumValues s.revenueByMonth +
        (((orders.filter isCountedOrder).filter fun o =>
          decide (bucketOf parseDate (o.get "Date") = none)).map orderValueOf).sum ∧
      (sumValues s.revenueByMonth).le s.totalRevenue = true ∧
      ((∀ o ∈ orders, isCountedOrder o = true → bucketOf parseDate (o.get "Date") ≠ none) →
        sumValues s.revenueByMonth = s.totalRevenue)) := by
  refine ⟨?_, revenue_by_month_exact parseDate sorter orders costs h⟩
  obtain ⟨s, hs, htotal, hrbm⟩ :=
    processBusinessData_rounded Rounding.binary64 parseDate sorter orders costs h
  have hget := get_series_rounded Rounding.binary64 parseDate "Date"
    (Rounded.orderValueOf Rounding.binary64) _ (counted_keeps orders)
  rw [← hrbm] at hget
  have hwithin : ∀ k x, s.revenueByMonth.get k = some x → x.le s.totalRevenue = true := by
    obtain ⟨s2, hs2, hle⟩ := bucket_le_total parseDate sorter orders costs h
    rw [hs] at hs2
    injection hs2 with hs3
    rw [hs3]
    exact hle
  refine ⟨s, hs, hget, ?_, ?_, htotal, ?_, hwithin⟩
  · intro k hk
    have hne : s.revenueByMonth.get k ≠ none := by
      intro h0
      exact (get_eq_none_iff _ k).1 h0 hk
    rw [hget k] at hne
    have hrows : rowsOfMonth parseDate "Date" k
        (orders.filter (Rounded.isCountedOrder Rounding.binary64)) ≠ [] := by
      intro h0
      exact hne (by simp [h0])
    obtain ⟨o, ho⟩ := List.exists_mem_of_ne_nil _ hrows
    unfold rowsOfMonth at ho
    obtain ⟨ho1, ho2⟩ := List.mem_filter.1 ho
    obtain ⟨ho3, ho4⟩ := List.mem_filter.1 ho1
    exact ⟨o, ho3, ho4, by simpa using ho2⟩
  · rw [hrbm]
    exact nodup_foldl_addEntry_rounded _ _ [] (by simp [objectKeys])
  · intro k hsome hall
    have hrows : rowsOfMonth parseDate "Date" k
        (orders.filter (Rounded.isCountedOrder Rounding.binary64)) =
        orders.filter (Rounded.isCountedOrder Rounding.binary64) := by
      unfold rowsOfMonth
      rw [List.filter_eq_self]
      intro o ho
      obtain ⟨ho1, ho2⟩ := List.mem_filter.1 ho
      simpa using hall o ho1 ho2
    have hne : orders.filter (Rounded.isCountedOrder Rounding.binary64) ≠ [] := by
      obtain ⟨o, ho1, ho2⟩ := hsome
      exact List.ne_nil_of_mem (List.mem_filter.2 ⟨ho1, ho2⟩)
    rw [hget k, hrows, htotal]
    simp [hne]

/-- C4, amended, on the scenario of the specification followed by a sale without a date, on
the scenario itself, whose only counted sale is of January 2025, and on three sales that all
bucket, where the two sums are equal in exact arithmetic. -/
theorem C4_revenue_by_month_witness :
    (∀ c ∈ scenarioCosts, statusIsText (c.get "Order Status") = true) ∧
    ((∃ s, Rounded.processBusinessData Rounding.binary64 isoLocalParser Sorter.keep
        ordersWithUndatedSale scenarioCosts = .ok s ∧
      (∀ k, s.revenueByMonth.get k =
        if rowsOfMonth isoLocalParser "Date" k
            (ordersWithUndatedSale.filter (Rounded.isCountedOrder Rounding.binary64)) = []
        then none
        else some (roundedSum Rounding.binary64
          ((rowsOfMonth isoLocalParser "Date" k
            (ordersWithUndatedSale.filter (Rounded.isCountedOrder Rounding.binary64))).map
              (Rounded.orderValueOf Rounding.binary64)))) ∧
      (∀ k ∈ objectKeys s.revenueByMonth, ∃ o ∈ ordersWithUndatedSale,
        Rounded.isCountedOrder Rounding.binary64 o = true ∧
        bucketOf isoLocalParser (o.get "Date") = some k) ∧
      (objectKeys s.revenueByMonth).Nodup ∧
      s.totalRevenue = roundedSum Rounding.binary64
        ((ordersWithUndatedSale.filter (Rounded.isCountedOrder Rounding.binary64)).map
          (Rounded.orderValueOf Rounding.binary64)) ∧
      (∀ k, (∃ o ∈ ordersWithUndatedSale, Rounded.isCountedOrder Rounding.binary64 o = true) →
        (∀ o ∈ ordersWithUndatedSale, Rounded.isCountedOrder Rounding.binary64 o = true →
          bucketOf isoLocalParser (o.get "Date") = some k) →
        s.revenueByMonth.get k = some s.totalRevenue) ∧
      (∀ k x, s.revenueByMonth.get k = some x → x.le s.totalRevenue = true)) ∧
    (∃ s, processBusinessData isoLocalParser Sorter.keep ordersWithUndatedSale scenarioCosts
        = .ok s ∧
      (∀ k, s.revenueByMonth.get k =
        if rowsOfMonth isoLocalParser "Date" k (ordersWithUndatedSale.filter isCountedOrder) = []
        then none
        else some ((rowsOfMonth isoLocalParser "Date" k
          (ordersWithUndatedSale.filter isCountedOrder)).map orderValueOf).sum) ∧
      (∀ k ∈ objectKeys s.revenueByMonth, ∃ o ∈ ordersWithUndatedSale, isCountedOrder o = true ∧
        bucketOf isoLocalParser (o.get "Date") = some k) ∧
      (objectKeys s.revenueByMonth).Nodup ∧
      s.totalRevenue = sumValues s.revenueByMonth +
        (((ordersWithUndatedSale.filter isCountedOrder).filter fun o =>
          decide (bucketOf isoLocalParser (o.get "Date") = none)).map orderValueOf).sum ∧
      (sumValues s.revenueByMonth).le s.totalRevenue = true ∧
      ((∀ o ∈ ordersWithUndatedSale, isCountedOrder o = true →
          bucketOf isoLocalParser (o.get "Date") ≠ none) →
        sumValues s.revenueByMonth = s.totalRevenue))) ∧
    (∃ s, Rounded.processBusinessData Rounding.binary64 isoLocalParser Sorter.keep
        scenarioOrders scenarioCosts = .ok s ∧
      s.revenueByMonth.get "2025-01" = some s.totalRevenue) ∧
    (∃ s, processBusinessData isoLocalParser Sorter.keep threeSmallSales scenarioCosts = .ok s ∧
      sumValues s.revenueByMonth = s.totalRevenue) :=
  ⟨by decide,
    C4_revenue_by_month isoLocalParser Sorter.keep ordersWithUndatedSale scenarioCosts
      (by decide),
    (C4_revenue_by_month isoLocalParser Sorter.keep scenarioOrders scenarioCosts
      (by decide)).1.elim fun s hs =>
        ⟨s, hs.1, hs.2.2.2.2.2.1 "2025-01" (by decide!) (by decide!)⟩,
    (C4_revenue_by_month isoLocalParser Sorter.keep threeSmallSales scenarioCosts
      (by decide)).2.elim fun s hs => ⟨s, hs.1, hs.2.2.2.2.2.2 (by decide!)⟩⟩

/-! ## C5: the derived metrics -/

theorem totalRevenue_nonNeg (parseDate : DateParser) (orders completed : List Record) :
    JSNum.NonNeg (deriveMetrics (aggregateOf parseDate orders completed)).totalRevenue := by
  show JSNum.NonNeg ((orders.filter isCountedOrder).map orderValueOf).sum
  apply JSNum.nonNeg_sum
  intro x hx
  obtain ⟨r, hr, rfl⟩ := List.mem_map.1 hx
  exact (counted_orders_pos orders r hr).nonNeg

theorem totalCosts_nonNeg (parseDate : DateParser) (orders completed : List Record) :
    JSNum.NonNeg (deriveMetrics (aggregateOf parseDate orders completed)).totalCosts := by
  show JSNum.NonNeg ((completed.filter isCountedCost).map costAmountOf).sum
  apply JSNum.nonNeg_sum
  intro x hx
  obtain ⟨r, hr, rfl⟩ := List.mem_map.1 hx
  exact (counted_costs_pos completed r hr).nonNeg

/-- C5: when `processBusinessData` returns, `netProfit` is `totalRevenue - totalCosts`, and
`profitMargin` is `netProfit / totalRevenue * 100` when `totalRevenue` is above zero and 0
when `totalRevenue` is 0, whatever `totalCosts` is; `totalRevenue` is one or the other, so
nothing is divided by zero. -/
theorem C5_derived_metrics (parseDate : DateParser) (sorter : Sorter)
    (orders costs : List Record)
    (h : ∀ c ∈ costs, statusIsText (c.get "Order Status") = true) :
    ∃ s, processBusinessData parseDate sorter orders costs = .ok s ∧
      s.netProfit = s.totalRevenue.sub s.totalCosts ∧
      (s.totalRevenue.gt (JSNum.fin 0) = true →
        s.profitMargin = (s.netProfit.div s.totalRevenue).mul (JSNum.fin 100)) ∧
      (s.totalRevenue = JSNum.fin 0 → s.profitMargin = JSNum.fin 0) ∧
      (s.totalRevenue.gt (JSNum.fin 0) = true ∨ s.totalRevenue = JSNum.fin 0) ∧
      (∀ r c : ℚ, s.totalRevenue = JSNum.fin r → s.totalCosts = JSNum.fin c → 0 < r →
        s.netProfit = JSNum.fin (r - c) ∧ s.profitMargin = JSNum.fin ((r - c) / r * 100)) := by
  refine ⟨_, processBusinessData_of_text parseDate sorter orders costs h, rfl, ?_, ?_, ?_, ?_⟩
  · intro hpos
    have hpos2 : (aggregateOf parseDate orders
        (sorter.sort (completedCosts costs))).totalRevenue.gt (JSNum.fin 0) = true := hpos
    show (if (aggregateOf parseDate orders _).totalRevenue.gt (JSNum.fin 0) = true then _
      else _) = _
    rw [if_pos hpos2]
    rfl
  · intro hzero
    have hgt : (aggregateOf parseDate orders
        (sorter.sort (completedCosts costs))).totalRevenue.gt (JSNum.fin 0) = false := by
      have : (aggregateOf parseDate orders (sorter.sort (completedCosts costs))).totalRevenue =
          JSNum.fin 0 := hzero
      rw [this]
      simp [JSNum.gt]
    show (if (aggregateOf parseDate orders _).totalRevenue.gt (JSNum.fin 0) = true then _
      else _) = _
    rw [hgt]
    rfl
  · exact (totalRevenue_nonNeg parseDate orders _).pos_or_zero
  · intro r c hr hc hpos
    have hr2 : (aggregateOf parseDate orders (sorter.sort (completedCosts costs))).totalRevenue =
        JSNum.fin r := hr
    have hc2 : (aggregateOf parseDate orders (sorter.sort (completedCosts costs))).totalCosts =
        JSNum.fin c := hc
    have hnet : (deriveMetrics (aggregateOf parseDate orders
        (sorter.sort (completedCosts costs)))).netProfit = JSNum.fin (r - c) := by
      show JSNum.sub _ _ = _
      rw [hr2, hc2]
      simp [JSNum.sub, JSNum.neg, JSNum.add, sub_eq_add_neg]
    refine ⟨hnet, ?_⟩
    show (if (aggregateOf parseDate orders _).totalRevenue.gt (JSNum.fin 0) = true then
      (JSNum.div (JSNum.sub _ _) _).mul (JSNum.fin 100) else _) = _
    rw [hr2, hc2]
    have hgt : (JSNum.fin r).gt (JSNum.fin 0) = true := by simpa [JSNum.gt] using hpos
    rw [if_pos hgt]
    simp [JSNum.sub, JSNum.neg, JSNum.add, JSNum.div, JSNum.mul, hpos.ne', sub_eq_add_neg]

/-- C5 on costs without any revenue: the margin is 0. -/
theorem C5_derived_metrics_witness :
    (∀ c ∈ scenarioCosts, statusIsText (c.get "Order Status") = true) ∧
    ∃ s, processBusinessData isoLocalParser Sorter.keep [] scenarioCosts = .ok s ∧
      s.netProfit = s.totalRevenue.sub s.totalCosts ∧
      (s.totalRevenue.gt (JSNum.fin 0) = true →
        s.profitMargin = (s.netProfit.div s.totalRevenue).mul (JSNum.fin 100)) ∧
      (s.totalRevenue = JSNum.fin 0 → s.profitMargin = JSNum.fin 0) ∧
      (s.totalRevenue.gt (JSNum.fin 0) = true ∨ s.totalRevenue = JSNum.fin 0) ∧
      (∀ r c : ℚ, s.totalRevenue = JSNum.fin r → s.totalCosts = JSNum.fin c → 0 < r →
        s.netProfit = JSNum.fin (r - c) ∧ s.profitMargin = JSNum.fin ((r - c) / r * 100)) :=
  ⟨by decide, C5_derived_metrics isoLocalParser Sorter.keep [] scenarioCosts (by decide)⟩

/-! ## C6: order independence -/

theorem get_foldl_addEntry_perm (es es2 : List (String × JSNum)) (hp : es.Perm es2)
    (hes : ∀ e ∈ es, JSNum.Pos e.2) (k : String) :
    JSObj.get (es.foldl addEntry []) k = JSObj.get (es2.foldl addEntry []) k := by
  have hes2 : ∀ e ∈ es2, JSNum.Pos e.2 := fun e he => hes e (hp.mem_iff.2 he)
  rw [get_foldl_addEntry es hes [] allPos_nil k, get_foldl_addEntry es2 hes2 [] allPos_nil k]
  have hf : (es.filter fun e => decide (e.1 = k)).Perm (es2.filter fun e => decide (e.1 = k)) :=
    hp.filter _
  have hsum := (hf.map Prod.snd).sum_eq
  by_cases hnil : (es.filter fun e => decide (e.1 = k)) = []
  · have hnil2 : (es2.filter fun e => decide (e.1 = k)) = [] := by
      rw [hnil] at hf
      exact hf.nil_eq.symm
    rw [if_pos hnil, if_pos hnil2]
  · have hnil2 : (es2.filter fun e => decide (e.1 = k)) ≠ [] := by
      intro h0
      rw [h0] at hf
      exact hnil hf.eq_nil
    rw [if_neg hnil, if_neg hnil2, hsum]

theorem deriveMetrics_congr (a b : ProcessedData) (hR : a.totalRevenue = b.totalRevenue)
    (hC : a.totalCosts = b.totalCosts) :
    (deriveMetrics a).netProfit = (deriveMetrics b).netProfit ∧
      (deriveMetrics a).profitMargin = (deriveMetrics b).profitMargin := by
  simp only [deriveMetrics, hR, hC, and_self]

theorem aggregateOf_perm (parseDate : DateParser) (orders orders2 completed completed2 : List Record)
    (ho : orders.Perm orders2) (hc : completed.Perm completed2) :
    SameSummary (deriveMetrics (aggregateOf parseDate orders completed))
      (deriveMetrics (aggregateOf parseDate orders2 completed2)) := by
  have hR : (aggregateOf parseDate orders completed).totalRevenue =
      (aggregateOf parseDate orders2 completed2).totalRevenue :=
    ((ho.filter isCountedOrder).map orderValueOf).sum_eq
  have hC : (aggregateOf parseDate orders completed).totalCosts =
      (aggregateOf parseDate orders2 completed2).totalCosts :=
    ((hc.filter isCountedCost).map costAmountOf).sum_eq
  refine ⟨hR, hC, ?_, ?_, ?_, ?_, ?_⟩
  · exact (deriveMetrics_congr _ _ hR hC).1
  · exact (deriveMetrics_congr _ _ hR hC).2
  · intro k
    exact get_foldl_addEntry_perm _ _
      ((ho.filter isCountedOrder).filterMap (entryOf parseDate "Date" orderValueOf))
      (entries_pos parseDate "Date" orderValueOf _ (counted_orders_pos orders)) k
  · intro k
    exact get_foldl_addEntry_perm _ _
      ((hc.filter isCountedCost).filterMap (entryOf parseDate "Order Date" costAmountOf))
      (entries_pos parseDate "Order Date" costAmountOf _ (counted_costs_pos completed)) k
  · intro k
    refine get_foldl_addEntry_perm _ _
      ((hc.filter isCountedCost).map fun c => ("Materials", costAmountOf c)) ?_ k
    intro e he
    obtain ⟨c, hc2, rfl⟩ := List.mem_map.1 he
    exact counted_costs_pos completed c hc2

/-- C6: for every permutation of the order records and of the cost records, and whatever order
the internal date sort of the completed cost records produces, `processBusinessData` ends the
same way: with the same exception, or with the same `totalRevenue`, `totalCosts`, `netProfit`
and `profitMargin` and the same `revenueByMonth`, `costsByMonth` and `categorizedExpenses` as
mappings (over exact arithmetic). -/
theorem C6_order_independence (parseDate : DateParser) (sorter sorter2 : Sorter)
    (orders orders2 costs costs2 : List Record)
    (ho : orders.Perm orders2) (hc : costs.Perm costs2) :
    SameOutcome (processBusinessData parseDate sorter orders costs)
      (processBusinessData parseDate sorter2 orders2 costs2) := by
  by_cases htext : ∀ c ∈ costs, statusIsText (c.get "Order Status") = true
  · have htext2 : ∀ c ∈ costs2, statusIsText (c.get "Order Status") = true :=
      fun c h => htext c (hc.mem_iff.2 h)
    rw [processBusinessData_of_text parseDate sorter orders costs htext,
      processBusinessData_of_text parseDate sorter2 orders2 costs2 htext2]
    have hcompleted : (sorter.sort (completedCosts costs)).Perm
        (sorter2.sort (completedCosts costs2)) :=
      ((sorter.perm _).trans (hc.filter _)).trans (sorter2.perm _).symm
    exact aggregateOf_perm parseDate orders orders2 _ _ ho hcompleted
  · have hbad : ∃ c ∈ costs, statusIsText (c.get "Order Status") = false := by
      by_contra hno
      apply htext
      intro c hcm
      by_contra hc2
      exact hno ⟨c, hcm, by simpa using hc2⟩
    have hbad2 : ∃ c ∈ costs2, statusIsText (c.get "Order Status") = false := by
      obtain ⟨c, hcm, hc2⟩ := hbad
      exact ⟨c, hc.mem_iff.1 hcm, hc2⟩
    rw [processBusinessData_error parseDate sorter orders costs hbad,
      processBusinessData_error parseDate sorter2 orders2 costs2 hbad2]
    rfl

/-- C6 on reversed inputs and two different internal sorts. -/
theorem C6_order_independence_witness :
    ordersWithUndatedSale.Perm ordersWithUndatedSale.reverse ∧
    mixedCosts.Perm mixedCosts.reverse ∧
    SameOutcome (processBusinessData isoLocalParser Sorter.keep ordersWithUndatedSale mixedCosts)
      (processBusinessData isoLocalParser Sorter.reverse ordersWithUndatedSale.reverse
        mixedCosts.reverse) :=
  ⟨(List.reverse_perm _).symm, (List.reverse_perm _).symm,
    C6_order_independence isoLocalParser Sorter.keep Sorter.reverse ordersWithUndatedSale
      ordersWithUndatedSale.reverse mixedCosts mixedCosts.reverse (List.reverse_perm _).symm
      (List.reverse_perm _).symm⟩

/-! ## Strings and `extractMonth` -/

theorem jsLength_cons (c : Char) (s : List Char) :
    jsLength (c :: s) = (if c.val < 0x10000 then 1 else 2) + jsLength s := by
  simp [jsLength]

theorem jsLength_append (a b : List Char) : jsLength (a ++ b) = jsLength a + jsLength b := by
  simp [jsLength]

theorem isDigit_iff (c : Char) : c.isDigit = true ↔ 48 ≤ c.val ∧ c.val ≤ 57 := by
  simp [Char.isDigit]

theorem jsLength_digits (s : List Char) (h : s.all Char.isDigit = true) :
    jsLength s = s.length := by
  induction s with
  | nil => rfl
  | cons c s ih =>
    simp only [List.all_cons, Bool.and_eq_true] at h
    have hc := (isDigit_iff c).1 h.1
    have hlt : c.val < 0x10000 := by
      have h57 : c.val.toNat ≤ 57 := hc.2
      show c.val.toNat < 65536
      omega
    rw [jsLength_cons, if_pos hlt, ih h.2, List.length_cons]
    omega

theorem jsLength_le_length (s : List Char) : s.length ≤ jsLength s := by
  induction s with
  | nil => simp [jsLength]
  | cons c s ih =>
    rw [jsLength_cons, List.length_cons]
    split <;> omega

theorem not_dash_of_isDigit (c : Char) (h : c.isDigit = true) : c ≠ '-' := by
  intro hc
  subst hc
  exact absurd h (by decide)

theorem splitDash_ne_nil (s : List Char) : splitDash s ≠ [] := by
  cases s with
  | nil => simp [splitDash]
  | cons c s =>
    unfold splitDash
    split
    · simp
    · split <;> simp

theorem splitDash_of_no_dash (a : List Char) (h : ∀ c ∈ a, c ≠ '-') : splitDash a = [a] := by
  induction a with
  | nil => rfl
  | cons c a ih =>
    have hc : c ≠ '-' := h c (List.mem_cons_self _ _)
    have ih2 := ih fun d hd => h d (List.mem_cons_of_mem _ hd)
    simp [splitDash, hc, ih2]

theorem splitDash_append (a rest : List Char) (h : ∀ c ∈ a, c ≠ '-') :
    splitDash (a ++ '-' :: rest) = a :: splitDash rest := by
  induction a with
  | nil => simp [splitDash]
  | cons c a ih =>
    have hc : c ≠ '-' := h c (List.mem_cons_self _ _)
    have ih2 := ih fun d hd => h d (List.mem_cons_of_mem _ hd)
    simp [splitDash, hc, ih2]

/-- The text is put back together from its parts. -/
theorem splitDash_join (s : List Char) :
    s = List.intercalate ['-'] (splitDash s) := by
  induction s with
  | nil => rfl
  | cons c s ih =>
    unfold splitDash
    by_cases hc : c = '-'
    · subst hc
      have hne := splitDash_ne_nil s
      cases hs : splitDash s with
      | nil => exact absurd hs hne
      | cons p ps =>
        rw [hs] at ih
        simp only [if_true]
        rw [ih]
        simp [List.intercalate, List.intersperse]
    · simp only [hc, if_false]
      cases hs : splitDash s with
      | nil => exact absurd hs (splitDash_ne_nil s)
      | cons p ps =>
        rw [hs] at ih
        rw [ih]
        cases ps <;> simp [List.intercalate, List.intersperse]

theorem splitDash_parts_no_dash (s : List Char) : ∀ p ∈ splitDash s, ∀ c ∈ p, c ≠ '-' := by
  induction s with
  | nil => simp [splitDash]
  | cons c s ih =>
    unfold splitDash
    by_cases hc : c = '-'
    · simp only [hc, if_true]
      intro p hp
      rcases List.mem_cons.1 hp with rfl | hp
      · simp
      · exact ih p hp
    · simp only [hc, if_false]
      cases hs : splitDash s with
      | nil => exact absurd hs (splitDash_ne_nil s)
      | cons p ps =>
        rw [hs] at ih
        intro q hq
        rcases List.mem_cons.1 hq with rfl | hq
        · intro d hd
          rcases List.mem_cons.1 hd with rfl | hd
          · exact hc
          · exact ih p (List.mem_cons_self _ _) d hd
        · exact ih q (List.mem_cons_of_mem _ hq)

theorem splitDash_three (s p0 p1 p2 : List Char) (h : splitDash s = [p0, p1, p2]) :
    s = p0 ++ '-' :: (p1 ++ '-' :: p2) := by
  have := splitDash_join s
  rw [h] at this
  simpa [List.intercalate, List.intersperse] using this

theorem contains_dash_append (a rest : List Char) : (a ++ '-' :: rest).contains '-' = true := by
  simp

/-- The compact branch of `extractMonth` on a text with exactly two dashes. -/
theorem extractMonth_compact (parseDate : DateParser) (p0 p1 p2 : List Char)
    (h0 : ∀ c ∈ p0, c ≠ '-') (h1 : ∀ c ∈ p1, c ≠ '-') (h2 : ∀ c ∈ p2, c ≠ '-')
    (hlen : jsLength (p0 ++ '-' :: (p1 ++ '-' :: p2)) ≤ 10) :
    extractMonth parseDate (Value.str (String.mk (p0 ++ '-' :: (p1 ++ '-' :: p2)))) =
      .ok (match monthNames (String.mk p1) with
        | some month => some ("20" ++ String.mk p2 ++ "-" ++ month)
        | none => none) := by
  have hsplit : splitDash (p0 ++ '-' :: (p1 ++ '-' :: p2)) = [p0, p1, p2] := by
    rw [splitDash_append p0 _ h0, splitDash_append p1 _ h1, splitDash_of_no_dash p2 h2]
  unfold extractMonth extractMonthBody tryCatch
  simp only [String.toList, contains_dash_append, hlen, decide_True, Bool.and_self, if_true,
    hsplit]
  cases monthNames (String.mk p1) <;> rfl

theorem lookup_mem (table : List (String × String)) (key v : String)
    (h : table.lookup key = some v) : (key, v) ∈ table := by
  induction table with
  | nil => simp [List.lookup] at h
  | cons e table ih =>
    obtain ⟨k, x⟩ := e
    by_cases hk : key = k
    · subst hk
      simp [List.lookup] at h
      simp [h]
    · have hbeq : (key == k) = false := by simpa using hk
      simp only [List.lookup, hbeq] at h
      exact List.mem_cons_of_mem _ (ih h)

theorem mem_lookup (key v : String) (h : (key, v) ∈ monthTable) :
    monthTable.lookup key = some v := by
  simp only [monthTable, List.mem_cons, Prod.mk.injEq, List.mem_singleton, List.not_mem_nil,
    or_false] at h
  rcases h with h | h | h | h | h | h | h | h | h | h | h | h <;>
    (obtain ⟨rfl, rfl⟩ := h; decide)

theorem monthNames_of_table (key v : String) (h : (key, v) ∈ monthTable) :
    monthNames key = some v := by
  unfold monthNames
  rw [mem_lookup key v h]

theorem objectPrototypeMember_length (key v : String)
    (h : objectPrototypeMember key = some v) : 7 ≤ key.length := by
  unfold objectPrototypeMember at h
  by_cases h1 : key = "constructor"
  · subst h1; decide
  · by_cases h2 : key = "__proto__"
    · subst h2; decide
    · by_cases h3 : key ∈ ["hasOwnProperty", "isPrototypeOf", "propertyIsEnumerable",
          "toLocaleString", "toString", "valueOf", "__defineGetter__", "__defineSetter__",
          "__lookupGetter__", "__lookupSetter__"]
      · simp only [List.mem_cons, List.mem_singleton, List.not_mem_nil, or_false] at h3
        rcases h3 with h3 | h3 | h3 | h3 | h3 | h3 | h3 | h3 | h3 | h3 <;> (subst h3; decide)
      · simp [h1, h2, h3] at h

/-- A value read from `monthNames` is an entry of the table or a member inherited from
`Object.prototype`, whose name has seven characters or more. -/
theorem monthNames_cases (key v : String) (h : monthNames key = some v) :
    (key, v) ∈ monthTable ∨ 7 ≤ key.length := by
  unfold monthNames at h
  cases hl : monthTable.lookup key with
  | some mm =>
    rw [hl] at h
    simp only [Option.some.injEq] at h
    subst h
    exact Or.inl (lookup_mem _ _ _ hl)
  | none =>
    rw [hl] at h
    exact Or.inr (objectPrototypeMember_length key v h)

theorem table_key_length (key v : String) (h : (key, v) ∈ monthTable) : key.length = 3 := by
  simp only [monthTable, List.mem_cons, Prod.mk.injEq, List.mem_singleton, List.not_mem_nil,
    or_false] at h
  rcases h with h | h | h | h | h | h | h | h | h | h | h | h <;>
    (obtain ⟨rfl, rfl⟩ := h; rfl)

theorem monthNames_none_of_short (key : String) (h : key.length ≤ 2) : monthNames key = none := by
  cases hm : monthNames key with
  | none => rfl
  | some v =>
    rcases monthNames_cases key v hm with h1 | h1
    · have := table_key_length key v h1
      omega
    · omega

theorem all_digit_no_dash (s : List Char) (h : s.all Char.isDigit = true) :
    ∀ c ∈ s, c ≠ '-' := by
  intro c hc
  exact not_dash_of_isDigit c (List.all_eq_true.1 h c hc)

/-! ## C7: ISO dates -/

/-- On every text `YYYY-MM-DD` of four, two and two digits `extractMonth` returns `null`: the
text holds a dash and is 10 long, so it enters the branch for `D-Mon-YY`, where its two-digit
month is no key of `monthNames`, and the branch for standard dates is never reached. -/
theorem iso_date_returns_null (parseDate : DateParser) (y m d : List Char)
    (hy : y.all Char.isDigit = true) (hyl : y.length = 4)
    (hm : m.all Char.isDigit = true) (hml : m.length = 2)
    (hd : d.all Char.isDigit = true) (hdl : d.length = 2) :
    extractMonth parseDate (Value.str (String.mk (y ++ '-' :: (m ++ '-' :: d)))) = .ok none := by
  have hlen : jsLength (y ++ '-' :: (m ++ '-' :: d)) ≤ 10 := by
    have h1 : jsLength (y ++ '-' :: (m ++ '-' :: d)) =
        jsLength y + (1 + (jsLength m + (1 + jsLength d))) := by
      rw [jsLength_append, jsLength_cons, jsLength_append, jsLength_cons]
      simp
    rw [h1, jsLength_digits y hy, jsLength_digits m hm, jsLength_digits d hd]
    omega
  rw [extractMonth_compact parseDate y m d (all_digit_no_dash y hy) (all_digit_no_dash m hm)
    (all_digit_no_dash d hd) hlen]
  have hnone : monthNames (String.mk m) = none :=
    monthNames_none_of_short _ (by show m.length ≤ 2; omega)
  rw [hnone]

/-- C7, what the code does at the date of the specification: whatever the engine's date
parser, `extractMonth("2025-08-31")` is `null`, not the bucket `2025-08`, and so is
`extractMonth` of the valid date `2024-02-29`. -/
theorem C7_iso_date_returns_null (parseDate : DateParser) :
    extractMonth parseDate (Value.str "2025-08-31") = .ok none ∧
    extractMonth parseDate (Value.str "2024-02-29") = .ok none :=
  ⟨iso_date_returns_null parseDate "2025".toList "08".toList "31".toList
      (by decide) (by decide) (by decide) (by decide) (by decide) (by decide),
    iso_date_returns_null parseDate "2024".toList "02".toList "29".toList
      (by decide) (by decide) (by decide) (by decide) (by decide) (by decide)⟩

/-! ## C8: compact dates -/

/-- C8, the claim as written fails: with the month abbreviation in lower or upper case
`extractMonth` returns `null`. -/
theorem C8_month_case_matters :
    extractMonth isoLocalParser (Value.str "31-aug-25") = .ok none ∧
    extractMonth isoLocalParser (Value.str "31-AUG-25") = .ok none := by
  decide

/-- C8, amended: for every text `D-Mon-YY` where `D` is one or two digits, `Mon` is one of the
twelve abbreviations `Jan` ... `Dec` written exactly so (capital first letter, lower case
after) and `YY` is two digits, `extractMonth` returns `20YY-MM` with `MM` the two-digit number
of that month. -/
theorem C8_compact_date (parseDate : DateParser) (day yy : List Char) (mon mm : String)
    (hday : day.all Char.isDigit = true) (hdl : 1 ≤ day.length ∧ day.length ≤ 2)
    (hmon : (mon, mm) ∈ monthTable)
    (hyy : yy.all Char.isDigit = true) (hyl : yy.length = 2) :
    extractMonth parseDate (Value.str (String.mk (day ++ '-' :: (mon.toList ++ '-' :: yy)))) =
      .ok (some ("20" ++ String.mk yy ++ "-" ++ mm)) := by
  have hmonlen : mon.toList.length = 3 := table_key_length mon mm hmon
  have hmonchars : ∀ c ∈ mon.toList, c ≠ '-' ∧ c.val < 0x10000 := by
    simp only [monthTable, List.mem_cons, Prod.mk.injEq, List.mem_singleton, List.not_mem_nil,
      or_false] at hmon
    rcases hmon with h | h | h | h | h | h | h | h | h | h | h | h <;>
      (obtain ⟨rfl, rfl⟩ := h; decide)
  have hmonjs : jsLength mon.toList = 3 := by
    have : jsLength mon.toList = mon.toList.length := by
      unfold jsLength
      have hmap : (mon.toList.map fun c => if c.val < 0x10000 then 1 else 2) =
          mon.toList.map fun _ => 1 := by
        apply List.map_congr_left
        intro c hc
        rw [if_pos (hmonchars c hc).2]
      rw [hmap]
      simp
    rw [this, hmonlen]
  have hlen : jsLength (day ++ '-' :: (mon.toList ++ '-' :: yy)) ≤ 10 := by
    have h1 : jsLength (day ++ '-' :: (mon.toList ++ '-' :: yy)) =
        jsLength day + (1 + (jsLength mon.toList + (1 + jsLength yy))) := by
      rw [jsLength_append, jsLength_cons, jsLength_append, jsLength_cons]
      simp
    rw [h1, jsLength_digits day hday, jsLength_digits yy hyy, hmonjs]
    omega
  rw [extractMonth_compact parseDate day mon.toList yy (all_digit_no_dash day hday)
    (fun c hc => (hmonchars c hc).1) (all_digit_no_dash yy hyy) hlen]
  have hkey : String.mk mon.toList = mon := rfl
  rw [hkey, monthNames_of_table mon mm hmon]

/-- C8, amended, at the date of the specification: `extractMonth("31-Aug-25")` is
`"2025-08"`. -/
theorem C8_compact_date_witness :
    extractMonth isoLocalParser (Value.str "31-Aug-25") = .ok (some "2025-08") :=
  C8_compact_date isoLocalParser "31".toList "25".toList "Aug" "08"
    (by decide) (by decide) (by decide) (by decide) (by decide)

/-! ## Rendering of years and months -/

theorem digitChar_isDigit (d : Nat) (h : d < 10) : (digitChar d).isDigit = true := by
  interval_cases d <;> decide

theorem natDigits_step (fuel n : Nat) (h : ¬ n < 10) :
    natDigits (fuel + 1) n = natDigits fuel (n / 10) ++ [digitChar (n % 10)] := by
  rw [natDigits, if_neg h]

theorem natDigits_last (fuel n : Nat) (h : n < 10) : natDigits (fuel + 1) n = [digitChar n] := by
  rw [natDigits, if_pos h]

theorem renderNat_four (n : Nat) (h1 : 1000 ≤ n) (h2 : n ≤ 9999) :
    renderNat n = [digitChar (n / 1000), digitChar (n / 100 % 10), digitChar (n / 10 % 10),
      digitChar (n % 10)] := by
  obtain ⟨k, rfl⟩ : ∃ k, n = k + 4 := ⟨n - 4, by omega⟩
  have s1 : natDigits (k + 4 + 1) (k + 4) =
      natDigits (k + 3 + 1) ((k + 4) / 10) ++ [digitChar ((k + 4) % 10)] :=
    natDigits_step _ _ (by omega)
  have s2 : natDigits (k + 3 + 1) ((k + 4) / 10) =
      natDigits (k + 2 + 1) ((k + 4) / 10 / 10) ++ [digitChar ((k + 4) / 10 % 10)] :=
    natDigits_step _ _ (by omega)
  have s3 : natDigits (k + 2 + 1) ((k + 4) / 10 / 10) =
      natDigits (k + 1 + 1) ((k + 4) / 10 / 10 / 10) ++ [digitChar ((k + 4) / 10 / 10 % 10)] :=
    natDigits_step _ _ (by omega)
  have s4 : natDigits (k + 1 + 1) ((k + 4) / 10 / 10 / 10) =
      [digitChar ((k + 4) / 10 / 10 / 10)] :=
    natDigits_last _ _ (by omega)
  have d1 : (k + 4) / 10 / 10 / 10 = (k + 4) / 1000 := by omega
  have d2 : (k + 4) / 10 / 10 % 10 = (k + 4) / 100 % 10 := by omega
  unfold renderNat
  rw [s1, s2, s3, s4, d1, d2]
  rfl

theorem month_text (m : Fin 12) :
    ∃ a b : Char, padStart2 (renderNat (m.val + 1)) = [a, b] ∧ a.isDigit = true ∧
      b.isDigit = true ∧ 1 ≤ digitsValue [a, b] ∧ digitsValue [a, b] ≤ 12 := by
  fin_cases m
  · exact ⟨'0', '1', by decide, by decide, by decide, by decide, by decide⟩
  · exact ⟨'0', '2', by decide, by decide, by decide, by decide, by decide⟩
  · exact ⟨'0', '3', by decide, by decide, by decide, by decide, by decide⟩
  · exact ⟨'0', '4', by decide, by decide, by decide, by decide, by decide⟩
  · exact ⟨'0', '5', by decide, by decide, by decide, by decide, by decide⟩
  · exact ⟨'0', '6', by decide, by decide, by decide, by decide, by decide⟩
  · exact ⟨'0', '7', by decide, by decide, by decide, by decide, by decide⟩
  · exact ⟨'0', '8', by decide, by decide, by decide, by decide, by decide⟩
  · exact ⟨'0', '9', by decide, by decide, by decide, by decide, by decide⟩
  · exact ⟨'1', '0', by decide, by decide, by decide, by decide, by decide⟩
  · exact ⟨'1', '1', by decide, by decide, by decide, by decide, by decide⟩
  · exact ⟨'1', '2', by decide, by decide, by decide, by decide, by decide⟩

theorem table_value (key v : String) (h : (key, v) ∈ monthTable) :
    ∃ a b : Char, v.toList = [a, b] ∧ a.isDigit = true ∧ b.isDigit = true ∧
      1 ≤ digitsValue [a, b] ∧ digitsValue [a, b] ≤ 12 := by
  simp only [monthTable, List.mem_cons, Prod.mk.injEq, List.mem_singleton, List.not_mem_nil,
    or_false] at h
  rcases h with h | h | h | h | h | h | h | h | h | h | h | h <;> obtain ⟨rfl, rfl⟩ := h
  · exact ⟨'0', '1', by decide, by decide, by decide, by decide, by decide⟩
  · exact ⟨'0', '2', by decide, by decide, by decide, by decide, by decide⟩
  · exact ⟨'0', '3', by decide, by decide, by decide, by decide, by decide⟩
  · exact ⟨'0', '4', by decide, by decide, by decide, by decide, by decide⟩
  · exact ⟨'0', '5', by decide, by decide, by decide, by decide, by decide⟩
  · exact ⟨'0', '6', by decide, by decide, by decide, by decide, by decide⟩
  · exact ⟨'0', '7', by decide, by decide, by decide, by decide, by decide⟩
  · exact ⟨'0', '8', by decide, by decide, by decide, by decide, by decide⟩
  · exact ⟨'0', '9', by decide, by decide, by decide, by decide, by decide⟩
  · exact ⟨'1', '0', by decide, by decide, by decide, by decide, by decide⟩
  · exact ⟨'1', '1', by decide, by decide, by decide, by decide, by decide⟩
  · exact ⟨'1', '2', by decide, by decide, by decide, by decide, by decide⟩

theorem isYearMonth_of_parts (y1 y2 y3 y4 m1 m2 : Char) (s : String)
    (hs : s.toList = [y1, y2, y3, y4, '-', m1, m2])
    (h1 : y1.isDigit = true) (h2 : y2.isDigit = true) (h3 : y3.isDigit = true)
    (h4 : y4.isDigit = true) (h5 : m1.isDigit = true) (h6 : m2.isDigit = true)
    (hlo : 1 ≤ digitsValue [m1, m2]) (hhi : digitsValue [m1, m2] ≤ 12) :
    isYearMonth s = true := by
  unfold isYearMonth
  rw [hs]
  simp [h1, h2, h3, h4, h5, h6, hlo, hhi]

/-- The bucket of the compact branch has the form `YYYY-MM` when the third part is two
digits. -/
theorem isYearMonth_compact (parseDate : DateParser) (s b : String)
    (hguard : (s.toList.contains '-' && decide (jsLength s.toList ≤ 10)) = true)
    (p0 p1 p2 : List Char) (hsplit : splitDash s.toList = [p0, p1, p2])
    (hp2 : p2.all Char.isDigit = true) (hp2l : p2.length = 2)
    (h : extractMonth parseDate (Value.str s) = .ok (some b)) : isYearMonth b = true := by
  have hs : s.toList = p0 ++ '-' :: (p1 ++ '-' :: p2) := splitDash_three _ _ _ _ hsplit
  have hs2 : s = String.mk (p0 ++ '-' :: (p1 ++ '-' :: p2)) := String.ext hs
  have hparts := splitDash_parts_no_dash s.toList
  rw [hsplit] at hparts
  simp only [Bool.and_eq_true, decide_eq_true_eq] at hguard
  have hlen : jsLength (p0 ++ '-' :: (p1 ++ '-' :: p2)) ≤ 10 := by rw [← hs]; exact hguard.2
  rw [hs2, extractMonth_compact parseDate p0 p1 p2 (hparts p0 (by simp)) (hparts p1 (by simp))
    (hparts p2 (by simp)) hlen] at h
  cases hm : monthNames (String.mk p1) with
  | none => rw [hm] at h; cases h
  | some month =>
    rw [hm] at h
    simp only [Except.ok.injEq, Option.some.injEq] at h
    have hp1 : (String.mk p1).length ≤ 6 := by
      have e1 : jsLength (p0 ++ '-' :: (p1 ++ '-' :: p2)) =
          jsLength p0 + (1 + (jsLength p1 + (1 + jsLength p2))) := by
        rw [jsLength_append, jsLength_cons, jsLength_append, jsLength_cons]
        simp
      have e2 := jsLength_digits p2 hp2
      have e3 := jsLength_le_length p1
      show p1.length ≤ 6
      omega
    rcases monthNames_cases _ _ hm with htab | hlong
    · obtain ⟨a, c, hmonth, ha, hc, hlo, hhi⟩ := table_value _ _ htab
      obtain ⟨d1, d2, rfl⟩ : ∃ d1 d2, p2 = [d1, d2] := by
        match p2, hp2l with
        | [d1, d2], _ => exact ⟨d1, d2, rfl⟩
      simp only [List.all_cons, List.all_nil, Bool.and_true, Bool.and_eq_true] at hp2
      refine isYearMonth_of_parts '2' '0' d1 d2 a c b ?_ (by decide) (by decide) hp2.1 hp2.2
        ha hc hlo hhi
      have hmd : month.data = [a, c] := hmonth
      rw [← h]
      simp only [String.toList, String.data_append, hmd]
      rfl
    · omega

/-- The bucket of the general branch has the form `YYYY-MM` when the parsed year has four
digits. -/
theorem isYearMonth_general (parseDate : DateParser) (s b : String)
    (hguard : (s.toList.contains '-' && decide (jsLength s.toList ≤ 10)) = false)
    (date : ParsedDate) (hdate : parseDate s = some date)
    (hyear : 1000 ≤ date.year ∧ date.year ≤ 9999)
    (h : extractMonth parseDate (Value.str s) = .ok (some b)) : isYearMonth b = true := by
  unfold extractMonth extractMonthBody tryCatch at h
  simp only [hguard, hdate] at h
  simp only [Bool.false_eq_true, if_false, Except.ok.injEq, Option.some.injEq] at h
  obtain ⟨n, hn⟩ : ∃ n : Nat, date.year = Int.ofNat n := ⟨date.year.toNat, by
    have := hyear.1
    simp only [Int.ofNat_eq_coe]
    omega⟩
  have hn1 : 1000 ≤ n := by
    have := hyear.1; rw [hn] at this; simp only [Int.ofNat_eq_coe] at this; omega
  have hn2 : n ≤ 9999 := by
    have := hyear.2; rw [hn] at this; simp only [Int.ofNat_eq_coe] at this; omega
  have hy : renderInt date.year = [digitChar (n / 1000), digitChar (n / 100 % 10),
      digitChar (n / 10 % 10), digitChar (n % 10)] := by
    rw [hn]
    exact renderNat_four n hn1 hn2
  obtain ⟨a, c, hmonth, ha, hc, hlo, hhi⟩ := month_text date.month
  refine isYearMonth_of_parts (digitChar (n / 1000)) (digitChar (n / 100 % 10))
    (digitChar (n / 10 % 10)) (digitChar (n % 10)) a c b ?_
    (digitChar_isDigit _ (by omega)) (digitChar_isDigit _ (by omega))
    (digitChar_isDigit _ (by omega)) (digitChar_isDigit _ (by omega)) ha hc hlo hhi
  rw [← h, hy, hmonth]
  rfl

theorem isYearMonth_extractMonth (parseDate : DateParser) (s b : String)
    (h : extractMonth parseDate (Value.str s) = .ok (some b))
    (hw : yearSourceWellFormed parseDate s = true) : isYearMonth b = true := by
  unfold yearSourceWellFormed at hw
  by_cases hguard : (s.toList.contains '-' && decide (jsLength s.toList ≤ 10)) = true
  · rw [if_pos hguard] at hw
    split at hw
    · next p0 p1 p2 hsplit =>
      simp only [Bool.and_eq_true, decide_eq_true_eq] at hw
      exact isYearMonth_compact parseDate s b hguard p0 p1 p2 hsplit hw.1 hw.2 h
    · cases hw
  · have hguard2 : (s.toList.contains '-' && decide (jsLength s.toList ≤ 10)) = false := by
      simpa using hguard
    rw [if_neg hguard] at hw
    split at hw
    · next date hdate =>
      exact isYearMonth_general parseDate s b hguard2 date hdate (by simpa using hw) h
    · cases hw

theorem utf16Units_cons_digit (c : Char) (s : List Char) (h : c.isDigit = true) :
    utf16Units (c :: s) = c.toNat :: utf16Units s := by
  have hc := (isDigit_iff c).1 h
  have hlt : c.val < 0x10000 := by
    have h57 : c.val.toNat ≤ 57 := hc.2
    show c.val.toNat < 65536
    omega
  simp [utf16Units, hlt]

theorem utf16Units_nil : utf16Units [] = [] := rfl

theorem utf16Units_cons_dash (s : List Char) : utf16Units ('-' :: s) = 45 :: utf16Units s := by
  have hlt : ('-' : Char).val < 0x10000 := by decide
  simp [utf16Units, hlt]

theorem isDigit_bounds (c : Char) (h : c.isDigit = true) : 48 ≤ c.toNat ∧ c.toNat ≤ 57 :=
  (isDigit_iff c).1 h

theorem isYearMonth_elim (s : String) (h : isYearMonth s = true) :
    ∃ y1 y2 y3 y4 m1 m2 : Char, s.toList = [y1, y2, y3, y4, '-', m1, m2] ∧
      y1.isDigit = true ∧ y2.isDigit = true ∧ y3.isDigit = true ∧ y4.isDigit = true ∧
      m1.isDigit = true ∧ m2.isDigit = true ∧
      1 ≤ digitsValue [m1, m2] ∧ digitsValue [m1, m2] ≤ 12 := by
  unfold isYearMonth at h
  split at h
  · next y1 y2 y3 y4 dash m1 m2 heq =>
    simp only [List.all_cons, List.all_nil, Bool.and_true, Bool.and_eq_true, beq_iff_eq,
      decide_eq_true_eq] at h
    obtain ⟨⟨⟨⟨h1, h2, h3, h4, h5, h6⟩, hd⟩, hlo⟩, hhi⟩ := h
    subst hd
    exact ⟨y1, y2, y3, y4, m1, m2, heq, h1, h2, h3, h4, h5, h6, hlo, hhi⟩
  · cases h

/-- On keys of the form `YYYY-MM` the order of strings is the order of time. -/
theorem yearMonth_lt_iff (a b : String) (ha : isYearMonth a = true) (hb : isYearMonth b = true) :
    jsStringLt a b = true ↔ periodIndex a < periodIndex b := by
  obtain ⟨a1, a2, a3, a4, a5, a6, hal, d1, d2, d3, d4, d5, d6, alo, ahi⟩ := isYearMonth_elim a ha
  obtain ⟨b1, b2, b3, b4, b5, b6, hbl, e1, e2, e3, e4, e5, e6, blo, bhi⟩ := isYearMonth_elim b hb
  unfold jsStringLt periodIndex
  rw [hal, hbl]
  simp only [utf16Units_cons_digit, utf16Units_cons_dash, d1, d2, d3, d4, d5, d6, e1, e2, e3, e4,
    e5, e6, unitsLt, Bool.or_eq_true, Bool.and_eq_true, decide_eq_true_eq, utf16Units_nil,
    Bool.false_eq_true, and_false, or_false]
  have := isDigit_bounds a1 d1
  have := isDigit_bounds a2 d2
  have := isDigit_bounds a3 d3
  have := isDigit_bounds a4 d4
  have := isDigit_bounds a5 d5
  have := isDigit_bounds a6 d6
  have := isDigit_bounds b1 e1
  have := isDigit_bounds b2 e2
  have := isDigit_bounds b3 e3
  have := isDigit_bounds b4 e4
  have := isDigit_bounds b5 e5
  have := isDigit_bounds b6 e6
  simp only [digitsValue, List.foldl_cons, List.foldl_nil, Nat.lt_irrefl, false_or,
    true_and] at alo ahi blo bhi ⊢
  omega

theorem mem_objectKeys_foldl (es : List (String × JSNum)) (o : JSObj) (k : String)
    (h : k ∈ objectKeys (es.foldl addEntry o)) : k ∈ objectKeys o ∨ k ∈ es.map Prod.fst := by
  induction es generalizing o with
  | nil => exact Or.inl h
  | cons e es ih =>
    rw [List.foldl_cons] at h
    rcases ih _ h with h1 | h1
    · unfold ProfitPilot.addEntry at h1
      rw [objectKeys_set] at h1
      split at h1
      · exact Or.inl h1
      · rcases List.mem_append.1 h1 with h2 | h2
        · exact Or.inl h2
        · simp only [List.mem_singleton] at h2
          exact Or.inr (by simp [h2])
    · exact Or.inr (List.mem_cons_of_mem _ h1)

theorem keys_series (parseDate : DateParser) (dateKey : String) (amount : Record → JSNum)
    (rows : List Record) (k : String)
    (h : k ∈ objectKeys ((rows.filterMap (entryOf parseDate dateKey amount)).foldl addEntry [])) :
    ∃ r ∈ rows, bucketOf parseDate (r.get dateKey) = some k := by
  rcases mem_objectKeys_foldl _ _ _ h with h1 | h1
  · simp [objectKeys] at h1
  · obtain ⟨e, he, rfl⟩ := List.mem_map.1 h1
    obtain ⟨r, hr, hre⟩ := List.mem_filterMap.1 he
    refine ⟨r, hr, ?_⟩
    unfold entryOf at hre
    cases hb : bucketOf parseDate (r.get dateKey) with
    | none => rw [hb] at hre; cases hre
    | some m =>
      rw [hb] at hre
      simp only [Option.map_some', Option.some.injEq] at hre
      rw [← hre]

theorem bucketOf_some (parseDate : DateParser) (v : Value) (k : String)
    (h : bucketOf parseDate v = some k) :
    ∃ t, v = Value.str t ∧ extractMonth parseDate (Value.str t) = .ok (some k) := by
  cases v with
  | num n =>
    unfold bucketOf at h
    have : extractMonth parseDate (Value.num n) = .ok none := rfl
    rw [this] at h
    simp at h
  | absent => simp [bucketOf, Value.truthy] at h
  | str t =>
    refine ⟨t, rfl, ?_⟩
    unfold bucketOf at h
    obtain ⟨r, hr⟩ := extractMonth_ok parseDate (Value.str t)
    rw [hr] at h ⊢
    cases r with
    | none => simp at h
    | some m =>
      by_cases hm : m = ""
      · simp [hm] at h
      · by_cases ht : (Value.str t).truthy = true
        · simp [ht, hm] at h
          rw [h]
        · simp [ht] at h

theorem isYearMonth_of_bucket (parseDate : DateParser) (v : Value) (k : String)
    (h : bucketOf parseDate v = some k) (hw : dateCellWellFormed parseDate v = true) :
    isYearMonth k = true := by
  obtain ⟨t, rfl, ht⟩ := bucketOf_some parseDate v k h
  exact isYearMonth_extractMonth parseDate t k ht hw

/-! ## C9: the YearMonth invariant -/

/-- C9, the claim as written fails: a year part that is not two digits goes into the bucket
as it is, so `1-Aug-2025` gives `202025-08` and `1-Aug-5` gives `205-08`, neither of the form
`YYYY-MM`; a parsed date before year 1000 gives a short year as well. -/
theorem C9_year_not_four_digits :
    extractMonth isoLocalParser (Value.str "1-Aug-2025") = .ok (some "202025-08") ∧
    isYearMonth "202025-08" = false ∧
    extractMonth isoLocalParser (Value.str "1-Aug-5") = .ok (some "205-08") ∧
    isYearMonth "205-08" = false ∧
    extractMonth isoLocalParser (Value.str "0099-08-31T12:00:00") = .ok (some "99-08") ∧
    isYearMonth "99-08" = false := by
  decide

/-- C9, amended: whenever `extractMonth` returns a bucket and the year it writes comes from a
well-formed source (in the compact branch the third part of the text is exactly two digits; in
the general branch the parsed year lies in 1000..9999), the result has the form `YYYY-MM` with
exactly four year digits and a two-digit month in 01..12; so when `processBusinessData`
returns on records whose date cells are all of that kind, every key of `revenueByMonth` and of
`costsByMonth` has the form; and on keys of the form, lexicographic order equals chronological
order. -/
theorem C9_bucket_form (parseDate : DateParser) :
    (∀ s b, extractMonth parseDate (Value.str s) = .ok (some b) →
      yearSourceWellFormed parseDate s = true → isYearMonth b = true) ∧
    (∀ (sorter : Sorter) (orders costs : List Record),
      (∀ c ∈ costs, statusIsText (c.get "Order Status") = true) →
      (∀ o ∈ orders, dateCellWellFormed parseDate (o.get "Date") = true) →
      (∀ c ∈ costs, dateCellWellFormed parseDate (c.get "Order Date") = true) →
      ∃ st, processBusinessData parseDate sorter orders costs = .ok st ∧
        (∀ k ∈ objectKeys st.revenueByMonth, isYearMonth k = true) ∧
        (∀ k ∈ objectKeys st.costsByMonth, isYearMonth k = true)) ∧
    (∀ a b, isYearMonth a = true → isYearMonth b = true →
      (jsStringLt a b = true ↔ periodIndex a < periodIndex b)) := by
  refine ⟨isYearMonth_extractMonth parseDate, ?_, yearMonth_lt_iff⟩
  intro sorter orders costs htext horders hcosts
  refine ⟨_, processBusinessData_of_text parseDate sorter orders costs htext, ?_, ?_⟩
  · intro k hk
    obtain ⟨r, hr, hb⟩ := keys_series parseDate "Date" orderValueOf _ k hk
    exact isYearMonth_of_bucket parseDate _ k hb (horders r (List.mem_filter.1 hr).1)
  · intro k hk
    obtain ⟨r, hr, hb⟩ := keys_series parseDate "Order Date" costAmountOf _ k hk
    have hr1 : r ∈ sorter.sort (completedCosts costs) := (List.mem_filter.1 hr).1
    have hr2 : r ∈ completedCosts costs := (sorter.perm _).mem_iff.1 hr1
    have hr3 : r ∈ costs := (List.mem_filter.1 hr2).1
    exact isYearMonth_of_bucket parseDate _ k hb (hcosts r hr3)

/-- C9, amended, at the dates of the specification. -/
theorem C9_bucket_form_witness :
    isYearMonth "2025-08" = true ∧
    (∃ st, processBusinessData isoLocalParser Sorter.keep scenarioOrders scenarioCosts = .ok st ∧
      (∀ k ∈ objectKeys st.revenueByMonth, isYearMonth k = true) ∧
      (∀ k ∈ objectKeys st.costsByMonth, isYearMonth k = true)) ∧
    (jsStringLt "2024-12" "2025-01" = true ↔ periodIndex "2024-12" < periodIndex "2025-01") :=
  ⟨(C9_bucket_form isoLocalParser).1 "31-Aug-25" "2025-08" (by decide) (by decide),
    (C9_bucket_form isoLocalParser).2.1 Sorter.keep scenarioOrders scenarioCosts (by decide)
      (by decide) (by decide),
    (C9_bucket_form isoLocalParser).2.2 "2024-12" "2025-01" (by decide) (by decide)⟩

/-! ## C10: `extractMonth` never throws -/

/-- C10: for every cell, text or number or absent, and whatever the engine's date parser,
`extractMonth` returns: a bucket or `null`, never an exception.  It returns `null` on every
number, and on every text that is not of the compact form (no dash, or more than 10 long) and
that the engine cannot read as a date, such as `not a date`. -/
theorem C10_extractMonth_never_throws (parseDate : DateParser) (v : Value) :
    ∃ r, extractMonth parseDate v = .ok r ∧
      (∀ n, v = Value.num n → r = none) ∧
      (v = Value.absent → r = none) ∧
      (∀ s, v = Value.str s →
        (s.toList.contains '-' && decide (jsLength s.toList ≤ 10)) = false →
        parseDate s = none → r = none) := by
  cases v with
  | num n => exact ⟨none, rfl, fun _ _ => rfl, fun _ => rfl, fun s hs => by cases hs⟩
  | absent => exact ⟨none, rfl, fun _ _ => rfl, fun _ => rfl, fun s hs => by cases hs⟩
  | str t =>
    obtain ⟨r, hr⟩ := extractMonth_ok parseDate (Value.str t)
    refine ⟨r, hr, fun n hn => Value.noConfusion hn, fun hn => Value.noConfusion hn, ?_⟩
    intro s hs hguard hparse
    injection hs with hs
    subst hs
    unfold extractMonth extractMonthBody tryCatch at hr
    simp only [hguard, hparse] at hr
    simp at hr
    exact hr.symm

/-- C10 at the text of the specification: `extractMonth("not a date")` is `null`. -/
theorem C10_extractMonth_never_throws_witness :
    extractMonth isoLocalParser (Value.str "not a date") = .ok none := by
  obtain ⟨r, hr, -, -, h⟩ :=
    C10_extractMonth_never_throws isoLocalParser (Value.str "not a date")
  rw [hr, h "not a date" rfl (by decide) (by decide)]

/-! ## C11: aggregation and exceptions -/

/-- C11, what the code does: on a cost record whose `Order Status` is a non-zero number
`processBusinessData` throws a `TypeError` (a number has no `toLowerCase`) and yields no
summary, whatever the orders, alone or next to well-formed purchases; on the other inputs,
those whose every `Order Status` is text or falsy, it returns a summary with `totalRevenue` and
`totalCosts` not below zero. -/
theorem C11_numeric_status_throws (parseDate : DateParser) (sorter : Sorter)
    (orders : List Record) :
    processBusinessData parseDate sorter orders numericStatusCosts = .error JSError.typeError ∧
    processBusinessData parseDate sorter orders (scenarioCosts ++ numericStatusCosts) =
      .error JSError.typeError ∧
    (∀ costs, (∀ c ∈ costs, statusIsText (c.get "Order Status") = true) →
      ∃ s, processBusinessData parseDate sorter orders costs = .ok s ∧
        (JSNum.fin 0).le s.totalRevenue = true ∧ (JSNum.fin 0).le s.totalCosts = true) := by
  refine ⟨?_, ?_, ?_⟩
  · exact processBusinessData_error parseDate sorter orders numericStatusCosts
      ⟨_, List.mem_singleton.2 rfl, by decide⟩
  · exact processBusinessData_error parseDate sorter orders _
      ⟨_, List.mem_append_right _ (List.mem_singleton.2 rfl), by decide⟩
  · intro costs h
    exact ⟨_, processBusinessData_of_text parseDate sorter orders costs h,
      totalRevenue_nonNeg parseDate orders _, totalCosts_nonNeg parseDate orders _⟩

/-! ## `calculateAverageGrowth` in closed form -/

theorem getD_append_length (pre : List JSNum) (a : JSNum) (rest : List JSNum) (d : JSNum) :
    (pre ++ a :: rest).getD pre.length d = a := by
  induction pre with
  | nil => rfl
  | cons b pre ih => simpa using ih

theorem getD_append_succ (pre : List JSNum) (a b : JSNum) (rest : List JSNum) (d : JSNum) :
    (pre ++ a :: b :: rest).getD (pre.length + 1) d = b := by
  have h := getD_append_length (pre ++ [a]) b rest d
  simpa using h

theorem foldl_growthStep (rest : List JSNum) :
    ∀ (pre : List JSNum) (a : JSNum) (acc : JSNum × Nat),
      (List.range' (pre.length + 1) rest.length).foldl (growthStep (pre ++ a :: rest)) acc =
        ((a :: rest).zip rest).foldl pairStep acc := by
  induction rest with
  | nil => intro pre a acc; rfl
  | cons b rest ih =>
    intro pre a acc
    have hstep : growthStep (pre ++ a :: b :: rest) acc (pre.length + 1) = pairStep acc (a, b) := by
      unfold growthStep pairStep pairGrowth
      simp only [Nat.add_sub_cancel, getD_append_length, getD_append_succ]
      rfl
    have hih := ih (pre ++ [a]) b (pairStep acc (a, b))
    simp only [List.length_append, List.length_singleton, List.append_assoc,
      List.singleton_append] at hih
    simp only [List.length_cons, List.range'_succ, List.foldl_cons, hstep, List.zip_cons_cons]
    exact hih

theorem foldl_pairStep (pairs : List (JSNum × JSNum)) (acc : JSNum × Nat) :
    pairs.foldl pairStep acc =
      (acc.1 + ((pairs.filter fun p => p.1.gt (JSNum.fin 0)).map pairGrowth).sum,
        acc.2 + (pairs.filter fun p => p.1.gt (JSNum.fin 0)).length) := by
  induction pairs generalizing acc with
  | nil => simp
  | cons p pairs ih =>
    rw [List.foldl_cons, ih]
    by_cases hp : p.1.gt (JSNum.fin 0) = true
    · simp [pairStep, hp, add_assoc, Nat.add_assoc, Nat.add_comm 1]
    · simp [pairStep, hp]

theorem ite_length_pos {α β : Type} (l : List α) [Decidable (l = [])] (x y : β) :
    (if 0 < l.length then x else y) = if l = [] then y else x := by
  cases l <;> simp

/-- The result of `calculateAverageGrowth` is the mean of the growths of the usable pairs, and
0 when there is none. -/
theorem calculateAverageGrowth_eq (values : List JSNum) :
    calculateAverageGrowth values =
      if usablePairs values = [] then JSNum.fin 0
      else (((usablePairs values).map pairGrowth).sum).div
        (JSNum.fin (usablePairs values).length) := by
  unfold calculateAverageGrowth usablePairs adjacentPairs
  match values with
  | [] => simp
  | [x] => simp
  | a :: b :: rest =>
    have hlen : ¬ (a :: b :: rest).length < 2 := by simp
    have hfold := foldl_growthStep (b :: rest) [] a (JSNum.fin 0, 0)
    simp only [List.length_nil, Nat.zero_add, List.nil_append] at hfold
    have hrange : (a :: b :: rest).length - 1 = (b :: rest).length := by simp
    rw [if_neg hlen, hrange, hfold, foldl_pairStep]
    simp only [List.tail_cons, Nat.zero_add, JSNum.fin_zero, zero_add, gt_iff_lt]
    exact ite_length_pos _ _ _

theorem sum_map_fin (l : List ℚ) : (l.map JSNum.fin).sum = JSNum.fin l.sum := by
  induction l with
  | nil => rfl
  | cons a l ih =>
    rw [List.map_cons, List.sum_cons, List.sum_cons, ih]
    rfl

theorem pairGrowth_fin (a b : ℚ) (ha : 0 < a) :
    pairGrowth (JSNum.fin a, JSNum.fin b) = JSNum.fin ((b - a) / a) := by
  simp [pairGrowth, JSNum.sub, JSNum.neg, JSNum.add, JSNum.div, ha.ne', sub_eq_add_neg]

theorem usablePairs_map_fin (values : List ℚ) :
    usablePairs (values.map JSNum.fin) =
      (usablePairsRat values).map fun p => (JSNum.fin p.1, JSNum.fin p.2) := by
  unfold usablePairs adjacentPairs usablePairsRat
  have hzip : (values.map JSNum.fin).zip (values.map JSNum.fin).tail =
      (values.zip values.tail).map fun p => (JSNum.fin p.1, JSNum.fin p.2) := by
    rw [← List.map_tail, List.zip_map]
    rfl
  rw [hzip, List.filter_map]
  rfl

/-- On a series of rationals `calculateAverageGrowth` is the arithmetic mean of the growths
of the usable pairs. -/
theorem calculateAverageGrowth_rat (values : List ℚ) :
    calculateAverageGrowth (values.map JSNum.fin) =
      if usablePairsRat values = [] then JSNum.fin 0
      else JSNum.fin (((usablePairsRat values).map fun p => (p.2 - p.1) / p.1).sum /
        (usablePairsRat values).length) := by
  rw [calculateAverageGrowth_eq, usablePairs_map_fin]
  by_cases hnil : usablePairsRat values = []
  · simp [hnil]
  · have hgrowth : ((usablePairsRat values).map fun p => (JSNum.fin p.1, JSNum.fin p.2)).map
        pairGrowth = ((usablePairsRat values).map fun p => (p.2 - p.1) / p.1).map JSNum.fin := by
      rw [List.map_map, List.map_map]
      apply List.map_congr_left
      intro p hp
      have hpos : 0 < p.1 := by
        have := (List.mem_filter.1 hp).2
        simpa using this
      exact pairGrowth_fin p.1 p.2 hpos
    have hlen : ((usablePairsRat values).length : ℚ) ≠ 0 := by
      have : 0 < (usablePairsRat values).length := List.length_pos.2 hnil
      exact_mod_cast this.ne'
    have hmapnil : ((usablePairsRat values).map fun p => (JSNum.fin p.1, JSNum.fin p.2)) ≠ [] := by
      simpa using hnil
    rw [if_neg hmapnil, if_neg hnil, hgrowth, sum_map_fin, List.length_map]
    simp [JSNum.div, hlen]

/-! ## C12: the average growth -/

/-- C12: `calculateAverageGrowth(values)` is the arithmetic mean of
`(values[i] - values[i-1]) / values[i-1]` over exactly the adjacent pairs whose earlier value
is above zero; the other pairs are skipped and do not count in the denominator, and the result
is 0 when no pair is usable.  This holds for every series of JavaScript numbers (first part)
and reads as a rational mean on every series of finite numbers (second part).  The result is 0
for `[]`, for `[x]` and for `[0, 100]`, and 0.5 for `[100, 150]`. -/
theorem C12_average_growth :
    (∀ values : List JSNum, calculateAverageGrowth values =
      if usablePairs values = [] then JSNum.fin 0
      else (((usablePairs values).map pairGrowth).sum).div
        (JSNum.fin (usablePairs values).length)) ∧
    (∀ values : List ℚ, calculateAverageGrowth (values.map JSNum.fin) =
      if usablePairsRat values = [] then JSNum.fin 0
      else JSNum.fin (((usablePairsRat values).map fun p => (p.2 - p.1) / p.1).sum /
        (usablePairsRat values).length)) ∧
    calculateAverageGrowth [] = JSNum.fin 0 ∧
    (∀ x, calculateAverageGrowth [x] = JSNum.fin 0) ∧
    calculateAverageGrowth [JSNum.fin 0, JSNum.fin 100] = JSNum.fin 0 ∧
    calculateAverageGrowth [JSNum.fin 100, JSNum.fin 150] = JSNum.fin 0.5 := by
  refine ⟨calculateAverageGrowth_eq, calculateAverageGrowth_rat, by decide, ?_, by decide!,
    by decide!⟩
  intro x
  rfl

/-! ## C13: series with one usable pair -/

/-- C13, the claim as written fails: the series `[100, 150]` has exactly one usable pair and
`calculateAverageGrowth` returns 0.5 on it, not 0; so does `[0, 100, 150]`, whose first pair
is skipped. -/
theorem C13_one_usable_pair_not_zero :
    usablePairs [JSNum.fin 100, JSNum.fin 150] = [(JSNum.fin 100, JSNum.fin 150)] ∧
    calculateAverageGrowth [JSNum.fin 100, JSNum.fin 150] = JSNum.fin 0.5 ∧
    usablePairs [JSNum.fin 0, JSNum.fin 100, JSNum.fin 150] =
      [(JSNum.fin 100, JSNum.fin 150)] ∧
    calculateAverageGrowth [JSNum.fin 0, JSNum.fin 100, JSNum.fin 150] = JSNum.fin 0.5 := by
  refine ⟨by decide!, by decide!, by decide!, by decide!⟩

/-- C13, amended: `calculateAverageGrowth` returns 0 for every series of fewer than 2 values
and for every series without a usable adjacent pair (a pair whose earlier value is above
zero); on a series with exactly one usable pair it returns the growth of that pair,
`(later - earlier) / earlier`, which is 0 only when the two values are equal. -/
theorem C13_zero_without_usable_pair (values : List JSNum) :
    (values.length < 2 → calculateAverageGrowth values = JSNum.fin 0) ∧
    (usablePairs values = [] → calculateAverageGrowth values = JSNum.fin 0) ∧
    (∀ a b : ℚ, usablePairs values = [(JSNum.fin a, JSNum.fin b)] →
      calculateAverageGrowth values = JSNum.fin ((b - a) / a) ∧
      (calculateAverageGrowth values = JSNum.fin 0 ↔ a = b)) := by
  refine ⟨?_, ?_, ?_⟩
  · intro h
    unfold calculateAverageGrowth
    rw [if_pos h]
  · intro h
    rw [calculateAverageGrowth_eq, if_pos h]
  · intro a b h
    have hmem : (JSNum.fin a, JSNum.fin b) ∈ usablePairs values := by rw [h]; simp
    have hpos : 0 < a := by
      have := (List.mem_filter.1 hmem).2
      simpa [JSNum.gt] using this
    have hval : calculateAverageGrowth values = JSNum.fin ((b - a) / a) := by
      rw [calculateAverageGrowth_eq, h]
      simp [pairGrowth_fin a b hpos, JSNum.div]
    refine ⟨hval, ?_⟩
    rw [hval]
    constructor
    · intro h0
      injection h0 with h0
      have := (div_eq_zero_iff.1 h0).resolve_right hpos.ne'
      linarith
    · intro hab
      rw [hab]
      simp

/-- C13, amended, on the series `[0, 100, 150]`: one usable pair, growth 0.5. -/
theorem C13_zero_without_usable_pair_witness :
    calculateAverageGrowth [JSNum.fin 0, JSNum.fin 100, JSNum.fin 150] =
      JSNum.fin ((150 - 100) / 100) :=
  ((C13_zero_without_usable_pair [JSNum.fin 0, JSNum.fin 100, JSNum.fin 150]).2.2 100 150
    (by decide!)).1

/-! ## The order of keys -/

theorem unitsLt_asymm (a : List Nat) : ∀ b, unitsLt a b = true → unitsLt b a = false := by
  induction a with
  | nil => intro b _; cases b <;> rfl
  | cons x a ih =>
    intro b h
    cases b with
    | nil => simp [unitsLt] at h
    | cons y b =>
      simp only [unitsLt, Bool.or_eq_true, Bool.and_eq_true, decide_eq_true_eq] at h
      simp only [unitsLt, Bool.or_eq_false_iff, Bool.and_eq_false_iff, decide_eq_false_iff_not]
      rcases h with h | ⟨h1, h2⟩
      · exact ⟨by omega, Or.inl (by omega)⟩
      · exact ⟨by omega, Or.inr (ih b h2)⟩

theorem unitsLt_cotrans (a : List Nat) :
    ∀ b c, unitsLt a c = true → unitsLt a b = true ∨ unitsLt b c = true := by
  induction a with
  | nil =>
    intro b c h
    cases c with
    | nil => simp [unitsLt] at h
    | cons z c =>
      cases b with
      | nil => exact Or.inr rfl
      | cons y b => exact Or.inl rfl
  | cons x a ih =>
    intro b c h
    cases c with
    | nil => simp [unitsLt] at h
    | cons z c =>
      cases b with
      | nil => exact Or.inr rfl
      | cons y b =>
        simp only [unitsLt, Bool.or_eq_true, Bool.and_eq_true, decide_eq_true_eq] at h ⊢
        rcases h with h | ⟨h1, h2⟩
        · by_cases hxy : x < y
          · exact Or.inl (Or.inl hxy)
          · by_cases hyz : y < z
            · exact Or.inr (Or.inl hyz)
            · omega
        · subst h1
          by_cases hxy : x < y
          · exact Or.inl (Or.inl hxy)
          · by_cases hyx : y < x
            · exact Or.inr (Or.inl hyx)
            · have hxy2 : x = y := by omega
              subst hxy2
              rcases ih b c h2 with h3 | h3
              · exact Or.inl (Or.inr ⟨rfl, h3⟩)
              · exact Or.inr (Or.inr ⟨rfl, h3⟩)

theorem keyLe_total (a b : String) : keyLe a b ∨ keyLe b a := by
  unfold keyLe jsStringLt
  by_cases h : unitsLt (utf16Units b.toList) (utf16Units a.toList) = true
  · exact Or.inr (unitsLt_asymm _ _ h)
  · exact Or.inl (by simpa using h)

theorem keyLe_trans (a b c : String) (hab : keyLe a b) (hbc : keyLe b c) : keyLe a c := by
  unfold keyLe jsStringLt at *
  by_contra h
  have h2 : unitsLt (utf16Units c.toList) (utf16Units a.toList) = true := by simpa using h
  rcases unitsLt_cotrans _ (utf16Units b.toList) _ h2 with h3 | h3
  · rw [hbc] at h3; cases h3
  · rw [hab] at h3; cases h3

theorem jsSort_sorted (keys : List String) : (jsSort keys).Pairwise keyLe := by
  haveI : IsTotal String keyLe := ⟨keyLe_total⟩
  haveI : IsTrans String keyLe := ⟨keyLe_trans⟩
  exact List.sorted_insertionSort keyLe keys

theorem jsSort_perm (keys : List String) : (jsSort keys).Perm keys :=
  List.perm_insertionSort keyLe keys

theorem periodIndex_injective (a b : String) (ha : isYearMonth a = true)
    (hb : isYearMonth b = true) (h : periodIndex a = periodIndex b) : a = b := by
  obtain ⟨a1, a2, a3, a4, a5, a6, hal, d1, d2, d3, d4, d5, d6, alo, ahi⟩ := isYearMonth_elim a ha
  obtain ⟨b1, b2, b3, b4, b5, b6, hbl, e1, e2, e3, e4, e5, e6, blo, bhi⟩ := isYearMonth_elim b hb
  unfold periodIndex at h
  rw [hal, hbl] at h
  have := isDigit_bounds a1 d1
  have := isDigit_bounds a2 d2
  have := isDigit_bounds a3 d3
  have := isDigit_bounds a4 d4
  have := isDigit_bounds a5 d5
  have := isDigit_bounds a6 d6
  have := isDigit_bounds b1 e1
  have := isDigit_bounds b2 e2
  have := isDigit_bounds b3 e3
  have := isDigit_bounds b4 e4
  have := isDigit_bounds b5 e5
  have := isDigit_bounds b6 e6
  simp only [digitsValue, List.foldl_cons, List.foldl_nil] at alo ahi blo bhi h
  have c1 : a1 = b1 := Char.ext (UInt32.ext (show a1.toNat = b1.toNat by omega))
  have c2 : a2 = b2 := Char.ext (UInt32.ext (show a2.toNat = b2.toNat by omega))
  have c3 : a3 = b3 := Char.ext (UInt32.ext (show a3.toNat = b3.toNat by omega))
  have c4 : a4 = b4 := Char.ext (UInt32.ext (show a4.toNat = b4.toNat by omega))
  have c5 : a5 = b5 := Char.ext (UInt32.ext (show a5.toNat = b5.toNat by omega))
  have c6 : a6 = b6 := Char.ext (UInt32.ext (show a6.toNat = b6.toNat by omega))
  apply String.ext
  show a.toList = b.toList
  rw [hal, hbl, c1, c2, c3, c4, c5, c6]

/-- Sorted keys of the form `YYYY-MM` are in chronological order. -/
theorem jsSort_chronological (keys : List String) (hnodup : keys.Nodup)
    (hform : ∀ k ∈ keys, isYearMonth k = true) :
    (jsSort keys).Pairwise fun a b => periodIndex a < periodIndex b := by
  have hperm := jsSort_perm keys
  have hnd : (jsSort keys).Nodup := hperm.nodup_iff.2 hnodup
  have hboth := (jsSort_sorted keys).and hnd
  refine hboth.imp_of_mem ?_
  intro a b ha hb hab
  obtain ⟨hle, hne⟩ := hab
  have hya := hform a (hperm.mem_iff.1 ha)
  have hyb := hform b (hperm.mem_iff.1 hb)
  have hnot : ¬ periodIndex b < periodIndex a := by
    intro hlt
    have := (yearMonth_lt_iff b a hyb hya).2 hlt
    unfold keyLe at hle
    rw [hle] at this
    cases this
  have hneq : periodIndex a ≠ periodIndex b := fun h =>
    hne (periodIndex_injective a b hya hyb h)
  omega

theorem readNumber_cons_self (k : String) (v : JSNum) (o : JSObj) :
    readNumber ((k, v) :: o) k = v := by
  simp [readNumber, JSObj.get]

theorem readNumber_cons_of_ne (k k2 : String) (v : JSNum) (o : JSObj) (h : k ≠ k2) :
    readNumber ((k, v) :: o) k2 = readNumber o k2 := by
  simp [readNumber, JSObj.get, h]

/-- Reading every key of an object gives the object back. -/
theorem map_readNumber_objectKeys (o : JSObj) (h : (objectKeys o).Nodup) :
    (objectKeys o).map (fun k => (k, readNumber o k)) = o := by
  induction o with
  | nil => rfl
  | cons e o ih =>
    obtain ⟨k, v⟩ := e
    have hk : k ∉ objectKeys o := (List.nodup_cons.1 h).1
    have ho : (objectKeys o).Nodup := (List.nodup_cons.1 h).2
    show (k, readNumber ((k, v) :: o) k) ::
      (objectKeys o).map (fun k2 => (k2, readNumber ((k, v) :: o) k2)) = (k, v) :: o
    rw [readNumber_cons_self]
    congr 1
    have hmap : (objectKeys o).map (fun k2 => (k2, readNumber ((k, v) :: o) k2)) =
        (objectKeys o).map (fun k2 => (k2, readNumber o k2)) := by
      apply List.map_congr_left
      intro k2 hk2
      have hne : k ≠ k2 := fun h2 => hk (h2 ▸ hk2)
      rw [readNumber_cons_of_ne k k2 v o hne]
    rw [hmap, ih ho]

theorem getD_last {α : Type} (l : List α) (d x : α) (h : l.getLast? = some x) :
    l.getD (l.length - 1) d = x := by
  rw [List.getD_eq_getElem?_getD, ← List.getLast?_eq_getElem?, h]
  rfl

/-- Keys outside the form `YYYY-MM` are sorted as text, not as dates: the bucket of a date in
year 999 comes after the bucket of a date in year 1000. -/
theorem jsSort_short_year : jsSort ["999-08", "1000-01"] = ["1000-01", "999-08"] := by
  decide

/-! ## C14: the revenue projection -/

/-- C14, the claim as written fails: sales of 100 on `15-Dec-24` and of 200 on `1-Jan-2025`
bucket to `2024-12` and `202025-01`, in exact and in binary64 arithmetic alike; `sort()`
compares the keys as text and puts `202025-01` first, so `predictRevenue` takes December 2024
for the last month and returns `100 * (1 + (100 - 200) / 200) * 3 = 150`, where the values in
chronological order, 100 then 200, give `200 * (1 + (200 - 100) / 100) * 3 = 1200`. -/
theorem C14_keys_sorted_as_text :
    ∃ s, processBusinessData isoLocalParser Sorter.keep decemberAndJanuary [] = .ok s ∧
      Rounded.processBusinessData Rounding.binary64 isoLocalParser Sorter.keep
        decemberAndJanuary [] = .ok s ∧
      s.revenueByMonth = [("2024-12", JSNum.fin 100), ("202025-01", JSNum.fin 200)] ∧
      jsSort (objectKeys s.revenueByMonth) = ["202025-01", "2024-12"] ∧
      predictRevenue s = JSNum.fin 150 ∧
      ((JSNum.fin 200).mul ((JSNum.fin 1).add
        (calculateAverageGrowth [JSNum.fin 100, JSNum.fin 200]))).mul (JSNum.fin 3) =
          JSNum.fin 1200 :=
  ⟨{ totalRevenue := JSNum.fin 300
     totalCosts := JSNum.fin 0
     netProfit := JSNum.fin 300
     profitMargin := JSNum.fin 100
     revenueByMonth := [("2024-12", JSNum.fin 100), ("202025-01", JSNum.fin 200)]
     costsByMonth := []
     categorizedExpenses := [] },
    by decide!, by decide!, rfl, by decide, by decide!, by decide!⟩

/-- C14, amended: for every summary (an object holding each key once), `predictRevenue`
returns exactly `totalRevenue` when `revenueByMonth` has fewer than 2 keys; otherwise it
returns `v_last * (1 + calculateAverageGrowth(v)) * 3`, where `v` lists the monthly revenue
values in the ascending order in which JavaScript compares their keys as strings and `v_last`
is the value of the last key in that order; when every key has the form `YYYY-MM`, that order
is the chronological one and `v_last` is the value of the latest month. -/
theorem C14_predicted_revenue (processedData : ProcessedData)
    (hkeys : (objectKeys processedData.revenueByMonth).Nodup) :
    ((objectKeys processedData.revenueByMonth).length < 2 →
      predictRevenue processedData = processedData.totalRevenue) ∧
    (2 ≤ (objectKeys processedData.revenueByMonth).length →
      ∃ (series : List (String × JSNum)) (last : String × JSNum),
        series.Perm processedData.revenueByMonth ∧
        series.Pairwise (fun a b => jsStringLt b.1 a.1 = false) ∧
        ((∀ k ∈ objectKeys processedData.revenueByMonth, isYearMonth k = true) →
          series.Pairwise (fun a b => periodIndex a.1 < periodIndex b.1)) ∧
        series.getLast? = some last ∧
        predictRevenue processedData =
          (last.2.mul ((JSNum.fin 1).add (calculateAverageGrowth (series.map Prod.snd)))).mul
            (JSNum.fin 3)) := by
  have hlen : (jsSort (objectKeys processedData.revenueByMonth)).length =
      (objectKeys processedData.revenueByMonth).length :=
    List.length_insertionSort keyLe _
  constructor
  · intro h
    unfold predictRevenue
    simp only [hlen, h, if_true]
  · intro h
    have hperm := jsSort_perm (objectKeys processedData.revenueByMonth)
    have hne : (jsSort (objectKeys processedData.revenueByMonth)).map
        (fun k => (k, readNumber processedData.revenueByMonth k)) ≠ [] := by
      intro h0
      have := congrArg List.length h0
      simp only [List.length_map, hlen, List.length_nil] at this
      omega
    obtain ⟨last, hlast⟩ : ∃ last, ((jsSort (objectKeys processedData.revenueByMonth)).map
        (fun k => (k, readNumber processedData.revenueByMonth k))).getLast? = some last := by
      cases hl : ((jsSort (objectKeys processedData.revenueByMonth)).map
        (fun k => (k, readNumber processedData.revenueByMonth k))).getLast? with
      | none => exact absurd (List.getLast?_eq_none_iff.1 hl) hne
      | some x => exact ⟨x, rfl⟩
    refine ⟨_, last, ?_, ?_, ?_, hlast, ?_⟩
    · have := hperm.map (fun k => (k, readNumber processedData.revenueByMonth k))
      rw [map_readNumber_objectKeys _ hkeys] at this
      exact this
    · rw [List.pairwise_map]
      exact jsSort_sorted _
    · intro hform
      rw [List.pairwise_map]
      exact jsSort_chronological _ hkeys hform
    · have hvalues : ((jsSort (objectKeys processedData.revenueByMonth)).map
          (fun k => (k, readNumber processedData.revenueByMonth k))).map Prod.snd =
          (jsSort (objectKeys processedData.revenueByMonth)).map
            (fun k => readNumber processedData.revenueByMonth k) := by
        rw [List.map_map]
        rfl
      have hlastv : ((jsSort (objectKeys processedData.revenueByMonth)).map
          (fun k => readNumber processedData.revenueByMonth k)).getLast? = some last.2 := by
        rw [← hvalues, List.getLast?_map, hlast]
        rfl
      have hnot : ¬ (jsSort (objectKeys processedData.revenueByMonth)).length < 2 := by
        rw [hlen]; omega
      unfold predictRevenue
      simp only [hnot, if_false]
      rw [getD_last _ _ _ hlastv, hvalues]

/-- C14, amended, on a summary of one month and on a summary of two months stored later month
first, whose keys have the form `YYYY-MM`: the series is in chronological order. -/
theorem C14_predicted_revenue_witness :
    (objectKeys twoMonthSummary.revenueByMonth).Nodup ∧
    predictRevenue oneMonthSummary = oneMonthSummary.totalRevenue ∧
    ∃ (series : List (String × JSNum)) (last : String × JSNum),
      series.Perm twoMonthSummary.revenueByMonth ∧
      series.Pairwise (fun a b => jsStringLt b.1 a.1 = false) ∧
      series.Pairwise (fun a b => periodIndex a.1 < periodIndex b.1) ∧
      series.getLast? = some last ∧
      predictRevenue twoMonthSummary =
        (last.2.mul ((JSNum.fin 1).add (calculateAverageGrowth (series.map Prod.snd)))).mul
          (JSNum.fin 3) :=
  ⟨by decide, (C14_predicted_revenue oneMonthSummary (by decide)).1 (by decide),
    ((C14_predicted_revenue twoMonthSummary (by decide)).2 (by decide)).elim fun series h =>
      h.elim fun last hl =>
        ⟨series, last, hl.1, hl.2.1, hl.2.2.1 (by decide), hl.2.2.2.1, hl.2.2.2.2⟩⟩

/-! ## C15: insights and the API key -/

theorem append_starts (s t r : String) (h : s = "<ul>" ++ r) : s ++ t = "<ul>" ++ (r ++ t) := by
  rw [h, String.append_assoc]

/-- The performance fragment always opens a list. -/
theorem generatePerformanceAnalysis_starts (host : HostFormat) (summary : BusinessSummary) :
    ∃ r, generatePerformanceAnalysis host summary = "<ul>" ++ r := by
  have h0 : ("<ul>" : String) = "<ul>" ++ "" := by decide
  have step : ∀ s t : String, (∃ r, s = "<ul>" ++ r) → ∃ r, s ++ t = "<ul>" ++ r := by
    intro s t hs
    obtain ⟨r, hr⟩ := hs
    exact ⟨r ++ t, append_starts s t r hr⟩
  unfold generatePerformanceAnalysis
  apply step
  have h1 : ∃ r, (if summary.profitMargin.gt (JSNum.fin 20) then
      "<ul>" ++ ("<li>✅ <strong>Excellent profit margin</strong> of " ++
        host.toFixed1 summary.profitMargin ++ "% - well above industry average</li>")
    else if summary.profitMargin.gt (JSNum.fin 10) then
      "<ul>" ++ ("<li>✅ <strong>Good profit margin</strong> of " ++
        host.toFixed1 summary.profitMargin ++ "% - room for improvement</li>")
    else if summary.profitMargin.gt (JSNum.fin 0) then
      "<ul>" ++ ("<li>⚠️ <strong>Low profit margin</strong> of " ++
        host.toFixed1 summary.profitMargin ++ "% - needs attention</li>")
    else
      "<ul>" ++ "<li>🚨 <strong>Negative profit margin</strong> - immediate action required</li>")
      = "<ul>" ++ r := by
    split
    · exact ⟨_, rfl⟩
    · split
      · exact ⟨_, rfl⟩
      · split
        · exact ⟨_, rfl⟩
        · exact ⟨_, rfl⟩
  have h2 := step _ ("<li>💰 <strong>Average order value:</strong> " ++
    host.formatCurrency (avgOrderValueOf summary) ++ "</li>") h1
  simp only []
  split
  · split
    · exact step _ _ h2
    · exact step _ _ h2
  · exact h2

/-- The content `showAIError` writes is never the performance fragment. -/
theorem showAIError_ne_insights (host : HostFormat) (summary : BusinessSummary)
    (message : String) : showAIError message ≠ generateLocalInsights host summary := by
  intro h
  have hp : (showAIError message).performance =
      (generateLocalInsights host summary).performance := by rw [h]
  obtain ⟨r, hr⟩ := generatePerformanceAnalysis_starts host summary
  have hp2 : "<p style=\"color: #dc3545;\">⚠️ " ++ message ++ "</p>" = "<ul>" ++ r := by
    rw [← hr]
    exact hp
  have hd := congrArg String.data hp2
  simp only [String.data_append] at hd
  simp at hd

/-- C15, the claim as written fails: with the API key as shipped in `config.js` (the
placeholder, `validateAPIKey()` false), `performAIAnalysis` on the scenario of the
specification leaves the configuration message in the four panels, which is not what
`generateLocalInsights` gives for that summary. -/
theorem C15_unconfigured_key_shows_message :
    validateAPIKey AI_CONFIG = false ∧
    performAIAnalysis exactFormat AI_CONFIG scenarioProcessedData scenarioOrders scenarioCosts
        emptyPanels none =
      showAIError "Please configure your Hugging Face API key in config.js" ∧
    (performAIAnalysis exactFormat AI_CONFIG scenarioProcessedData scenarioOrders scenarioCosts
        emptyPanels none).performance =
      "<p style=\"color: #dc3545;\">⚠️ Please configure your Hugging Face API key in config.js</p>" ∧
    (generateLocalInsights exactFormat
      (generateBusinessSummary scenarioProcessedData scenarioOrders scenarioCosts)).performance =
      "<ul><li>✅ <strong>Excellent profit margin</strong> of 60.0% - well above industry average</li><li>💰 <strong>Average order value:</strong> $50.00</li></ul>" := by
  refine ⟨by decide, by decide, by decide, by decide!⟩

/-- C15, amended: when the API key is configured (`validateAPIKey()` true), the four outputs
of `performAIAnalysis` are exactly those of `generateLocalInsights` applied to the current
summary, both when the `try` block completes and when something in it fails (the `catch`
clause writes the local insights over its failure message); when the key is the unconfigured
placeholder (`validateAPIKey()` false) there is no fallback: the four outputs are the message
asking to configure the key, which differs from the local insights. -/
theorem C15_insights_need_configured_key (host : HostFormat) (config : AIConfig)
    (processedData : ProcessedData) (ordersData costsData : List Record) (panels : Insights)
    (tryBlockThrows : Option JSError) :
    (validateAPIKey config = true →
      performAIAnalysis host config processedData ordersData costsData panels tryBlockThrows =
        generateLocalInsights host
          (generateBusinessSummary processedData ordersData costsData)) ∧
    (validateAPIKey config = false →
      performAIAnalysis host config processedData ordersData costsData panels tryBlockThrows =
        showAIError "Please configure your Hugging Face API key in config.js" ∧
      performAIAnalysis host config processedData ordersData costsData panels tryBlockThrows ≠
        generateLocalInsights host
          (generateBusinessSummary processedData ordersData costsData)) := by
  constructor
  · intro h
    unfold performAIAnalysis
    simp only [h, Bool.not_true, Bool.false_eq_true, if_false, writePanels]
    cases tryBlockThrows <;> rfl
  · intro h
    have hrun : performAIAnalysis host config processedData ordersData costsData panels
        tryBlockThrows =
        showAIError "Please configure your Hugging Face API key in config.js" := by
      unfold performAIAnalysis
      simp only [h, Bool.not_false, if_true, writePanels]
    refine ⟨hrun, ?_⟩
    rw [hrun]
    exact showAIError_ne_insights host _ _

/-- C15, amended, on the scenario of the specification with a configured key and a failure
inside the `try` block: the panels hold the local insights. -/
theorem C15_insights_need_configured_key_witness :
    validateAPIKey configuredKey = true ∧
    performAIAnalysis exactFormat configuredKey scenarioProcessedData scenarioOrders
        scenarioCosts emptyPanels (some JSError.typeError) =
      generateLocalInsights exactFormat
        (generateBusinessSummary scenarioProcessedData scenarioOrders scenarioCosts) :=
  ⟨by decide, (C15_insights_need_configured_key exactFormat configuredKey scenarioProcessedData
    scenarioOrders scenarioCosts emptyPanels (some JSError.typeError)).1 (by decide)⟩

end ProfitPilot
